import Mathlib

/-!
Shallow embedding of the bbcode-rs BBCode pipeline (tokenizer, parser,
HTML renderer) and proofs about the claims of the specification.

Strings are modelled as `List Char`; Rust byte indices are modelled either
by character positions (where the source only ever slices at character
boundaries found through character predicates, making the two views
order-isomorphic) or by an explicit UTF-8 byte model (`utf8Bytes`) where
the source performs raw byte arithmetic (`tokenize_until_close`).
Fallible Rust operations (string slicing that can panic) are modelled
with `Option`, `none` denoting a panic.
-/

namespace BB

abbrev Str := List Char

/-- Shorthand turning a string literal into the `List Char` model. -/
def S (s : String) : Str := s.data

/-- Modelled from Rust `u8::to_ascii_lowercase` / `char::to_ascii_lowercase`. -/
def asciiLowerChar (c : Char) : Char :=
  if 'A' ≤ c ∧ c ≤ 'Z' then Char.ofNat (c.toNat + 32) else c

/-- Modelled from Rust `str::to_ascii_lowercase`. -/
def asciiLower (s : Str) : Str := s.map asciiLowerChar

/-- Modelled from Rust `str::eq_ignore_ascii_case`. -/
def eqIgnoreAsciiCase (a b : Str) : Bool := asciiLower a = asciiLower b

/-- Substring test, `haystack.contains(needle)` in Rust. -/
def containsSub : Str → Str → Bool
  | s, sub =>
    if sub.isPrefixOf s then true
    else match s with
      | [] => false
      | _ :: t => containsSub t sub

/-- First index (in list positions) where `sub` occurs in `s`, Rust `str::find`. -/
def findSub : Str → Str → Option Nat
  | s, sub =>
    if sub.isPrefixOf s then some 0
    else match s with
      | [] => none
      | _ :: t => (findSub t sub).map (· + 1)

/-- Modelled from the Unicode `White_Space` property used by Rust
`char::is_whitespace` (the full, finite list of White_Space code points). -/
def rustIsWhitespace (c : Char) : Bool :=
  let n := c.toNat
  (0x9 ≤ n ∧ n ≤ 0xd) ∨ n = 0x20 ∨ n = 0x85 ∨ n = 0xa0 ∨ n = 0x1680 ∨
  (0x2000 ≤ n ∧ n ≤ 0x200a) ∨ n = 0x2028 ∨ n = 0x2029 ∨ n = 0x202f ∨
  n = 0x205f ∨ n = 0x3000

/-- Modelled from Rust `char::is_alphanumeric` (Unicode Alphabetic or Nd etc.).
Exact on ASCII; every character above U+007F is treated as alphanumeric.
Only ASCII characters reach the tag-name scanning positions in the concrete
inputs used below, and the general theorems proved here do not depend on
where this predicate cuts a text run. -/
def rustIsAlphanumeric (c : Char) : Bool :=
  c.isAlphanum ∨ 0x80 ≤ c.toNat

/-- Modelled from the Rust standard library `str::to_lowercase` (full Unicode
lowercase mapping), restricted to the characters exercised by the theorems
below: ASCII uppercase letters map to their lowercase forms and U+0130
(LATIN CAPITAL LETTER I WITH DOT ABOVE) maps to "i" followed by U+0307
(COMBINING DOT ABOVE), as per Unicode SpecialCasing; all other characters
are mapped to themselves. -/
def rustToLowerChar (c : Char) : Str :=
  if 'A' ≤ c ∧ c ≤ 'Z' then [asciiLowerChar c]
  else if c = 'İ' then ['i', '̇']
  else [c]

/-- Modelled from Rust `str::to_lowercase` (see `rustToLowerChar`). -/
def rustToLower (s : Str) : Str := s.flatMap rustToLowerChar

/-- Rust `str::trim_start` (Unicode whitespace). -/
def trimStart (s : Str) : Str := s.dropWhile rustIsWhitespace

/-- Rust `str::trim_end` (Unicode whitespace). -/
def trimEnd (s : Str) : Str := (s.reverse.dropWhile rustIsWhitespace).reverse

/-- Rust `str::trim` (Unicode whitespace). -/
def rustTrim (s : Str) : Str := trimEnd (trimStart s)

/-- Number of UTF-8 bytes of one character. -/
def utf8Len (c : Char) : Nat :=
  if c.toNat < 0x80 then 1
  else if c.toNat < 0x800 then 2
  else if c.toNat < 0x10000 then 3
  else 4

/-- UTF-8 encoding of one character, as byte values. -/
def utf8Bytes (c : Char) : List Nat :=
  let n := c.toNat
  if n < 0x80 then [n]
  else if n < 0x800 then [0xc0 + n / 0x40, 0x80 + n % 0x40]
  else if n < 0x10000 then
    [0xe0 + n / 0x1000, 0x80 + n / 0x40 % 0x40, 0x80 + n % 0x40]
  else
    [0xf0 + n / 0x40000, 0x80 + n / 0x1000 % 0x40, 0x80 + n / 0x40 % 0x40,
     0x80 + n % 0x40]

/-- Byte length of a string, Rust `str::len`. -/
def byteLen (s : Str) : Nat := (s.map utf8Len).sum

/-- UTF-8 encoding of a string. -/
def strBytes (s : Str) : List Nat := s.flatMap utf8Bytes

/-- First byte index at which `pat` occurs inside `hay` (byte lists). -/
def findSubBytes : List Nat → List Nat → Option Nat
  | hay, pat =>
    if pat.isPrefixOf hay then some 0
    else match hay with
      | [] => none
      | _ :: t => (findSubBytes t pat).map (· + 1)

/-- Model of Rust slicing `&s[..b]` for a byte index `b`: returns the prefix
when `b` is a character boundary not exceeding the length, `none` (panic)
otherwise. -/
def takeBytes : Str → Nat → Option Str
  | _, 0 => some []
  | [], _ + 1 => none
  | c :: t, n + 1 =>
    if utf8Len c ≤ n + 1 then
      (takeBytes t (n + 1 - utf8Len c)).map (c :: ·)
    else none

/-- Model of Rust slicing `&s[a..]` for a byte index `a`: returns the suffix
when `a` is a character boundary not exceeding the length, `none` (panic)
otherwise. -/
def dropBytes : Str → Nat → Option Str
  | s, 0 => some s
  | [], _ + 1 => none
  | c :: t, n + 1 =>
    if utf8Len c ≤ n + 1 then dropBytes t (n + 1 - utf8Len c)
    else none

/-! ## Tokenizer (src/tokenizer.rs) -/

/-- Token type from `src/tokenizer.rs` (`Token`). Slices are carried as the
character lists they denote. -/
inductive Tok where
  | text (raw : Str)
  | linebreak (raw : Str)
  | openTag (raw : Str) (name : Str) (arg : Option Str)
  | closeTag (raw : Str) (name : Str)
  | url (raw : Str)
deriving DecidableEq, Repr

/-- `Token::as_raw`. -/
def Tok.raw : Tok → Str
  | .text s => s
  | .linebreak s => s
  | .openTag r _ _ => r
  | .closeTag r _ => r
  | .url r => r

/-- Index of the first character satisfying `p`, or the length if none does;
this is the `input.find(pred).unwrap_or(input.len())` pattern of the source
(byte indices in the source always sit on the character boundary of the
found character, so character positions are the faithful translation). -/
def findIdxOrLen (p : Char → Bool) (s : Str) : Nat :=
  match s.findIdx? p with
  | some i => i
  | none => s.length

/-- Argument part of `parse_open_tag`: after the tag name, either no `=`
(no argument), or `=` followed by a double- or single-quoted value (failing
without a closing quote) or an unquoted value up to the next `]`. -/
def parseArg (s1 : Str) : Option (Option Str × Str) :=
  match s1 with
  | '=' :: s2 =>
    match s2 with
    | '"' :: s3 =>
      match s3.findIdx? (· = '"') with
      | some q => some (some (s3.take q), s3.drop (q + 1))
      | none => none
    | '\'' :: s3 =>
      match s3.findIdx? (· = '\'') with
      | some q => some (some (s3.take q), s3.drop (q + 1))
      | none => none
    | _ =>
      let valueEnd := findIdxOrLen (· = ']') s2
      if valueEnd = 0 then none
      else some (some (s2.take valueEnd), s2.drop valueEnd)
  | _ => some (none, s1)

/-- `parse_open_tag`: parses `[name]` or `[name=value]` (value optionally
double- or single-quoted). Returns the token (raw field left empty, filled
in by `parseToken`) and the rest of the input. -/
def parseOpenTag (s : Str) : Option (Tok × Str) :=
  match s with
  | '[' :: rest =>
    match rest with
    | '/' :: _ => none
    | _ =>
      let nameEnd := findIdxOrLen
        (fun c => ¬ (rustIsAlphanumeric c ∨ c = '*' ∨ c = '-')) rest
      if nameEnd = 0 then none
      else
        let name := rest.take nameEnd
        let s1 := rest.drop nameEnd
        match parseArg s1 with
        | none => none
        | some (arg, s4) =>
          match s4 with
          | ']' :: s5 => some (.openTag [] name arg, s5)
          | _ => none
  | _ => none

/-- `parse_close_tag`: parses `[/name]`. -/
def parseCloseTag (s : Str) : Option (Tok × Str) :=
  match s with
  | '[' :: '/' :: rest =>
    let nameEnd := findIdxOrLen
      (fun c => ¬ (rustIsAlphanumeric c ∨ c = '*' ∨ c = '-')) rest
    if nameEnd = 0 then none
    else
      let name := rest.take nameEnd
      match rest.drop nameEnd with
      | ']' :: s2 => some (.closeTag [] name, s2)
      | _ => none
  | _ => none

/-- Characters the URL scanner stops at (`parse_url`). -/
def urlStop (c : Char) : Bool :=
  rustIsWhitespace c ∨ c = '[' ∨ c = ']' ∨ c = '<' ∨ c = '>'

/-- Trailing punctuation trimmed by `parse_url`. -/
def urlTrailingPunct (c : Char) : Bool :=
  c = '.' ∨ c = ',' ∨ c = ')' ∨ c = '!' ∨ c = '?' ∨ c = ':' ∨ c = ';'

/-- Rust `str::trim_end_matches`. -/
def trimEndMatches (p : Char → Bool) (s : Str) : Str :=
  (s.reverse.dropWhile p).reverse

/-- `parse_url`: recognizes `http://` / `https://` followed by URL characters
and trims trailing punctuation from the returned token payload. The input is
advanced past the untrimmed match; `parseToken` later overwrites the payload
with the full consumed slice (see the source, where the generic raw-slice
fix-up rewrites `Token::Url`). -/
def parseUrl (s : Str) : Option (Tok × Str) :=
  let isHttp := (S "http://").isPrefixOf s
  let isHttps := (S "https://").isPrefixOf s
  if ¬ (isHttp ∨ isHttps) then none
  else
    let protocolLen := if isHttps then 8 else 7
    let rest := s.drop protocolLen
    let urlEnd := findIdxOrLen urlStop rest
    let totalLen := protocolLen + urlEnd
    let url := trimEndMatches urlTrailingPunct (s.take totalLen)
    some (.url url, s.drop totalLen)

/-- `parse_linebreak`. -/
def parseLinebreak (s : Str) : Option (Tok × Str) :=
  match s with
  | '\r' :: '\n' :: rest => some (.linebreak (S "\r\n"), rest)
  | '\n' :: rest => some (.linebreak (S "\n"), rest)
  | '\r' :: rest => some (.linebreak (S "\r"), rest)
  | _ => none

/-- `parse_text`: text up to the next `[`, newline, carriage return or `h`. -/
def parseText (s : Str) : Option (Tok × Str) :=
  let e := findIdxOrLen (fun c => c = '[' ∨ c = '\n' ∨ c = '\r' ∨ c = 'h') s
  if e = 0 then none else some (.text (s.take e), s.drop e)

/-- Rewrites the token's slice to the raw consumed prefix, as the closure in
`parse_token` does for every variant (including `Token::Url`, whose trimmed
payload is thereby discarded). -/
def overrideRaw (t : Tok) (raw : Str) : Tok :=
  match t with
  | .text _ => .text raw
  | .linebreak _ => .linebreak raw
  | .openTag _ name arg => .openTag raw name arg
  | .closeTag _ name => .closeTag raw name
  | .url _ => .url raw

/-- `parse_token`: first of close tag, open tag, URL, linebreak, text; the
raw slice of the result is set to the consumed prefix. -/
def parseToken (s : Str) : Option (Tok × Str) :=
  let r := match parseCloseTag s with
    | some x => some x
    | none => match parseOpenTag s with
      | some x => some x
      | none => match parseUrl s with
        | some x => some x
        | none => match parseLinebreak s with
          | some x => some x
          | none => parseText s
  r.map (fun (t, rest) => (overrideRaw t (s.take (s.length - rest.length)), rest))

/-- Loop body of `tokenize`. Tokens are accumulated in reverse order together
with their start offset (character position standing for the Rust slice
pointer; boundary positions agree between the two views). The `none` branch
of `parseToken` consumes one character as text, merging it into an adjacent
preceding text token exactly as the source does with pointer arithmetic. -/
def tokenizeGo : Nat → Str → Nat → List (Tok × Nat) → List (Tok × Nat)
  | 0, _, _, acc => acc
  | _ + 1, [], _, acc => acc
  | fuel + 1, remaining, off, acc =>
    match parseToken remaining with
    | some (t, rest) =>
      let consumed := remaining.length - rest.length
      match t with
      | .text [] => tokenizeGo fuel rest (off + consumed) acc
      | _ => tokenizeGo fuel rest (off + consumed) ((t, off) :: acc)
    | none =>
      match remaining with
      | [] => acc
      | c :: rest =>
        match acc with
        | (Tok.text prev, prevOff) :: accRest =>
          if prevOff + prev.length = off then
            tokenizeGo fuel rest (off + 1) ((Tok.text (prev ++ [c]), prevOff) :: accRest)
          else
            tokenizeGo fuel rest (off + 1) ((Tok.text [c], off) :: acc)
        | _ => tokenizeGo fuel rest (off + 1) ((Tok.text [c], off) :: acc)

/-- `merge_text_tokens`: merges adjacent text tokens (adjacency checked by
start offsets, the model of the source's pointer comparison). The running
result is kept reversed so the head plays the role of `result.last_mut()`. -/
def mergeTextGo : List (Tok × Nat) → List (Tok × Nat) → List (Tok × Nat)
  | acc, [] => acc.reverse
  | acc, (tok, newOff) :: rest =>
    match tok, acc with
    | Tok.text newText, (Tok.text existing, exOff) :: accRest =>
      if exOff + existing.length = newOff then
        mergeTextGo ((Tok.text (existing ++ newText), exOff) :: accRest) rest
      else
        mergeTextGo ((Tok.text newText, newOff) :: acc) rest
    | _, _ => mergeTextGo ((tok, newOff) :: acc) rest

/-- `merge_text_tokens`. -/
def mergeTextTokens (toks : List (Tok × Nat)) : List (Tok × Nat) :=
  mergeTextGo [] toks

/-- `tokenize`, keeping each token's start offset. -/
def tokenizeOff (input : Str) : List (Tok × Nat) :=
  mergeTextTokens (tokenizeGo input.length input 0 []).reverse

/-- `tokenize` from `src/tokenizer.rs`. -/
def tokenize (input : Str) : List Tok :=
  (tokenizeOff input).map Prod.fst

/-- `tokenize_until_close` from `src/tokenizer.rs`. The close pattern is
searched in the Unicode-lowercased copy of the input, but the byte position
found there is used to slice the *original* input; the boundary/length
checks of Rust slicing are modelled by `takeBytes`/`dropBytes`, `none`
denoting a panic. -/
def tokenizeUntilClose (input : Str) (tagName : Str) :
    Option (Str × Str × Str) :=
  let closePatternLower := S "[/" ++ rustToLower tagName ++ S "]"
  let inputLower := rustToLower input
  match findSubBytes (strBytes inputLower) (strBytes closePatternLower) with
  | none => some (input, [], [])
  | some pos =>
    let closeTagLen := byteLen closePatternLower
    match takeBytes input pos, dropBytes input pos with
    | some content, some afterPos =>
      match takeBytes afterPos closeTagLen, dropBytes input (pos + closeTagLen) with
      | some closeTag, some remaining => some (content, closeTag, remaining)
      | _, _ => none
    | _, _ => none

/-! ## Tag registry (src/tags.rs) -/

/-- `TagType` from `src/ast.rs`. -/
inductive TagType where
  | inline | block | verbatim | selfClosing | void
deriving DecidableEq, Repr

/-- `TagDef` from `src/tags.rs`. -/
structure TagDef where
  name : Str
  aliases : List Str
  tagType : TagType
  optionRequired : Bool
  optionAllowed : Bool
  hasContent : Bool
  forbiddenAncestors : List Str
  requiredParents : List Str
  htmlTag : Option Str
  stopSmilies : Bool
  stopAutoLink : Bool
  convertNewlines : Bool
  trimContent : Bool
deriving DecidableEq, Repr

/-- Defaults shared by most definitions (mirrors the explicit field values in
`src/tags.rs`; there is no `Default` shortcut there, each static tag spells
every field, so this is only a notational device checked field-by-field). -/
def baseTag : TagDef :=
  { name := [], aliases := [], tagType := .inline, optionRequired := false,
    optionAllowed := true, hasContent := true, forbiddenAncestors := [],
    requiredParents := [], htmlTag := none, stopSmilies := false,
    stopAutoLink := false, convertNewlines := true, trimContent := false }

def TAG_BOLD : TagDef :=
  { baseTag with
    name := S "b"
    aliases := [S "bold"]
    htmlTag := some (S "strong")
    optionAllowed := false }

def TAG_ITALIC : TagDef :=
  { baseTag with
    name := S "i"
    aliases := [S "italic"]
    htmlTag := some (S "em")
    optionAllowed := false }

def TAG_UNDERLINE : TagDef :=
  { baseTag with
    name := S "u"
    aliases := [S "underline"]
    htmlTag := some (S "u")
    optionAllowed := false }

def TAG_STRIKETHROUGH : TagDef :=
  { baseTag with
    name := S "s"
    aliases := [S "strike", S "strikethrough"]
    htmlTag := some (S "s")
    optionAllowed := false }

def TAG_COLOR : TagDef :=
  { baseTag with
    name := S "color"
    aliases := [S "colour"]
    optionRequired := true }

def TAG_FONT : TagDef :=
  { baseTag with
    name := S "font"
    optionRequired := true }

def TAG_SIZE : TagDef :=
  { baseTag with
    name := S "size"
    optionRequired := true }

def TAG_URL : TagDef :=
  { baseTag with
    name := S "url"
    aliases := [S "link"]
    forbiddenAncestors := [S "url", S "email"]
    stopAutoLink := true }

def TAG_EMAIL : TagDef :=
  { baseTag with
    name := S "email"
    aliases := [S "mail"]
    forbiddenAncestors := [S "url", S "email"]
    stopAutoLink := true }

def TAG_IMG : TagDef :=
  { baseTag with
    name := S "img"
    aliases := [S "image"]
    tagType := .void
    stopSmilies := true
    stopAutoLink := true
    convertNewlines := false
    trimContent := true }

def TAG_QUOTE : TagDef :=
  { baseTag with
    name := S "quote"
    tagType := .block
    trimContent := true }

def TAG_CODE : TagDef :=
  { baseTag with
    name := S "code"
    tagType := .verbatim
    stopSmilies := true
    stopAutoLink := true
    convertNewlines := false }

def TAG_ICODE : TagDef :=
  { baseTag with
    name := S "icode"
    aliases := [S "c", S "inline"]
    tagType := .verbatim
    htmlTag := some (S "code")
    stopSmilies := true
    stopAutoLink := true
    convertNewlines := false }

def TAG_PHP : TagDef :=
  { baseTag with
    name := S "php"
    tagType := .verbatim
    optionAllowed := false
    stopSmilies := true
    stopAutoLink := true
    convertNewlines := false }

def TAG_HTML : TagDef :=
  { baseTag with
    name := S "html"
    tagType := .verbatim
    optionAllowed := false
    stopSmilies := true
    stopAutoLink := true
    convertNewlines := false }

def TAG_PLAIN : TagDef :=
  { baseTag with
    name := S "plain"
    aliases := [S "noparse", S "nobbc"]
    tagType := .verbatim
    optionAllowed := false
    stopSmilies := true
    stopAutoLink := true }

def TAG_LIST : TagDef :=
  { baseTag with
    name := S "list"
    tagType := .block
    convertNewlines := false
    trimContent := true }

def TAG_LIST_ITEM : TagDef :=
  { baseTag with
    name := S "*"
    aliases := [S "li"]
    tagType := .selfClosing
    htmlTag := some (S "li")
    optionAllowed := false
    requiredParents := [S "list"] }

def TAG_HR : TagDef :=
  { baseTag with
    name := S "hr"
    tagType := .selfClosing
    htmlTag := some (S "hr")
    optionAllowed := false
    hasContent := false }

def TAG_BR : TagDef :=
  { baseTag with
    name := S "br"
    tagType := .selfClosing
    htmlTag := some (S "br")
    optionAllowed := false
    hasContent := false }

def TAG_LEFT : TagDef :=
  { baseTag with
    name := S "left"
    tagType := .block
    optionAllowed := false }

def TAG_CENTER : TagDef :=
  { baseTag with
    name := S "center"
    tagType := .block
    optionAllowed := false }

def TAG_RIGHT : TagDef :=
  { baseTag with
    name := S "right"
    tagType := .block
    optionAllowed := false }

def TAG_JUSTIFY : TagDef :=
  { baseTag with
    name := S "justify"
    tagType := .block
    optionAllowed := false }

def TAG_INDENT : TagDef :=
  { baseTag with
    name := S "indent"
    tagType := .block }

def TAG_HEADING : TagDef :=
  { baseTag with
    name := S "heading"
    aliases := [S "h"]
    tagType := .block
    convertNewlines := false
    trimContent := true }

def TAG_SPOILER : TagDef :=
  { baseTag with
    name := S "spoiler"
    tagType := .block }

def TAG_ISPOILER : TagDef :=
  { baseTag with
    name := S "ispoiler"
    optionAllowed := false }

def TAG_USER : TagDef :=
  { baseTag with
    name := S "user"
    aliases := [S "member"]
    optionRequired := true
    stopSmilies := true
    stopAutoLink := true
    convertNewlines := false }

def TAG_SUB : TagDef :=
  { baseTag with
    name := S "sub"
    htmlTag := some (S "sub")
    optionAllowed := false }

def TAG_SUP : TagDef :=
  { baseTag with
    name := S "sup"
    htmlTag := some (S "sup")
    optionAllowed := false }

def TAG_TABLE : TagDef :=
  { baseTag with
    name := S "table"
    tagType := .block
    htmlTag := some (S "table")
    convertNewlines := false
    trimContent := true }

def TAG_TR : TagDef :=
  { baseTag with
    name := S "tr"
    tagType := .block
    htmlTag := some (S "tr")
    optionAllowed := false
    requiredParents := [S "table"]
    convertNewlines := false
    trimContent := true }

def TAG_TH : TagDef :=
  { baseTag with
    name := S "th"
    tagType := .block
    htmlTag := some (S "th")
    requiredParents := [S "tr"] }

def TAG_TD : TagDef :=
  { baseTag with
    name := S "td"
    tagType := .block
    htmlTag := some (S "td")
    requiredParents := [S "tr"] }

/-- `STANDARD_TAGS`. -/
def STANDARD_TAGS : List TagDef :=
  [TAG_BOLD, TAG_ITALIC, TAG_UNDERLINE, TAG_STRIKETHROUGH, TAG_COLOR, TAG_FONT,
   TAG_SIZE, TAG_SUB, TAG_SUP, TAG_URL, TAG_EMAIL, TAG_IMG, TAG_QUOTE, TAG_CODE,
   TAG_ICODE, TAG_PHP, TAG_HTML, TAG_PLAIN, TAG_LIST, TAG_LIST_ITEM, TAG_LEFT,
   TAG_CENTER, TAG_RIGHT, TAG_JUSTIFY, TAG_INDENT, TAG_HEADING, TAG_HR, TAG_BR,
   TAG_SPOILER, TAG_ISPOILER, TAG_USER, TAG_TABLE, TAG_TR, TAG_TH, TAG_TD]

/-- Key/definition pairs inserted by `TagRegistry::register` for each standard
tag: the canonical name and every alias map to the same definition. -/
def staticPairs : List (Str × TagDef) :=
  STANDARD_TAGS.flatMap (fun t => (t.name, t) :: t.aliases.map (fun a => (a, t)))

/-- `TagRegistry::resolve` for the default registry (no custom tags are
registered by `Parser::new` / `Renderer::new`, so only the static map is
consulted): case-insensitive lookup through canonical names and aliases. -/
def resolveTag (name : Str) : Option TagDef :=
  let lower := asciiLower name
  (staticPairs.find? (fun p => p.1 = lower)).map Prod.snd

/-- `ResolvedTag::is_ancestor_forbidden`. -/
def isAncestorForbidden (t : TagDef) (ancestor : Str) : Bool :=
  let ancestorLower := asciiLower ancestor
  t.forbiddenAncestors.any (fun a => eqIgnoreAsciiCase a ancestorLower)

/-- `ResolvedTag::has_required_parent` (static case). -/
def hasRequiredParent (t : TagDef) (stack : List Str) : Bool :=
  if t.requiredParents.isEmpty then true
  else stack.any (fun s => t.requiredParents.any (fun r => eqIgnoreAsciiCase r s))

/-! ## AST (src/ast.rs) -/

/-- `TagOption` from `src/ast.rs`; the `Map` variant's `HashMap` is modelled
as an association list with at most one binding per key (inserts replace). -/
inductive TagOpt where
  | none
  | scalar (s : Str)
  | map (m : List (Str × Str))
deriving DecidableEq, Repr

/-- `TagOption::is_none`. -/
def TagOpt.isNone : TagOpt → Bool
  | .none => true
  | _ => false

/-- `TagOption::as_scalar`. -/
def TagOpt.asScalar : TagOpt → Option Str
  | .scalar s => some s
  | _ => Option.none

/-- `TagOption::as_map`. -/
def TagOpt.asMap : TagOpt → Option (List (Str × Str))
  | .map m => some m
  | _ => Option.none

/-- `HashMap::insert` on the association-list model: replaces the binding of
an existing key, otherwise appends. -/
def mapInsert (m : List (Str × Str)) (k v : Str) : List (Str × Str) :=
  match m with
  | [] => [(k, v)]
  | (k0, v0) :: rest =>
    if k0 = k then (k0, v) :: rest else (k0, v0) :: mapInsert rest k v

/-- `HashMap::get`. -/
def mapGet (m : List (Str × Str)) (k : Str) : Option Str :=
  (m.find? (fun p => p.1 = k)).map Prod.snd

mutual

/-- `Node` from `src/ast.rs`; the `Tag` variant carries the `TagNode` fields
inline (name, raw name, option, children, closed, raw open, raw close,
broken). The children vector is the mutually defined `NodeList` (a plain
cons-list of nodes, standing for Rust's `Vec<Node>`). -/
inductive Node where
  | text (s : Str)
  | linebreak
  | autoUrl (s : Str)
  | tag (name : Str) (rawName : Str) (opt : TagOpt) (children : NodeList)
      (closed : Bool) (rawOpen : Str) (rawClose : Str) (broken : Bool)
deriving Repr

/-- List of nodes (Rust `Vec<Node>`), mutually inductive with `Node`. -/
inductive NodeList where
  | nil
  | cons (n : Node) (l : NodeList)
deriving Repr

end

mutual

/-- Structural equality test on nodes (used to obtain a decidable equality
that evaluates by kernel reduction). -/
def nodeBeq : Node → Node → Bool
  | .text a, .text b => decide (a = b)
  | .linebreak, .linebreak => true
  | .autoUrl a, .autoUrl b => decide (a = b)
  | .tag n1 rn1 o1 ch1 cl1 ro1 rc1 br1, .tag n2 rn2 o2 ch2 cl2 ro2 rc2 br2 =>
    decide (n1 = n2) && decide (rn1 = rn2) && decide (o1 = o2) &&
    nodeListBeq ch1 ch2 && decide (cl1 = cl2) && decide (ro1 = ro2) &&
    decide (rc1 = rc2) && decide (br1 = br2)
  | _, _ => false

/-- Structural equality test on node lists. -/
def nodeListBeq : NodeList → NodeList → Bool
  | .nil, .nil => true
  | .cons a as, .cons b bs => nodeBeq a b && nodeListBeq as bs
  | _, _ => false

end

mutual

theorem nodeBeq_iff : ∀ (a b : Node), nodeBeq a b = true ↔ a = b
  | .text a, .text b => by simp [nodeBeq]
  | .text _, .linebreak => by simp [nodeBeq]
  | .text _, .autoUrl _ => by simp [nodeBeq]
  | .text _, .tag _ _ _ _ _ _ _ _ => by simp [nodeBeq]
  | .linebreak, .text _ => by simp [nodeBeq]
  | .linebreak, .linebreak => by simp [nodeBeq]
  | .linebreak, .autoUrl _ => by simp [nodeBeq]
  | .linebreak, .tag _ _ _ _ _ _ _ _ => by simp [nodeBeq]
  | .autoUrl _, .text _ => by simp [nodeBeq]
  | .autoUrl _, .linebreak => by simp [nodeBeq]
  | .autoUrl a, .autoUrl b => by simp [nodeBeq]
  | .autoUrl _, .tag _ _ _ _ _ _ _ _ => by simp [nodeBeq]
  | .tag _ _ _ _ _ _ _ _, .text _ => by simp [nodeBeq]
  | .tag _ _ _ _ _ _ _ _, .linebreak => by simp [nodeBeq]
  | .tag _ _ _ _ _ _ _ _, .autoUrl _ => by simp [nodeBeq]
  | .tag n1 rn1 o1 ch1 cl1 ro1 rc1 br1, .tag n2 rn2 o2 ch2 cl2 ro2 rc2 br2 => by
    simp [nodeBeq, nodeListBeq_iff ch1 ch2, and_assoc]

theorem nodeListBeq_iff : ∀ (a b : NodeList), nodeListBeq a b = true ↔ a = b
  | .nil, .nil => by simp [nodeListBeq]
  | .nil, .cons _ _ => by simp [nodeListBeq]
  | .cons _ _, .nil => by simp [nodeListBeq]
  | .cons a as, .cons b bs => by
    simp [nodeListBeq, nodeBeq_iff a b, nodeListBeq_iff as bs]

end

instance : DecidableEq Node := fun a b => decidable_of_iff _ (nodeBeq_iff a b)

instance : DecidableEq NodeList := fun a b =>
  decidable_of_iff _ (nodeListBeq_iff a b)

/-- Concatenation of node lists (`Vec` concatenation). -/
def NodeList.append : NodeList → NodeList → NodeList
  | .nil, l => l
  | .cons n t, l => .cons n (NodeList.append t l)

instance : Append NodeList := ⟨NodeList.append⟩

/-- Singleton node list. -/
def NodeList.one (n : Node) : NodeList := .cons n .nil

/-- Pushing one node at the end (`Vec::push`). -/
def NodeList.push (l : NodeList) (n : Node) : NodeList := l ++ NodeList.one n

/-- View as an ordinary list. -/
def NodeList.toList : NodeList → List Node
  | .nil => []
  | .cons n t => n :: NodeList.toList t

/-- `TagNode` from `src/ast.rs` as a record (used for the parser stack). -/
structure TagNode where
  name : Str
  rawName : Str
  opt : TagOpt
  children : NodeList
  closed : Bool
  rawOpen : Str
  rawClose : Str
  broken : Bool
deriving DecidableEq, Repr

/-- View of a `TagNode` as a `Node`. -/
def Node.ofTag (t : TagNode) : Node :=
  .tag t.name t.rawName t.opt t.children t.closed t.rawOpen t.rawClose t.broken

/-! ## Parser (src/parser.rs) -/

/-- `ParserConfig`. -/
structure ParserConfig where
  maxDepth : Nat
  autoLink : Bool
  convertLinebreaks : Bool
  allowUnknownTags : Bool

/-- `ParserConfig::default`. -/
def defaultParserConfig : ParserConfig :=
  { maxDepth := 50, autoLink := true, convertLinebreaks := true,
    allowUnknownTags := true }

/-- `Parser::looks_like_keyed_options`: the first non-ASCII-alphabetic
character exists, is not at position 0, and is `=`. -/
def looksLikeKeyedOptions (s : Str) : Bool :=
  match s.findIdx? (fun c => ¬ c.isAlpha) with
  | some pos => 0 < pos ∧ s.get? pos = some '='
  | none => false

/-- Loop of `Parser::parse_keyed_options`; the fuel strictly exceeds the
remaining length, which shrinks every round, so exhaustion is unreachable. -/
def parseKeyedGo : Nat → Str → List (Str × Str) → Option (List (Str × Str))
  | 0, _, m => some m
  | fuel + 1, remaining, m =>
    if remaining.isEmpty then some m
    else match remaining.findIdx? (· = '=') with
    | Option.none => Option.none
    | some eqPos =>
      let key := rustTrim (remaining.take eqPos)
      let rem1 := trimStart (remaining.drop (eqPos + 1))
      match rem1 with
      | '"' :: tail =>
        match tail.findIdx? (· = '"') with
        | Option.none => Option.none
        | some e =>
          parseKeyedGo fuel (trimStart (rem1.drop (e + 2)))
            (mapInsert m key (tail.take e))
      | '\'' :: tail =>
        match tail.findIdx? (· = '\'') with
        | Option.none => Option.none
        | some e =>
          parseKeyedGo fuel (trimStart (rem1.drop (e + 2)))
            (mapInsert m key (tail.take e))
      | _ =>
        let e := findIdxOrLen (· = ' ') rem1
        parseKeyedGo fuel (trimStart (rem1.drop e)) (mapInsert m key (rem1.take e))

/-- `Parser::parse_keyed_options`. -/
def parseKeyedOptions (input : Str) : Option (List (Str × Str)) :=
  match parseKeyedGo (input.length + 1) (rustTrim input) [] with
  | some m => if m.isEmpty then Option.none else some m
  | Option.none => Option.none

/-- `Parser::parse_option_resolved` (its `ResolvedTag` parameter is unused in
the source). -/
def parseOption (arg : Option Str) : TagOpt :=
  match arg with
  | Option.none => .none
  | some [] => .none
  | some s =>
    if looksLikeKeyedOptions s then
      match parseKeyedOptions s with
      | some m => .map m
      | Option.none => .scalar s
    else .scalar s

/-- Scanning loop of `Parser::parse_single_tag`: walks tokens tracking the
nesting level of same-name tags; only text, linebreak and URL tokens become
children. Returns (children, raw close, closed, consumed). -/
def parseSingleGo (lowerName : Str) :
    List Tok → Nat → Nat → NodeList → (NodeList × Str × Bool × Nat)
  | [], _, consumed, children => (children, [], false, consumed)
  | t :: ts, nesting, consumed, children =>
    match t with
    | .openTag _ n _ =>
      if eqIgnoreAsciiCase n lowerName then
        parseSingleGo lowerName ts (nesting + 1) (consumed + 1) children
      else parseSingleGo lowerName ts nesting (consumed + 1) children
    | .closeTag craw n =>
      if eqIgnoreAsciiCase n lowerName then
        if nesting = 1 then (children, craw, true, consumed + 1)
        else parseSingleGo lowerName ts (nesting - 1) (consumed + 1) children
      else parseSingleGo lowerName ts nesting (consumed + 1) children
    | .text txt =>
      parseSingleGo lowerName ts nesting (consumed + 1) (children.push (Node.text txt))
    | .linebreak _ =>
      parseSingleGo lowerName ts nesting (consumed + 1) (children.push Node.linebreak)
    | .url u =>
      parseSingleGo lowerName ts nesting (consumed + 1) (children.push (Node.autoUrl u))

/-- `Parser::parse_single_tag` (its input and depth parameters are unused in
the source). -/
def parseSingleTag (toks : List Tok) : Option (Node × Nat) :=
  match toks with
  | Tok.openTag raw name arg :: rest =>
    let lowerName := asciiLower name
    match resolveTag lowerName with
    | Option.none => Option.none
    | some _resolved =>
      let opt := parseOption arg
      let r := parseSingleGo lowerName rest 1 1 .nil
      some (Node.tag lowerName name opt r.1 r.2.2.1 raw r.2.1 false, r.2.2.2)
  | _ => Option.none

/-- Sum of the byte lengths of the tokens' raw slices. -/
def toksByteLen (ts : List Tok) : Nat := (ts.map (fun t => byteLen t.raw)).sum

/-- Content-collection loop for a `[*]` list item (the `SelfClosing` `*`
branch of `Parser::parse_tokens`): children are collected until the next
`[*]` open tag or `[/list]` close tag, which is left unconsumed. `pos` is
the byte offset of the head token. -/
def listItemGo : Nat → List Tok → Nat → NodeList → (NodeList × List Tok × Nat)
  | 0, toks, pos, children => (children, toks, pos)
  | _ + 1, [], pos, children => (children, [], pos)
  | fuel + 1, t :: ts, pos, children =>
    match t with
    | .openTag _ n _ =>
      if eqIgnoreAsciiCase n (S "*") then (children, t :: ts, pos)
      else
        match parseSingleTag (t :: ts) with
        | some (node, consumed) =>
          listItemGo fuel ((t :: ts).drop consumed)
            (pos + toksByteLen ((t :: ts).take consumed)) (children.push node)
        | Option.none => listItemGo fuel ts (pos + byteLen t.raw) children
    | .closeTag _ n =>
      if eqIgnoreAsciiCase n (S "list") then (children, t :: ts, pos)
      else
        match parseSingleTag (t :: ts) with
        | some (node, consumed) =>
          listItemGo fuel ((t :: ts).drop consumed)
            (pos + toksByteLen ((t :: ts).take consumed)) (children.push node)
        | Option.none => listItemGo fuel ts (pos + byteLen t.raw) children
    | .text txt => listItemGo fuel ts (pos + byteLen t.raw) (children.push (Node.text txt))
    | .linebreak _ => listItemGo fuel ts (pos + byteLen t.raw) (children.push Node.linebreak)
    | .url u => listItemGo fuel ts (pos + byteLen t.raw) (children.push (Node.autoUrl u))

/-- `Parser::skip_tokens_until_pos`: drops tokens whose byte start offset is
below `target`; returns the remaining tokens and the offset of their head. -/
def skipToksGo : List Tok → Nat → Nat → (List Tok × Nat)
  | [], pos, _ => ([], pos)
  | t :: ts, pos, target =>
    if target ≤ pos then (t :: ts, pos)
    else skipToksGo ts (pos + byteLen t.raw) target

/-- `Parser::push_to_stack_or_doc`: the node becomes a child of the stack top
(stack is kept top-at-head), or a document root node. -/
def pushTo (stack : List TagNode) (doc : List Node) (n : Node) :
    List TagNode × List Node :=
  match stack with
  | t :: rest => ({ t with children := t.children.push n } :: rest, doc)
  | [] => ([], doc ++ [n])

/-- Inner loop of the end-of-input drain: the popped top `t` becomes a child
of the next entry below, or a document root node when the stack is empty. -/
def drainGo (t : TagNode) : List TagNode → List Node → List Node
  | [], doc => doc ++ [Node.ofTag t]
  | p :: rest, doc =>
    drainGo { p with children := p.children.push (Node.ofTag t) } rest doc

/-- End-of-input drain of `Parser::parse_tokens`: remaining open tags are
popped innermost-first; each becomes a child of the next one below (or a
document root node). They are not marked closed. -/
def drainStack : List TagNode → List Node → List Node
  | [], doc => doc
  | t :: rest, doc => drainGo t rest doc

/-- Marks every stack entry of the split segment closed (the matched entry
because of the close tag, the ones above because of the recovery rule). -/
def markAllClosed (seg : List TagNode) : List TagNode :=
  seg.map (fun t => { t with closed := true })

/-- Stores the raw close-tag slice on the matched entry (the last element in
top-at-head order, i.e. `closed.first_mut()` of the source). -/
def setLastRawClose : List TagNode → Str → List TagNode
  | [], _ => []
  | [t], raw => [{ t with rawClose := raw }]
  | t :: ts, raw => t :: setLastRawClose (ts) raw

/-- The bottom-up fold of the close handler: starting from the innermost
(top) entry, each parent absorbs the accumulated node as its last child. -/
def foldInto : TagNode → List TagNode → TagNode
  | cur, [] => cur
  | cur, p :: ps => foldInto { p with children := p.children.push (Node.ofTag cur) } ps

/-- Close-tag handling on the split segment `[top, …, matched]` (top-at-head
order): mark everything closed, store the raw close tag on the matched
entry, and fold bottom-up. `none` only for an empty segment, which mirrors
the source's `if let Some(..) = closed.first_mut()` and cannot occur. -/
def applyClose (seg : List TagNode) (raw : Str) : Option TagNode :=
  match setLastRawClose (markAllClosed seg) raw with
  | [] => Option.none
  | t0 :: ts => some (foldInto t0 ts)

/-- `Parser::check_ancestors_resolved`. -/
def checkAncestors (stack : List TagNode) (t : TagDef) : Bool :=
  stack.all (fun a => ¬ isAncestorForbidden t a.name)

/-- Main loop of `Parser::parse_tokens` for the default registry. The stack
is top-at-head; `pos` is the byte offset of the head token inside `input`
(the model of the source's slice-pointer arithmetic, valid because tokens
tile the input). `none` models a panic inside `tokenize_until_close`.
The fuel strictly exceeds the token count and every round consumes at least
one token, so exhaustion is unreachable. -/
def parseTokensGo (cfg : ParserConfig) (input : Str) (depth : Nat) :
    Nat → List Tok → Nat → List TagNode → List Node → Option (List Node)
  | 0, _, _, stack, doc => some (drainStack stack doc)
  | _ + 1, [], _, stack, doc => some (drainStack stack doc)
  | fuel + 1, tok :: rest, pos, stack, doc =>
    let nextPos := pos + byteLen tok.raw
    let asText : Option (List Node) :=
      let sd := pushTo stack doc (Node.text tok.raw)
      parseTokensGo cfg input depth fuel rest nextPos sd.1 sd.2
    match tok with
    | .text s =>
      let sd := pushTo stack doc (Node.text s)
      parseTokensGo cfg input depth fuel rest nextPos sd.1 sd.2
    | .linebreak _ =>
      let sd := pushTo stack doc Node.linebreak
      parseTokensGo cfg input depth fuel rest nextPos sd.1 sd.2
    | .url u =>
      let sd := pushTo stack doc (Node.autoUrl u)
      parseTokensGo cfg input depth fuel rest nextPos sd.1 sd.2
    | .closeTag raw name =>
      let lowerName := asciiLower name
      match stack.findIdx? (fun t => eqIgnoreAsciiCase t.name lowerName) with
      | some k =>
        let seg := stack.take (k + 1)
        let stackRest := stack.drop (k + 1)
        match applyClose seg raw with
        | some folded =>
          let sd := pushTo stackRest doc (Node.ofTag folded)
          parseTokensGo cfg input depth fuel rest nextPos sd.1 sd.2
        | Option.none =>
          parseTokensGo cfg input depth fuel rest nextPos stackRest doc
      | Option.none =>
        let sd := pushTo stack doc (Node.text raw)
        parseTokensGo cfg input depth fuel rest nextPos sd.1 sd.2
    | .openTag raw name arg =>
      let lowerName := asciiLower name
      match resolveTag lowerName with
      | Option.none =>
        -- Both the `allow_unknown_tags` branch and its else emit the raw text.
        asText
      | some resolved =>
        if cfg.maxDepth ≤ depth + stack.length then asText
        else if ¬ checkAncestors stack resolved then asText
        else if ¬ hasRequiredParent resolved (stack.map TagNode.name) then asText
        else
          let opt := parseOption arg
          if resolved.optionRequired ∧ opt.isNone then asText
          else
            let tagNameForClose := lowerName
            let tagNode : TagNode :=
              { name := lowerName
                rawName := name
                opt := opt
                children := .nil
                closed := false
                rawOpen := raw
                rawClose := []
                broken := false }
            if resolved.tagType = TagType.selfClosing then
              if resolved.name = S "*" then
                let r := listItemGo (rest.length + 1) rest nextPos .nil
                let node := Node.ofTag { tagNode with children := r.1, closed := true }
                let sd := pushTo stack doc node
                parseTokensGo cfg input depth fuel r.2.1 r.2.2 sd.1 sd.2
              else
                let sd := pushTo stack doc (Node.ofTag { tagNode with closed := true })
                parseTokensGo cfg input depth fuel rest nextPos sd.1 sd.2
            else if resolved.tagType = TagType.verbatim then
              match dropBytes input nextPos with
              | Option.none => Option.none
              | some remainingStr =>
                match tokenizeUntilClose remainingStr tagNameForClose with
                | Option.none => Option.none
                | some (content, closeTag, _restStr) =>
                  if ¬ closeTag.isEmpty then
                    let node :=
                      { tagNode with
                        children := NodeList.one (Node.text content)
                        rawClose := closeTag
                        closed := true }
                    let closeEnd := nextPos + byteLen content + byteLen closeTag
                    let sk := skipToksGo rest nextPos closeEnd
                    let sd := pushTo stack doc (Node.ofTag node)
                    parseTokensGo cfg input depth fuel sk.1 sk.2 sd.1 sd.2
                  else
                    parseTokensGo cfg input depth fuel rest nextPos
                      (tagNode :: stack) doc
            else
              parseTokensGo cfg input depth fuel rest nextPos (tagNode :: stack) doc

/-- `Parser::parse` with the default registry: tokenize, then build the
document (`none` models a panic). -/
def parseDoc (cfg : ParserConfig) (input : Str) : Option (List Node) :=
  let toks := tokenize input
  parseTokensGo cfg input 0 (toks.length + 1) toks 0 [] []

/-! ## Renderer (src/renderer.rs) -/

/-- `RenderConfig`. The `classPre` field models the source's class prefix
configuration field (default `"bbcode"`); `smilies` is carried but unused by
the renderer, as in the source. -/
structure RenderConfig where
  classPre : Str
  nofollowLinks : Bool
  openLinksInNewTab : Bool
  sanitize : Bool
  convertLinebreaks : Bool
  smilies : List (Str × Str)
  allowedSchemes : List Str

/-- `RenderConfig::default`. -/
def defaultRenderConfig : RenderConfig :=
  { classPre := S "bbcode"
    nofollowLinks := true
    openLinksInNewTab := false
    sanitize := true
    convertLinebreaks := true
    smilies := []
    allowedSchemes := [S "http", S "https", S "mailto"] }

/-- Replacement of one character by `escape_html`. -/
def escapeChar (c : Char) : Str :=
  if c = '<' then S "&lt;"
  else if c = '>' then S "&gt;"
  else if c = '&' then S "&amp;"
  else if c = '"' then S "&quot;"
  else if c = '\'' then S "&#x27;"
  else [c]

/-- Characters `escape_html` replaces. -/
def isEscapable (c : Char) : Bool :=
  c = '<' ∨ c = '>' ∨ c = '&' ∨ c = '"' ∨ c = '\''

/-- `escape_html` from `src/renderer.rs` (the zero-copy fast path returns the
input unchanged, which coincides with the mapped result). -/
def escapeHtml (input : Str) : Str :=
  if ¬ input.any isEscapable then input
  else input.flatMap escapeChar

/-- Rust `char::is_ascii_hexdigit`. -/
def isAsciiHexDigit (c : Char) : Bool :=
  c.isDigit ∨ ('a' ≤ c ∧ c ≤ 'f') ∨ ('A' ≤ c ∧ c ≤ 'F')

/-- `VALID_COLORS` from `src/renderer.rs` (all 151 entries, in order). -/
def VALID_COLORS : List Str :=
  [S "aliceblue", S "antiquewhite", S "aqua", S "aquamarine", S "azure",
   S "beige", S "bisque", S "black", S "blanchedalmond", S "blue",
   S "blueviolet", S "brown", S "burlywood", S "cadetblue", S "chartreuse",
   S "chocolate", S "coral", S "cornflowerblue", S "cornsilk", S "crimson",
   S "cyan", S "darkblue", S "darkcyan", S "darkgoldenrod", S "darkgray",
   S "darkgrey", S "darkgreen", S "darkkhaki", S "darkmagenta",
   S "darkolivegreen", S "darkorange", S "darkorchid", S "darkred",
   S "darksalmon", S "darkseagreen", S "darkslateblue", S "darkslategray",
   S "darkslategrey", S "darkturquoise", S "darkviolet", S "deeppink",
   S "deepskyblue", S "dimgray", S "dimgrey", S "dodgerblue", S "firebrick",
   S "floralwhite", S "forestgreen", S "fuchsia", S "gainsboro",
   S "ghostwhite", S "gold", S "goldenrod", S "gray", S "grey", S "green",
   S "greenyellow", S "honeydew", S "hotpink", S "indianred", S "indigo",
   S "ivory", S "khaki", S "lavender", S "lavenderblush", S "lawngreen",
   S "lemonchiffon", S "lightblue", S "lightcoral", S "lightcyan",
   S "lightgoldenrodyellow", S "lightgray", S "lightgrey", S "lightgreen",
   S "lightpink", S "lightsalmon", S "lightseagreen", S "lightskyblue",
   S "lightslategray", S "lightslategrey", S "lightsteelblue",
   S "lightyellow", S "lime", S "limegreen", S "linen", S "magenta",
   S "maroon", S "mediumaquamarine", S "mediumblue", S "mediumorchid",
   S "mediumpurple", S "mediumseagreen", S "mediumslateblue",
   S "mediumspringgreen", S "mediumturquoise", S "mediumvioletred",
   S "midnightblue", S "mintcream", S "mistyrose", S "moccasin",
   S "navajowhite", S "navy", S "oldlace", S "olive", S "olivedrab",
   S "orange", S "orangered", S "orchid", S "palegoldenrod", S "palegreen",
   S "paleturquoise", S "palevioletred", S "papayawhip", S "peachpuff",
   S "peru", S "pink", S "plum", S "powderblue", S "purple",
   S "rebeccapurple", S "red", S "rosybrown", S "royalblue",
   S "saddlebrown", S "salmon", S "sandybrown", S "seagreen", S "seashell",
   S "sienna", S "silver", S "skyblue", S "slateblue", S "slategray",
   S "slategrey", S "snow", S "springgreen", S "steelblue", S "tan",
   S "teal", S "thistle", S "tomato", S "transparent", S "turquoise",
   S "violet", S "wheat", S "white", S "whitesmoke", S "yellow",
   S "yellowgreen"]

/-- `is_valid_color` from `src/renderer.rs`. The hex branch uses the byte
length of the part after `#`; all-hex-digit strings are ASCII, so the
character length used here agrees with it on every accepted value and both
reject otherwise. -/
def isValidColor (color : Str) : Bool :=
  match color with
  | '#' :: hex =>
    (hex.length = 3 ∨ hex.length = 6) ∧ hex.all isAsciiHexDigit
  | _ =>
    if (S "rgb").isPrefixOf color then
      color.all (fun c => c.isAlphanum ∨ c = '(' ∨ c = ')' ∨ c = ',' ∨
        c = ' ' ∨ c = '.')
    else VALID_COLORS.any (fun n => n = asciiLower color)

/-- `is_valid_font`. -/
def isValidFont (font : Str) : Bool :=
  font.all (fun c => c.isAlphanum ∨ c = ' ' ∨ c = '-' ∨ c = '_')

/-- Rust unsigned integer `FromStr`: an optional leading `+`, then one or
more ASCII digits, value within the type's range. -/
def parseUint (s : Str) (maxVal : Nat) : Option Nat :=
  let t := match s with
    | '+' :: r => r
    | _ => s
  if t.isEmpty then Option.none
  else if t.all (fun c => c.isDigit) then
    let v := t.foldl (fun acc c => acc * 10 + (c.toNat - 48)) 0
    if v ≤ maxVal then some v else Option.none
  else Option.none

/-- `str::parse::<u8>`. -/
def parseU8 (s : Str) : Option Nat := parseUint s 255

/-- `str::parse::<u16>`. -/
def parseU16 (s : Str) : Option Nat := parseUint s 65535

/-- `str::parse::<u32>`. -/
def parseU32 (s : Str) : Option Nat := parseUint s 4294967295

/-- Decimal rendering of a natural number, Rust `format!("{}", n)`. -/
def natToStr (n : Nat) : Str := Nat.toDigits 10 n

/-- The XenForo size table of `parse_size` (sizes 1–7). -/
def xenForoPx (n : Nat) : Nat :=
  if n = 1 then 9 else if n = 2 then 10 else if n = 3 then 12
  else if n = 4 then 15 else if n = 5 then 18 else if n = 6 then 22
  else if n = 7 then 26 else 12

/-- `parse_size` from `src/renderer.rs`. -/
def parseSize (size : Str) : Option Str :=
  let numCase : Option Str :=
    match parseU8 size with
    | some n =>
      if 1 ≤ n ∧ n ≤ 7 then some (natToStr (xenForoPx n) ++ S "px")
      else if 8 ≤ n ∧ n ≤ 200 then
        if n ≤ 100 then some (natToStr n ++ S "%")
        else some (natToStr (min n 36) ++ S "px")
      else Option.none
    | Option.none => Option.none
  match numCase with
  | some r => some r
  | Option.none =>
    let pxCase : Option Str :=
      if (S "px").isSuffixOf size then
        match parseU8 (size.take (size.length - 2)) with
        | some n => if 8 ≤ n ∧ n ≤ 36 then some size else Option.none
        | Option.none => Option.none
      else Option.none
    match pxCase with
    | some r => some r
    | Option.none =>
      if (S "%").isSuffixOf size then
        match parseU16 (size.take (size.length - 1)) with
        | some n => if 50 ≤ n ∧ n ≤ 200 then some size else Option.none
        | Option.none => Option.none
      else Option.none

/-- The sixteen event-handler substrings rejected by `is_valid_url`. -/
def urlEventHandlers : List Str :=
  [S "onclick=", S "onerror=", S "onmouseover=", S "onload=", S "onfocus=",
   S "onblur=", S "onmousedown=", S "onmouseup=", S "onmouseenter=",
   S "onmouseleave=", S "onkeydown=", S "onkeyup=", S "onkeypress=",
   S "onchange=", S "oninput=", S "onsubmit="]

/-- `is_valid_url` from `src/renderer.rs`. -/
def isValidUrl (url : Str) (allowedSchemes : List Str) : Bool :=
  if url.isEmpty then false
  else
    let lower := asciiLower url
    if (S "javascript:").isPrefixOf lower ∨ (S "data:").isPrefixOf lower ∨
        (S "vbscript:").isPrefixOf lower then false
    else if url.contains '"' ∨ url.contains '\'' ∨ url.contains '<' ∨
        url.contains '>' then false
    else
      let lowerForEvents := lower.filter (fun c => ¬ rustIsWhitespace c)
      if urlEventHandlers.any (fun h => containsSub lowerForEvents h) then false
      else
        match url.findIdx? (fun c => c = ':') with
        | some colonPos =>
          let scheme := asciiLower (url.take colonPos)
          allowedSchemes.any (fun s => s = scheme)
        | Option.none => true

/-- `parse_dimensions`. -/
def parseDimensions (opt : Str) : Option (Nat × Nat) :=
  match opt.findIdx? (fun c => c = 'x' ∨ c = 'X') with
  | some xPos =>
    match parseU32 (opt.take xPos), parseU32 (opt.drop (xPos + 1)) with
    | some w, some h => some (min w 2000, min h 2000)
    | _, _ => Option.none
  | Option.none => (parseU32 opt).map (fun n => (min n 2000, min n 2000))

/-- `Renderer::render_text`. -/
def renderText (cfg : RenderConfig) (s : Str) : Str :=
  if cfg.sanitize then escapeHtml s else s

/-- `Renderer::render_auto_url`: an anchor with the escaped URL as both href
and inner text; no validator is consulted. -/
def renderAutoUrl (cfg : RenderConfig) (url : Str) : Str :=
  let safeUrl := escapeHtml url
  S "<a class=\"" ++ cfg.classPre ++ S "-url\" href=\"" ++ safeUrl ++ S "\"" ++
  (if cfg.nofollowLinks then S " rel=\"nofollow\"" else []) ++
  (if cfg.openLinksInNewTab then S " target=\"_blank\"" else []) ++
  S ">" ++ safeUrl ++ S "</a>"

/-- `Renderer::render_as_text` (also the `broken` branch of `render_tag`):
escaped raw open, rendered children, escaped raw close when present. `ch`
is the children's rendering. -/
def renderAsText (cfg : RenderConfig) (t : TagNode) (ch : Str) : Str :=
  renderText cfg t.rawOpen ++ ch ++
  (if t.rawClose.isEmpty then [] else renderText cfg t.rawClose)

/-- `Renderer::render_simple_tag`. -/
def renderSimpleTag (htmlTag : Str) (ch : Str) : Str :=
  S "<" ++ htmlTag ++ S ">" ++ ch ++ S "</" ++ htmlTag ++ S ">"

/-- `Renderer::render_color`. -/
def renderColor (cfg : RenderConfig) (t : TagNode) (ch : Str) : Str :=
  match t.opt.asScalar with
  | some color =>
    if isValidColor color then
      S "<span class=\"" ++ cfg.classPre ++ S "-color\" style=\"color: " ++
      escapeHtml color ++ S ";\">" ++ ch ++ S "</span>"
    else renderAsText cfg t ch
  | Option.none => renderAsText cfg t ch

/-- `Renderer::render_font`. -/
def renderFont (cfg : RenderConfig) (t : TagNode) (ch : Str) : Str :=
  match t.opt.asScalar with
  | some font =>
    if isValidFont font then
      S "<span class=\"" ++ cfg.classPre ++ S "-font\" style=\"font-family: " ++
      escapeHtml font ++ S ";\">" ++ ch ++ S "</span>"
    else renderAsText cfg t ch
  | Option.none => renderAsText cfg t ch

/-- `Renderer::render_size`. -/
def renderSize (cfg : RenderConfig) (t : TagNode) (ch : Str) : Str :=
  match t.opt.asScalar with
  | some size =>
    match parseSize size with
    | some cssSize =>
      S "<span class=\"" ++ cfg.classPre ++ S "-size\" style=\"font-size: " ++
      cssSize ++ S ";\">" ++ ch ++ S "</span>"
    | Option.none => renderAsText cfg t ch
  | Option.none => renderAsText cfg t ch

/-- `Renderer::render_url`. `inner` is the tag's `inner_text()`. -/
def renderUrl (cfg : RenderConfig) (t : TagNode) (ch inner : Str) : Str :=
  let url := match t.opt.asScalar with
    | some o => o
    | Option.none => inner
  if ¬ isValidUrl url cfg.allowedSchemes then renderAsText cfg t ch
  else
    S "<a class=\"" ++ cfg.classPre ++ S "-url\" href=\"" ++ escapeHtml url ++
    S "\"" ++
    (if cfg.nofollowLinks then S " rel=\"nofollow\"" else []) ++
    (if cfg.openLinksInNewTab then S " target=\"_blank\"" else []) ++
    S ">" ++
    (match t.opt.asScalar with
     | some _ => ch
     | Option.none => renderText cfg url) ++
    S "</a>"

/-- The five event-handler substrings checked by `render_email`. -/
def emailEventHandlers : List Str :=
  [S "onclick=", S "onerror=", S "onmouseover=", S "onload=", S "onfocus="]

/-- `Renderer::render_email`. -/
def renderEmail (cfg : RenderConfig) (t : TagNode) (ch inner : Str) : Str :=
  let email := match t.opt.asScalar with
    | some o => o
    | Option.none => inner
  if ¬ email.contains '@' ∨ email.contains '<' ∨ email.contains '>' ∨
      email.contains '"' ∨ email.contains '\'' then
    renderAsText cfg t ch
  else
    let lower := asciiLower email
    if emailEventHandlers.any (fun h => containsSub lower h) then
      renderAsText cfg t ch
    else
      S "<a class=\"" ++ cfg.classPre ++ S "-email\" href=\"mailto:" ++
      escapeHtml email ++ S "\">" ++
      (match t.opt.asScalar with
       | some _ => ch
       | Option.none => renderText cfg email) ++
      S "</a>"

/-- `Renderer::render_img`. `inner` is the tag's `inner_text()`. -/
def renderImg (cfg : RenderConfig) (t : TagNode) (ch inner : Str) : Str :=
  let url := inner
  if url.isEmpty ∨ ¬ isValidUrl url cfg.allowedSchemes then renderAsText cfg t ch
  else
    S "<img class=\"" ++ cfg.classPre ++ S "-img\" src=\"" ++ escapeHtml url ++
    S "\"" ++
    (match t.opt.asScalar with
     | some o =>
       match parseDimensions o with
       | some wh =>
         S " width=\"" ++ natToStr wh.1 ++ S "\" height=\"" ++ natToStr wh.2 ++
         S "\""
       | Option.none => []
     | Option.none =>
       match t.opt.asMap with
       | some m =>
         (match mapGet m (S "width") with
          | some w => S " width=\"" ++ escapeHtml w ++ S "\""
          | Option.none => []) ++
         (match mapGet m (S "height") with
          | some h => S " height=\"" ++ escapeHtml h ++ S "\""
          | Option.none => []) ++
         (match mapGet m (S "alt") with
          | some a => S " alt=\"" ++ escapeHtml a ++ S "\""
          | Option.none => [])
       | Option.none => []) ++
    S " />"

/-- `Renderer::render_quote`. -/
def renderQuote (cfg : RenderConfig) (t : TagNode) (ch : Str) : Str :=
  S "<blockquote class=\"" ++ cfg.classPre ++ S "-quote\"" ++
  (match t.opt.asScalar with
   | some author => S " data-author=\"" ++ escapeHtml author ++ S "\""
   | Option.none => []) ++
  S ">" ++
  (match t.opt.asScalar with
   | some author =>
     S "<div class=\"" ++ cfg.classPre ++ S "-quote-author\">" ++
     escapeHtml author ++ S " wrote:</div>"
   | Option.none => []) ++
  S "<div class=\"" ++ cfg.classPre ++ S "-quote-content\">" ++ ch ++
  S "</div></blockquote>"

/-- `Renderer::render_code`. `inner` is the tag's `inner_text()`. -/
def renderCode (cfg : RenderConfig) (t : TagNode) (inner : Str) : Str :=
  S "<pre class=\"" ++ cfg.classPre ++ S "-code\"" ++
  (match t.opt.asScalar with
   | some lang => S " data-language=\"" ++ escapeHtml lang ++ S "\""
   | Option.none => []) ++
  S "><code" ++
  (match t.opt.asScalar with
   | some lang => S " class=\"language-" ++ escapeHtml lang ++ S "\""
   | Option.none => []) ++
  S ">" ++ escapeHtml inner ++ S "</code></pre>"

/-- `Renderer::render_code_with_lang` (used for `[php]` and `[html]`). -/
def renderCodeWithLang (cfg : RenderConfig) (lang inner : Str) : Str :=
  S "<pre class=\"" ++ cfg.classPre ++ S "-code\" data-language=\"" ++ lang ++
  S "\"><code class=\"language-" ++ lang ++ S "\">" ++ escapeHtml inner ++
  S "</code></pre>"

/-- `Renderer::render_icode`. -/
def renderIcode (cfg : RenderConfig) (inner : Str) : Str :=
  S "<code class=\"" ++ cfg.classPre ++ S "-icode\">" ++ escapeHtml inner ++
  S "</code>"

/-- `Renderer::render_plain`: escaped inner text (escaped unconditionally,
not through `render_text`). -/
def renderPlain (inner : Str) : Str := escapeHtml inner

/-- `Renderer::render_list`. -/
def renderList (cfg : RenderConfig) (t : TagNode) (ch : Str) : Str :=
  let isOrdered : Bool := match t.opt.asScalar with
    | some s => decide (s = S "1" ∨ s = S "a" ∨ s = S "A" ∨ s = S "i" ∨ s = S "I")
    | Option.none => false
  let listTag := if isOrdered then S "ol" else S "ul"
  S "<" ++ listTag ++ S " class=\"" ++ cfg.classPre ++ S "-list\"" ++
  (match t.opt.asScalar with
   | some lt =>
     if lt = S "1" then S " type=\"1\""
     else if lt = S "a" then S " type=\"a\""
     else if lt = S "A" then S " type=\"A\""
     else if lt = S "i" then S " type=\"i\""
     else if lt = S "I" then S " type=\"I\""
     else if lt = S "disc" then S " style=\"list-style-type: disc;\""
     else if lt = S "circle" then S " style=\"list-style-type: circle;\""
     else if lt = S "square" then S " style=\"list-style-type: square;\""
     else []
   | Option.none => []) ++
  S ">" ++ ch ++ S "</" ++ listTag ++ S ">"

/-- `Renderer::render_list_item`. -/
def renderListItem (ch : Str) : Str := S "<li>" ++ ch ++ S "</li>"

/-- `Renderer::render_align`. -/
def renderAlign (cfg : RenderConfig) (align ch : Str) : Str :=
  S "<div class=\"" ++ cfg.classPre ++ S "-align\" style=\"text-align: " ++
  align ++ S ";\">" ++ ch ++ S "</div>"

/-- `Renderer::render_indent`. -/
def renderIndent (cfg : RenderConfig) (t : TagNode) (ch : Str) : Str :=
  let level := min ((t.opt.asScalar.bind parseU8).getD 1) 5
  let margin := level * 20
  S "<div class=\"" ++ cfg.classPre ++ S "-indent\" style=\"margin-left: " ++
  natToStr margin ++ S "px;\">" ++ ch ++ S "</div>"

/-- `Renderer::render_heading`. -/
def renderHeading (cfg : RenderConfig) (t : TagNode) (ch : Str) : Str :=
  let level := min (max ((t.opt.asScalar.bind parseU8).getD 1) 1) 6
  let htmlLevel := min (level + 1) 6
  S "<h" ++ natToStr htmlLevel ++ S " class=\"" ++ cfg.classPre ++
  S "-heading\">" ++ ch ++ S "</h" ++ natToStr htmlLevel ++ S ">"

/-- `Renderer::render_spoiler`. -/
def renderSpoiler (cfg : RenderConfig) (t : TagNode) (ch : Str) : Str :=
  S "<details class=\"" ++ cfg.classPre ++ S "-spoiler\"><summary>" ++
  (match t.opt.asScalar with
   | some title => escapeHtml title
   | Option.none => S "Spoiler") ++
  S "</summary><div class=\"spoiler-content\">" ++ ch ++ S "</div></details>"

/-- `Renderer::render_ispoiler`: a span with a fixed `onclick` toggle. -/
def renderIspoiler (cfg : RenderConfig) (ch : Str) : Str :=
  S "<span class=\"" ++ cfg.classPre ++
  S "-ispoiler\" onclick=\"this.classList.toggle(\x27revealed\x27)\">" ++ ch ++
  S "</span>"

/-- `Renderer::render_user`. `inner` is the tag's `inner_text()`. -/
def renderUser (cfg : RenderConfig) (t : TagNode) (inner : Str) : Str :=
  match t.opt.asScalar with
  | some id =>
    S "<a class=\"" ++ cfg.classPre ++ S "-user\" data-user-id=\"" ++
    escapeHtml id ++ S "\" href=\"#\">@" ++ escapeHtml inner ++ S "</a>"
  | Option.none =>
    S "<span class=\"" ++ cfg.classPre ++ S "-user\">@" ++ escapeHtml inner ++
    S "</span>"

/-- `Renderer::render_table`. -/
def renderTable (cfg : RenderConfig) (t : TagNode) (ch : Str) : Str :=
  S "<table class=\"" ++ cfg.classPre ++ S "-table\"" ++
  (match t.opt.asMap with
   | some m =>
     match mapGet m (S "width") with
     | some w => S " style=\"width: " ++ escapeHtml w ++ S ";\""
     | Option.none => []
   | Option.none => []) ++
  S ">" ++ ch ++ S "</table>"

/-- `Renderer::render_table_row`. -/
def renderTableRow (ch : Str) : Str := S "<tr>" ++ ch ++ S "</tr>"

/-- Width style shared by `render_table_header` / `render_table_cell`. -/
def cellWidthStyle (t : TagNode) : Str :=
  match t.opt.asMap with
  | some m =>
    match mapGet m (S "width") with
    | some w => S " style=\"width: " ++ escapeHtml w ++ S ";\""
    | Option.none => []
  | Option.none => []

/-- `Renderer::render_table_header`. -/
def renderTableHeader (t : TagNode) (ch : Str) : Str :=
  S "<th" ++ cellWidthStyle t ++ S ">" ++ ch ++ S "</th>"

/-- `Renderer::render_table_cell`. -/
def renderTableCell (t : TagNode) (ch : Str) : Str :=
  S "<td" ++ cellWidthStyle t ++ S ">" ++ ch ++ S "</td>"

/-- Dispatch of `Renderer::render_tag`: the broken branch renders raw text,
otherwise the branch is selected by the (lowercased) tag name; unknown names
render as raw text. `ch` is the children's rendering, `inner` the tag's
`inner_text()`. -/
def renderTagDispatch (cfg : RenderConfig) (t : TagNode) (ch inner : Str) : Str :=
  if t.broken then renderAsText cfg t ch
  else
    let n := t.name
    if n = S "b" ∨ n = S "bold" then renderSimpleTag (S "strong") ch
    else if n = S "i" ∨ n = S "italic" then renderSimpleTag (S "em") ch
    else if n = S "u" ∨ n = S "underline" then renderSimpleTag (S "u") ch
    else if n = S "s" ∨ n = S "strike" ∨ n = S "strikethrough" then
      renderSimpleTag (S "s") ch
    else if n = S "sub" then renderSimpleTag (S "sub") ch
    else if n = S "sup" then renderSimpleTag (S "sup") ch
    else if n = S "color" ∨ n = S "colour" then renderColor cfg t ch
    else if n = S "font" then renderFont cfg t ch
    else if n = S "size" then renderSize cfg t ch
    else if n = S "url" ∨ n = S "link" then renderUrl cfg t ch inner
    else if n = S "email" ∨ n = S "mail" then renderEmail cfg t ch inner
    else if n = S "img" ∨ n = S "image" then renderImg cfg t ch inner
    else if n = S "quote" then renderQuote cfg t ch
    else if n = S "code" then renderCode cfg t inner
    else if n = S "icode" ∨ n = S "c" ∨ n = S "inline" then renderIcode cfg inner
    else if n = S "php" then renderCodeWithLang cfg (S "php") inner
    else if n = S "html" then renderCodeWithLang cfg (S "html") inner
    else if n = S "plain" ∨ n = S "noparse" ∨ n = S "nobbc" then renderPlain inner
    else if n = S "list" then renderList cfg t ch
    else if n = S "*" ∨ n = S "li" then renderListItem ch
    else if n = S "left" then renderAlign cfg (S "left") ch
    else if n = S "center" then renderAlign cfg (S "center") ch
    else if n = S "right" then renderAlign cfg (S "right") ch
    else if n = S "justify" then renderAlign cfg (S "justify") ch
    else if n = S "indent" then renderIndent cfg t ch
    else if n = S "heading" ∨ n = S "h" then renderHeading cfg t ch
    else if n = S "hr" then S "<hr />"
    else if n = S "br" then S "<br />"
    else if n = S "spoiler" then renderSpoiler cfg t ch
    else if n = S "ispoiler" then renderIspoiler cfg ch
    else if n = S "user" ∨ n = S "member" then renderUser cfg t inner
    else if n = S "table" then renderTable cfg t ch
    else if n = S "tr" then renderTableRow ch
    else if n = S "th" then renderTableHeader t ch
    else if n = S "td" then renderTableCell t ch
    else renderAsText cfg t ch

/-- Concatenation loop of `TagNode::inner_text`: a tag child contributes its
own `inner_text()`; the source's recursive call goes through the single-text
fast path, which returns the same value as this concatenation (see
`innerTextOf_eq_cat`). -/
def innerTextCat : NodeList → Str
  | .nil => []
  | .cons (Node.text t) cs => t ++ innerTextCat cs
  | .cons Node.linebreak cs => '\n' :: innerTextCat cs
  | .cons (Node.autoUrl u) cs => u ++ innerTextCat cs
  | .cons (Node.tag _ _ _ ch _ _ _ _) cs => innerTextCat ch ++ innerTextCat cs

/-- `TagNode::inner_text` on a children list: single-text fast path, general
concatenation otherwise. -/
def innerTextOf (children : NodeList) : Str :=
  match children with
  | .cons (Node.text t) .nil => t
  | _ => innerTextCat children

/-- The fast path agrees with the concatenation. -/
lemma innerTextOf_eq_cat (children : NodeList) :
    innerTextOf children = innerTextCat children := by
  cases children with
  | nil => rfl
  | cons c cs =>
    cases c <;> cases cs <;> simp [innerTextOf, innerTextCat]

mutual

/-- `Renderer::render_node`. -/
def renderNode (cfg : RenderConfig) : Node → Str
  | .text s => renderText cfg s
  | .linebreak => if cfg.convertLinebreaks then S "<br />" else ['\n']
  | .autoUrl u => renderAutoUrl cfg u
  | .tag n rn o ch cl ro rc br =>
    renderTagDispatch cfg
      { name := n
        rawName := rn
        opt := o
        children := ch
        closed := cl
        rawOpen := ro
        rawClose := rc
        broken := br }
      (renderChildren cfg ch) (innerTextOf ch)

/-- `Renderer::render_children`. -/
def renderChildren (cfg : RenderConfig) : NodeList → Str
  | .nil => []
  | .cons x xs => renderNode cfg x ++ renderChildren cfg xs

end

/-- The document loop of `Renderer::render`. -/
def renderNodes (cfg : RenderConfig) : List Node → Str
  | [] => []
  | x :: xs => renderNode cfg x ++ renderNodes cfg xs

/-- `Renderer::render` on a document (list of top-level nodes). -/
def renderDoc (cfg : RenderConfig) (doc : List Node) : Str :=
  renderNodes cfg doc

/-- The `bbcode::parse` facade: parse with default parser configuration and
render with the default render configuration; `none` models a panic. -/
def parseRender (input : Str) : Option Str :=
  (parseDoc defaultParserConfig input).map (renderDoc defaultRenderConfig)

/-- The `bbcode::parse_with_config` facade. -/
def parseRenderWith (pcfg : ParserConfig) (rcfg : RenderConfig)
    (input : Str) : Option Str :=
  (parseDoc pcfg input).map (renderDoc rcfg)

/-! ## Claim-side definitions: output scanners and predicates

These definitions formalize the vocabulary of the claims (attribute level of
an opening HTML tag, `href` attribute values, URL scheme) over the rendered
output string. They are derived from the claims' wording, not from the
source. -/

/-- Scanner state: outside any tag, inside a tag at attribute level, inside
a double-quoted `href` attribute value, or inside another double-quoted
attribute value. -/
inductive ScanSt where
  | outside | inTag | inQuoteH | inQuoteO
deriving DecidableEq, Repr

/-- Scanner accumulator: state, attribute-level text of the current tag,
current `href` value, completed attribute-level segments (one per tag), and
collected `href` values. -/
structure ScanAcc where
  st : ScanSt
  cur : Str
  val : Str
  done : List Str
  hrefs : List Str
deriving DecidableEq, Repr

/-- One scanner step: `<` opens a tag, `>` closes it (completing its
attribute-level segment), `"` toggles attribute values; a value opened right
after attribute-level text ending in `href=` is collected as an href. -/
def scanStep (a : ScanAcc) (c : Char) : ScanAcc :=
  match a.st with
  | .outside =>
    if c = '<' then ⟨.inTag, [], [], a.done, a.hrefs⟩ else a
  | .inTag =>
    if c = '"' then
      if (S "href=").isSuffixOf a.cur then ⟨.inQuoteH, a.cur, [], a.done, a.hrefs⟩
      else ⟨.inQuoteO, a.cur, [], a.done, a.hrefs⟩
    else if c = '>' then ⟨.outside, [], [], a.done ++ [a.cur], a.hrefs⟩
    else ⟨.inTag, a.cur ++ [c], [], a.done, a.hrefs⟩
  | .inQuoteH =>
    if c = '"' then ⟨.inTag, a.cur, [], a.done, a.hrefs ++ [a.val]⟩
    else ⟨.inQuoteH, a.cur, a.val ++ [c], a.done, a.hrefs⟩
  | .inQuoteO =>
    if c = '"' then ⟨.inTag, a.cur, [], a.done, a.hrefs⟩
    else a

/-- Scanning a string. -/
def scanStr (a : ScanAcc) (s : Str) : ScanAcc := s.foldl scanStep a

/-- Initial scanner state. -/
def scanInit : ScanAcc := ⟨.outside, [], [], [], []⟩

/-- The attribute-level text of each opening/closing tag of an HTML string
(characters between `<` and `>` that are not inside a double-quoted
attribute value). -/
def attrSegments (html : Str) : List Str := (scanStr scanInit html).done

/-- All `href` attribute values of an HTML string. -/
def hrefValues (html : Str) : List Str := (scanStr scanInit html).hrefs

/-- Splitting a segment into space-separated words. -/
def splitWordsGo : Str → Str → List Str
  | [], cur => [cur.reverse]
  | c :: rest, cur =>
    if c = ' ' then cur.reverse :: splitWordsGo rest []
    else splitWordsGo rest (c :: cur)

/-- Space-separated words of a string. -/
def splitWords (s : Str) : List Str := splitWordsGo s []

/-- A word that is an `on*=` attribute: it starts with `on` and carries an
`=`. -/
def isOnAttrWord (w : Str) : Bool := (S "on").isPrefixOf w ∧ w.contains '='

/-- All `on*=` attribute words occurring at attribute level in the HTML
string. -/
def attrOnWords (html : Str) : List Str :=
  (attrSegments html).flatMap (fun seg => (splitWords seg).filter isOnAttrWord)

/-- The scheme of a URL value: the case-folded text before the first `:`,
when one is present. -/
def schemeOf (x : Str) : Option Str :=
  (x.findIdx? (fun c => c = ':')).map (fun i => asciiLower (x.take i))

mutual

/-- Every `AutoUrl` node in the tree carries a URL text starting with
`http://` or `https://` (true of every document the parser produces, since
the tokenizer only emits URL tokens with these prefixes). -/
def autoOkNode : Node → Bool
  | .text _ => true
  | .linebreak => true
  | .autoUrl u => (S "http://").isPrefixOf u ∨ (S "https://").isPrefixOf u
  | .tag _ _ _ ch _ _ _ _ => autoOkChildren ch

/-- `autoOkNode` over a children list. -/
def autoOkChildren : NodeList → Bool
  | .nil => true
  | .cons n l => autoOkNode n && autoOkChildren l

end

/-- `autoOkNode` over a document. -/
def autoOkDoc (doc : List Node) : Bool := doc.all autoOkNode

/-- Concatenation of the raw slices of a token list. -/
def joinRaws (ts : List Tok) : Str := (ts.map Tok.raw).flatten

/-- Whether a token is a text token. -/
def Tok.isText : Tok → Bool
  | .text _ => true
  | _ => false

/-- No two adjacent tokens are both text tokens. -/
def noAdjTexts (ts : List Tok) : Prop :=
  List.Chain' (fun a b => ¬ (a.isText = true ∧ b.isText = true)) ts

instance : DecidablePred noAdjTexts := fun ts =>
  inferInstanceAs (Decidable (List.Chain' _ ts))

/-- Tokens with start offsets tile the input contiguously from offset `n`. -/
def TiledFrom : Nat → List (Tok × Nat) → Prop
  | _, [] => True
  | n, (t, o) :: rest => o = n ∧ TiledFrom (n + t.raw.length) rest

/-- Last element of a node list. -/
def NodeList.getLast? : NodeList → Option Node
  | .nil => Option.none
  | .cons n .nil => some n
  | .cons _ (NodeList.cons m l) => NodeList.getLast? (NodeList.cons m l)

/-- The chain of (name, closed) pairs obtained by repeatedly descending into
the last child when it is a tag node; `k` bounds the depth. This exposes the
nesting spine produced by the close-tag fold. -/
def chainN : Nat → TagNode → List (Str × Bool)
  | 0, _ => []
  | k + 1, t =>
    (t.name, t.closed) ::
    (match t.children.getLast? with
     | some (Node.tag n rn o ch cl ro rc br) =>
       chainN k ⟨n, rn, o, ch, cl, ro, rc, br⟩
     | _ => [])

/-- Acceptance predicate of the email validator as described by the
(amended) claim: the address contains `@`, none of `<`, `>`, `"`, the
apostrophe, and its case-folded form contains none of the five substrings
`onclick=`, `onerror=`, `onmouseover=`, `onload=`, `onfocus=`. -/
def emailAccepted (email : Str) : Bool :=
  email.contains '@' ∧ ¬ email.contains '<' ∧ ¬ email.contains '>' ∧
  ¬ email.contains '"' ∧ ¬ email.contains '\'' ∧
  ¬ (emailEventHandlers.any (fun h => containsSub (asciiLower email) h))

/-- The address used by `render_email`: the scalar option when present,
otherwise the tag's inner text. -/
def emailOf (t : TagNode) (inner : Str) : Str :=
  match t.opt.asScalar with
  | some o => o
  | Option.none => inner

/-- An attribute-level segment is acceptable when its only `on*=` words are
the literal `onclick=` (the hardcoded `render_ispoiler` toggle). -/
def SegOk (seg : Str) : Bool :=
  ((splitWords seg).filter isOnAttrWord).all (fun w => decide (w = S "onclick="))

/-- The possible origins of an `href` attribute value in rendered output:
the escaping of a URL accepted by `is_valid_url` against the configured
schemes, `mailto:` plus an escaped address, the escaping of an auto-detected
URL (which starts with `http://` or `https://` and bypasses the validator),
or the literal `#` of `[user]`. -/
def HrefSrc (cfg : RenderConfig) (v : Str) : Prop :=
  (∃ u, isValidUrl u cfg.allowedSchemes = true ∧ v = escapeHtml u) ∨
  (∃ e, v = S "mailto:" ++ escapeHtml e) ∨
  (∃ u, ((S "http://").isPrefixOf u ∨ (S "https://").isPrefixOf u) = true ∧
    v = escapeHtml u) ∨
  v = S "#"

/-- A rendered piece is scanner-clean: scanning it from the initial state
returns to the outside state with clean registers, every completed
attribute-level segment is acceptable, and every collected `href` value has
one of the legitimate origins. -/
def PieceOk (cfg : RenderConfig) (s : Str) : Prop :=
  (scanStr scanInit s).st = ScanSt.outside ∧
  (scanStr scanInit s).cur = [] ∧
  (scanStr scanInit s).val = [] ∧
  (∀ seg ∈ (scanStr scanInit s).done, SegOk seg = true) ∧
  (∀ v ∈ (scanStr scanInit s).hrefs, HrefSrc cfg v)

/-- A token is an auto-URL token only with an `http(s)://`-prefixed slice
(true of everything `tokenize` emits). -/
def urlPrefixOk : Tok → Bool
  | .url u => (S "http://").isPrefixOf u ∨ (S "https://").isPrefixOf u
  | _ => true

/-- `autoOkChildren` over every open tag of the parser stack. -/
def autoOkStack (stack : List TagNode) : Bool :=
  stack.all (fun t => autoOkChildren t.children)

/-! ## Theorems and supporting lemmas -/

/-- Concatenated raw slices of offset tokens. -/
def joinOff (l : List (Tok × Nat)) : Str := (l.map (fun p => p.1.raw)).flatten

/-- Sum of raw lengths of offset tokens. -/
def toksLenOff (l : List (Tok × Nat)) : Nat :=
  (l.map (fun p => p.1.raw.length)).sum

lemma overrideRaw_raw (t : Tok) (raw : Str) : (overrideRaw t raw).raw = raw := by
  cases t <;> rfl

lemma parseArgEq_rest {s2 : Str} {arg : Option Str} {s4 : Str}
    (h : parseArg ('=' :: s2) = some (arg, s4)) : s4 <:+ '=' :: s2 := by
  have hs2 : s2 <:+ '=' :: s2 := List.suffix_cons _ _
  match s2, h with
  | [], h =>
    simp only [parseArg, findIdxOrLen] at h
    exact absurd h (by simp)
  | '"' :: s3, h =>
    have hs3 : s3 <:+ '=' :: '"' :: s3 :=
      (List.suffix_cons _ _).trans (List.suffix_cons _ _)
    simp only [parseArg] at h
    split at h
    · simp only [Option.some.injEq, Prod.mk.injEq] at h
      exact h.2 ▸ (List.drop_suffix _ _).trans hs3
    · exact absurd h (by simp)
  | '\'' :: s3, h =>
    have hs3 : s3 <:+ '=' :: '\'' :: s3 :=
      (List.suffix_cons _ _).trans (List.suffix_cons _ _)
    simp only [parseArg] at h
    split at h
    · simp only [Option.some.injEq, Prod.mk.injEq] at h
      exact h.2 ▸ (List.drop_suffix _ _).trans hs3
    · exact absurd h (by simp)
  | c :: s3, h =>
    by_cases hq1 : c = '"'
    · subst hq1
      simp only [parseArg] at h
      split at h
      · simp only [Option.some.injEq, Prod.mk.injEq] at h
        exact h.2 ▸ (List.drop_suffix _ _).trans
          ((List.suffix_cons _ _).trans (List.suffix_cons _ _))
      · exact absurd h (by simp)
    · by_cases hq2 : c = '\''
      · subst hq2
        simp only [parseArg] at h
        split at h
        · simp only [Option.some.injEq, Prod.mk.injEq] at h
          exact h.2 ▸ (List.drop_suffix _ _).trans
            ((List.suffix_cons _ _).trans (List.suffix_cons _ _))
        · exact absurd h (by simp)
      · rw [show parseArg ('=' :: c :: s3) =
            (let valueEnd := findIdxOrLen (· = ']') (c :: s3)
             if valueEnd = 0 then none
             else some (some ((c :: s3).take valueEnd),
               (c :: s3).drop valueEnd)) from by
          simp only [parseArg]
          split
          next heq => rw [List.cons.injEq] at heq; exact absurd heq.1 hq1
          next heq => rw [List.cons.injEq] at heq; exact absurd heq.1 hq2
          next => rfl] at h
        simp only at h
        split at h
        · exact absurd h (by simp)
        · simp only [Option.some.injEq, Prod.mk.injEq] at h
          exact h.2 ▸ (List.drop_suffix _ _).trans hs2

lemma parseArg_rest {s1 : Str} {arg : Option Str} {s4 : Str}
    (h : parseArg s1 = some (arg, s4)) : s4 <:+ s1 := by
  match s1, h with
  | [], h =>
    simp only [parseArg, Option.some.injEq, Prod.mk.injEq] at h
    exact h.2 ▸ List.suffix_rfl
  | c :: s2, h =>
    by_cases he : c = '='
    · subst he
      exact parseArgEq_rest h
    · rw [show parseArg (c :: s2) = some (none, c :: s2) from by
        simp only [parseArg]
        split
        next heq => rw [List.cons.injEq] at heq; exact absurd heq.1 he
        next => rfl] at h
      simp only [Option.some.injEq, Prod.mk.injEq] at h
      exact h.2 ▸ List.suffix_rfl

lemma parseCloseTag_rest {s : Str} {t : Tok} {rest : Str}
    (h : parseCloseTag s = some (t, rest)) :
    rest <:+ s ∧ rest.length < s.length := by
  unfold parseCloseTag at h
  split at h
  next r0 =>
    dsimp only at h
    split at h
    · exact absurd h (by simp)
    · split at h
      next s2 heq =>
        simp only [Option.some.injEq, Prod.mk.injEq] at h
        obtain ⟨-, hr⟩ := h
        subst hr
        have h1 : ']' :: s2 <:+ r0 := heq ▸ List.drop_suffix _ _
        have h2 : s2 <:+ r0 := (List.suffix_cons _ _).trans h1
        refine ⟨h2.trans ((List.suffix_cons _ _).trans (List.suffix_cons _ _)), ?_⟩
        have := h1.length_le
        simp only [List.length_cons] at this ⊢
        omega
      next => exact absurd h (by simp)
  next => exact absurd h (by simp)

lemma parseOpenTag_rest {s : Str} {t : Tok} {rest : Str}
    (h : parseOpenTag s = some (t, rest)) :
    rest <:+ s ∧ rest.length < s.length := by
  unfold parseOpenTag at h
  split at h
  next r0 =>
    split at h
    · exact absurd h (by simp)
    · dsimp only at h
      split at h
      · exact absurd h (by simp)
      · split at h
        · exact absurd h (by simp)
        next arg s4 heq =>
          split at h
          next s5 tl =>
            simp only [Option.some.injEq, Prod.mk.injEq] at h
            obtain ⟨-, hr⟩ := h
            subst hr
            have h1 : ']' :: tl <:+ r0 :=
              (parseArg_rest heq).trans (List.drop_suffix _ _)
            have h2 : tl <:+ r0 := (List.suffix_cons _ _).trans h1
            refine ⟨h2.trans (List.suffix_cons _ _), ?_⟩
            have := h1.length_le
            simp only [List.length_cons] at this ⊢
            omega
          next => exact absurd h (by simp)
  next => exact absurd h (by simp)

lemma parseUrl_rest {s : Str} {t : Tok} {rest : Str}
    (h : parseUrl s = some (t, rest)) :
    rest <:+ s ∧ rest.length < s.length := by
  simp only [parseUrl] at h
  split at h
  · exact absurd h (by simp)
  next hpre =>
    simp only [Option.some.injEq, Prod.mk.injEq] at h
    obtain ⟨-, rfl⟩ := h
    refine ⟨List.drop_suffix _ _, ?_⟩
    rw [List.length_drop]
    have hne : s ≠ [] := by
      rintro rfl
      rw [not_not] at hpre
      rcases hpre with h | h <;> simp [List.isPrefixOf_iff_prefix, S] at h
    have hpos : 0 < s.length := List.length_pos_of_ne_nil hne
    have : 0 < (if (S "https://").isPrefixOf s then 8 else 7) +
        findIdxOrLen urlStop (s.drop (if (S "https://").isPrefixOf s then 8 else 7)) := by
      split <;> omega
    omega

lemma parseLinebreak_rest {s : Str} {t : Tok} {rest : Str}
    (h : parseLinebreak s = some (t, rest)) :
    rest <:+ s ∧ rest.length < s.length := by
  unfold parseLinebreak at h
  split at h <;>
    first
    | (simp only [Option.some.injEq, Prod.mk.injEq] at h
       obtain ⟨-, rfl⟩ := h
       first
       | exact ⟨(List.suffix_cons _ _).trans (List.suffix_cons _ _),
           by simp only [List.length_cons]; omega⟩
       | exact ⟨List.suffix_cons _ _, by simp only [List.length_cons]; omega⟩)
    | exact absurd h (by simp)

lemma parseText_rest {s : Str} {t : Tok} {rest : Str}
    (h : parseText s = some (t, rest)) :
    rest <:+ s ∧ rest.length < s.length := by
  unfold parseText at h
  dsimp only at h
  split at h
  · exact absurd h (by simp)
  next he =>
    simp only [Option.some.injEq, Prod.mk.injEq] at h
    obtain ⟨-, rfl⟩ := h
    refine ⟨List.drop_suffix _ _, ?_⟩
    rw [List.length_drop]
    have hne : s ≠ [] := by
      rintro rfl
      exact he rfl
    have hpos : 0 < s.length := List.length_pos_of_ne_nil hne
    omega

lemma parseToken_spec {s : Str} {t : Tok} {rest : Str}
    (h : parseToken s = some (t, rest)) :
    t.raw ++ rest = s ∧ rest.length < s.length ∧
      t.raw.length = s.length - rest.length := by
  unfold parseToken at h
  dsimp only at h
  rw [Option.map_eq_some'] at h
  obtain ⟨⟨t0, rest0⟩, hm, ht⟩ := h
  simp only [Prod.mk.injEq] at ht
  obtain ⟨rfl, rfl⟩ := ht
  have hrest : rest0 <:+ s ∧ rest0.length < s.length := by
    rcases h1 : parseCloseTag s with - | x
    · rw [h1] at hm
      rcases h2 : parseOpenTag s with - | x
      · rw [h2] at hm
        rcases h3 : parseUrl s with - | x
        · rw [h3] at hm
          rcases h4 : parseLinebreak s with - | x
          · rw [h4] at hm
            exact parseText_rest hm
          · rw [h4] at hm
            rw [Option.some.injEq] at hm
            subst hm
            exact parseLinebreak_rest h4
        · rw [h3] at hm
          rw [Option.some.injEq] at hm
          subst hm
          exact parseUrl_rest h3
      · rw [h2] at hm
        rw [Option.some.injEq] at hm
        subst hm
        exact parseOpenTag_rest h2
    · rw [h1] at hm
      rw [Option.some.injEq] at hm
      subst hm
      exact parseCloseTag_rest h1
  obtain ⟨hsuf, hlen⟩ := hrest
  obtain ⟨pre, hpre⟩ := hsuf
  have hlenpre : s.length - rest0.length = pre.length := by
    rw [← hpre]
    simp
  rw [overrideRaw_raw, hlenpre]
  have htake : s.take pre.length = pre := by
    rw [← hpre]
    exact List.take_left _ _
  exact ⟨by rw [htake, hpre], hlen, by rw [htake]⟩

lemma joinOff_nil : joinOff [] = [] := rfl

lemma toksLenOff_nil : toksLenOff [] = 0 := rfl

lemma joinOff_cons (t : Tok) (o : Nat) (l : List (Tok × Nat)) :
    joinOff ((t, o) :: l) = t.raw ++ joinOff l := by
  simp [joinOff]

lemma toksLenOff_cons (t : Tok) (o : Nat) (l : List (Tok × Nat)) :
    toksLenOff ((t, o) :: l) = t.raw.length + toksLenOff l := by
  simp [toksLenOff]

lemma joinOff_append (a c : List (Tok × Nat)) :
    joinOff (a ++ c) = joinOff a ++ joinOff c := by
  simp [joinOff]

lemma toksLenOff_append (a c : List (Tok × Nat)) :
    toksLenOff (a ++ c) = toksLenOff a + toksLenOff c := by
  simp [toksLenOff]

lemma tiledFrom_append {a c : List (Tok × Nat)} {b : Nat} :
    TiledFrom b (a ++ c) ↔ TiledFrom b a ∧ TiledFrom (b + toksLenOff a) c := by
  induction a generalizing b with
  | nil => simp [TiledFrom, toksLenOff]
  | cons p a ih =>
    obtain ⟨t, o⟩ := p
    simp only [List.cons_append, TiledFrom, toksLenOff_cons, List.append_eq, ih,
      ← Nat.add_assoc]
    exact and_assoc.symm

lemma tokenizeGo_succ_cons (fuel : Nat) (c : Char) (r : Str) (off : Nat)
    (acc : List (Tok × Nat)) :
    tokenizeGo (fuel + 1) (c :: r) off acc =
      match parseToken (c :: r) with
      | some (t, rest) =>
        let consumed := (c :: r).length - rest.length
        match t with
        | .text [] => tokenizeGo fuel rest (off + consumed) acc
        | _ => tokenizeGo fuel rest (off + consumed) ((t, off) :: acc)
      | none =>
        match acc with
        | (Tok.text prev, prevOff) :: accRest =>
          if prevOff + prev.length = off then
            tokenizeGo fuel r (off + 1) ((Tok.text (prev ++ [c]), prevOff) :: accRest)
          else
            tokenizeGo fuel r (off + 1) ((Tok.text [c], off) :: acc)
        | _ => tokenizeGo fuel r (off + 1) ((Tok.text [c], off) :: acc) := rfl

lemma tokenizeGo_spec (fuel : Nat) :
    ∀ (remaining : Str) (off b : Nat) (acc : List (Tok × Nat)),
    remaining.length ≤ fuel →
    TiledFrom b acc.reverse →
    b + toksLenOff acc.reverse = off →
    joinOff (tokenizeGo fuel remaining off acc).reverse
      = joinOff acc.reverse ++ remaining ∧
    TiledFrom b (tokenizeGo fuel remaining off acc).reverse := by
  induction fuel with
  | zero =>
    intro remaining off b acc hf ht he
    have hrem : remaining = [] := List.length_eq_zero.mp (Nat.le_zero.mp hf)
    subst hrem
    have h0 : tokenizeGo 0 [] off acc = acc := rfl
    rw [h0]
    exact ⟨by simp, ht⟩
  | succ fuel ih =>
    intro remaining off b acc hf ht he
    rcases remaining with - | ⟨c, r⟩
    · have h0 : tokenizeGo (fuel + 1) [] off acc = acc := rfl
      rw [h0]
      exact ⟨by simp, ht⟩
    · rw [tokenizeGo_succ_cons]
      rcases hp : parseToken (c :: r) with - | x
      · dsimp only
        have pushNew :
            joinOff (tokenizeGo fuel r (off + 1)
                ((Tok.text [c], off) :: acc)).reverse
              = joinOff acc.reverse ++ (c :: r) ∧
            TiledFrom b (tokenizeGo fuel r (off + 1)
                ((Tok.text [c], off) :: acc)).reverse := by
          have hf2 : r.length ≤ fuel := by
            simp only [List.length_cons] at hf
            omega
          have ht2 : TiledFrom b ((Tok.text [c], off) :: acc).reverse := by
            rw [List.reverse_cons, tiledFrom_append]
            refine ⟨ht, ?_⟩
            simp only [TiledFrom]
            exact ⟨he.symm, trivial⟩
          have he2 : b + toksLenOff ((Tok.text [c], off) :: acc).reverse
              = off + 1 := by
            rw [List.reverse_cons, toksLenOff_append, toksLenOff_cons, toksLenOff_nil]
            simp only [Tok.raw, List.length_cons, List.length_nil]
            omega
          obtain ⟨j2, t2⟩ := ih r (off + 1) b _ hf2 ht2 he2
          refine ⟨?_, t2⟩
          rw [j2, List.reverse_cons, joinOff_append, joinOff_cons, joinOff_nil]
          simp [Tok.raw]
        rcases acc with - | ⟨⟨pt, prevOff⟩, accRest⟩
        · dsimp only
          exact pushNew
        · cases pt with
          | text prev =>
            dsimp only
            rw [List.reverse_cons, tiledFrom_append] at ht
            obtain ⟨htR, ht1⟩ := ht
            simp only [TiledFrom] at ht1
            obtain ⟨hoff, -⟩ := ht1
            rw [List.reverse_cons, toksLenOff_append, toksLenOff_cons,
              toksLenOff_nil] at he
            simp only [Tok.raw] at he
            have hcond : prevOff + prev.length = off := by omega
            rw [if_pos hcond]
            have hf2 : r.length ≤ fuel := by
              simp only [List.length_cons] at hf
              omega
            have ht2 : TiledFrom b
                ((Tok.text (prev ++ [c]), prevOff) :: accRest).reverse := by
              rw [List.reverse_cons, tiledFrom_append]
              refine ⟨htR, ?_⟩
              simp only [TiledFrom]
              exact ⟨hoff, trivial⟩
            have he2 : b + toksLenOff
                ((Tok.text (prev ++ [c]), prevOff) :: accRest).reverse
                = off + 1 := by
              rw [List.reverse_cons, toksLenOff_append, toksLenOff_cons,
                toksLenOff_nil]
              simp only [Tok.raw, List.length_append, List.length_cons,
                List.length_nil]
              omega
            obtain ⟨j2, t2⟩ := ih r (off + 1) b _ hf2 ht2 he2
            refine ⟨?_, t2⟩
            rw [j2, List.reverse_cons, joinOff_append, joinOff_cons, joinOff_nil,
              List.reverse_cons, joinOff_append, joinOff_cons, joinOff_nil]
            simp [Tok.raw]
          | linebreak s =>
            dsimp only
            exact pushNew
          | openTag ra nm ar =>
            dsimp only
            exact pushNew
          | closeTag ra nm =>
            dsimp only
            exact pushNew
          | url s =>
            dsimp only
            exact pushNew
      · obtain ⟨t, rest⟩ := x
        dsimp only
        obtain ⟨hjoin, hlt, hlen⟩ := parseToken_spec hp
        have key :
            joinOff (tokenizeGo fuel rest (off + ((c :: r).length - rest.length))
                ((t, off) :: acc)).reverse = joinOff acc.reverse ++ (c :: r) ∧
            TiledFrom b (tokenizeGo fuel rest
                (off + ((c :: r).length - rest.length))
                ((t, off) :: acc)).reverse := by
          have hf2 : rest.length ≤ fuel := by
            simp only [List.length_cons] at hf hlt
            omega
          have ht2 : TiledFrom b ((t, off) :: acc).reverse := by
            rw [List.reverse_cons, tiledFrom_append]
            refine ⟨ht, ?_⟩
            simp only [TiledFrom]
            exact ⟨he.symm, trivial⟩
          have he2 : b + toksLenOff ((t, off) :: acc).reverse
              = off + ((c :: r).length - rest.length) := by
            rw [List.reverse_cons, toksLenOff_append, toksLenOff_cons,
              toksLenOff_nil]
            omega
          obtain ⟨j2, t2⟩ := ih rest _ b _ hf2 ht2 he2
          refine ⟨?_, t2⟩
          rw [j2, List.reverse_cons, joinOff_append, joinOff_cons, joinOff_nil]
          rw [List.append_nil, List.append_assoc, hjoin]
        cases t with
        | text s =>
          cases s with
          | nil =>
            exfalso
            simp only [Tok.raw, List.nil_append] at hjoin
            rw [hjoin] at hlt
            exact lt_irrefl _ hlt
          | cons c0 s0 =>
            dsimp only
            exact key
        | linebreak s =>
          dsimp only
          exact key
        | openTag ra nm ar =>
          dsimp only
          exact key
        | closeTag ra nm =>
          dsimp only
          exact key
        | url s =>
          dsimp only
          exact key

lemma mergeTextGo_cons (tok : Tok) (newOff : Nat) (rest acc : List (Tok × Nat)) :
    mergeTextGo acc ((tok, newOff) :: rest) =
      match tok, acc with
      | Tok.text newText, (Tok.text existing, exOff) :: accRest =>
        if exOff + existing.length = newOff then
          mergeTextGo ((Tok.text (existing ++ newText), exOff) :: accRest) rest
        else
          mergeTextGo ((Tok.text newText, newOff) :: acc) rest
      | _, _ => mergeTextGo ((tok, newOff) :: acc) rest := rfl

lemma mergeTextGo_spec (l : List (Tok × Nat)) :
    ∀ (acc : List (Tok × Nat)) (b : Nat),
    TiledFrom b acc.reverse →
    TiledFrom (b + toksLenOff acc.reverse) l →
    noAdjTexts (acc.reverse.map Prod.fst) →
    joinOff (mergeTextGo acc l) = joinOff acc.reverse ++ joinOff l ∧
    TiledFrom b (mergeTextGo acc l) ∧
    noAdjTexts ((mergeTextGo acc l).map Prod.fst) := by
  induction l with
  | nil =>
    intro acc b ht _ hn
    have h0 : mergeTextGo acc [] = acc.reverse := rfl
    rw [h0]
    exact ⟨by simp [joinOff_nil], ht, hn⟩
  | cons p rest ih =>
    obtain ⟨tok, newOff⟩ := p
    intro acc b ht hl hn
    simp only [TiledFrom] at hl
    obtain ⟨hno, hl2⟩ := hl
    rw [mergeTextGo_cons]
    have push : (∀ x ∈ (acc.reverse.map Prod.fst).getLast?,
        ¬ (x.isText = true ∧ tok.isText = true)) →
        joinOff (mergeTextGo ((tok, newOff) :: acc) rest)
          = joinOff acc.reverse ++ joinOff ((tok, newOff) :: rest) ∧
        TiledFrom b (mergeTextGo ((tok, newOff) :: acc) rest) ∧
        noAdjTexts ((mergeTextGo ((tok, newOff) :: acc) rest).map Prod.fst) := by
      intro hlast
      have ht2 : TiledFrom b ((tok, newOff) :: acc).reverse := by
        rw [List.reverse_cons, tiledFrom_append]
        refine ⟨ht, ?_⟩
        simp only [TiledFrom]
        exact ⟨hno, trivial⟩
      have hl3 : TiledFrom (b + toksLenOff ((tok, newOff) :: acc).reverse)
          rest := by
        rw [List.reverse_cons, toksLenOff_append, toksLenOff_cons, toksLenOff_nil]
        convert hl2 using 1
        omega
      have hn2 : noAdjTexts (((tok, newOff) :: acc).reverse.map Prod.fst) := by
        rw [List.reverse_cons, List.map_append, List.map_cons, List.map_nil]
        unfold noAdjTexts at hn ⊢
        rw [List.chain'_append]
        refine ⟨hn, List.chain'_singleton _, ?_⟩
        intro x hx y hy
        simp only [List.head?_cons, Option.mem_def, Option.some.injEq] at hy
        subst hy
        exact hlast x hx
      obtain ⟨j2, t2, n2⟩ := ih _ b ht2 hl3 hn2
      refine ⟨?_, t2, n2⟩
      rw [j2, List.reverse_cons, joinOff_append, joinOff_cons, joinOff_nil,
        joinOff_cons]
      simp
    cases tok with
    | text newText =>
      rcases acc with - | ⟨⟨h0, exOff⟩, accRest⟩
      · dsimp only
        exact push (by intro x hx; simp at hx)
      · cases h0 with
        | text existing =>
          dsimp only
          rw [List.reverse_cons, tiledFrom_append] at ht
          obtain ⟨htR, ht1⟩ := ht
          simp only [TiledFrom] at ht1
          obtain ⟨hoff, -⟩ := ht1
          rw [List.reverse_cons, toksLenOff_append, toksLenOff_cons,
            toksLenOff_nil] at hno hl2
          simp only [Tok.raw] at hno hl2
          have hcond : exOff + existing.length = newOff := by omega
          rw [if_pos hcond]
          have ht2 : TiledFrom b
              ((Tok.text (existing ++ newText), exOff) :: accRest).reverse := by
            rw [List.reverse_cons, tiledFrom_append]
            refine ⟨htR, ?_⟩
            simp only [TiledFrom]
            exact ⟨hoff, trivial⟩
          have hl3 : TiledFrom (b + toksLenOff
              ((Tok.text (existing ++ newText), exOff) :: accRest).reverse)
              rest := by
            rw [List.reverse_cons, toksLenOff_append, toksLenOff_cons,
              toksLenOff_nil]
            simp only [Tok.raw, List.length_append]
            convert hl2 using 1
            omega
          have hn2 : noAdjTexts
              (((Tok.text (existing ++ newText), exOff) :: accRest).reverse.map
                Prod.fst) := by
            rw [List.reverse_cons, List.map_append, List.map_cons, List.map_nil]
            rw [List.reverse_cons, List.map_append, List.map_cons,
              List.map_nil] at hn
            unfold noAdjTexts at hn ⊢
            rw [List.chain'_append] at hn ⊢
            obtain ⟨h1, -, h3⟩ := hn
            refine ⟨h1, List.chain'_singleton _, ?_⟩
            intro x hx y hy
            simp only [List.head?_cons, Option.mem_def, Option.some.injEq] at hy
            subst hy
            have := h3 x hx (Tok.text existing) (by simp)
            simp only [Tok.isText] at this ⊢
            exact this
          obtain ⟨j2, t2, n2⟩ := ih _ b ht2 hl3 hn2
          refine ⟨?_, t2, n2⟩
          rw [j2, List.reverse_cons, joinOff_append, joinOff_cons, joinOff_nil,
            List.reverse_cons, joinOff_append, joinOff_cons, joinOff_nil,
            joinOff_cons]
          simp [Tok.raw]
        | linebreak s =>
          dsimp only
          refine push ?_
          intro x hx
          rw [List.reverse_cons, List.map_append, List.map_cons, List.map_nil,
            List.getLast?_concat] at hx
          simp only [Option.mem_def, Option.some.injEq] at hx
          subst hx
          simp [Tok.isText]
        | openTag ra nm ar =>
          dsimp only
          refine push ?_
          intro x hx
          rw [List.reverse_cons, List.map_append, List.map_cons, List.map_nil,
            List.getLast?_concat] at hx
          simp only [Option.mem_def, Option.some.injEq] at hx
          subst hx
          simp [Tok.isText]
        | closeTag ra nm =>
          dsimp only
          refine push ?_
          intro x hx
          rw [List.reverse_cons, List.map_append, List.map_cons, List.map_nil,
            List.getLast?_concat] at hx
          simp only [Option.mem_def, Option.some.injEq] at hx
          subst hx
          simp [Tok.isText]
        | url s =>
          dsimp only
          refine push ?_
          intro x hx
          rw [List.reverse_cons, List.map_append, List.map_cons, List.map_nil,
            List.getLast?_concat] at hx
          simp only [Option.mem_def, Option.some.injEq] at hx
          subst hx
          simp [Tok.isText]
    | linebreak s =>
      dsimp only
      exact push (by intro x hx; simp [Tok.isText])
    | openTag ra nm ar =>
      dsimp only
      exact push (by intro x hx; simp [Tok.isText])
    | closeTag ra nm =>
      dsimp only
      exact push (by intro x hx; simp [Tok.isText])
    | url s =>
      dsimp only
      exact push (by intro x hx; simp [Tok.isText])

lemma joinRaws_map (l : List (Tok × Nat)) :
    joinRaws (l.map Prod.fst) = joinOff l := by
  simp only [joinRaws, joinOff, List.map_map]
  rfl

/-- C9: for every input, the tokens produced by `tokenize` have raw slices
that concatenate back to exactly the input, carry start offsets that tile
the input contiguously from position 0 (hence the slices are non-overlapping
and in input order), and no two adjacent tokens are both text tokens. -/
theorem c9_tokenize_exact_cover (input : Str) :
    joinRaws (tokenize input) = input ∧ TiledFrom 0 (tokenizeOff input) ∧
    noAdjTexts (tokenize input) := by
  obtain ⟨hj, ht⟩ := tokenizeGo_spec input.length input 0 0 [] (le_refl _)
    (by simp [TiledFrom]) rfl
  have hj' : joinOff ((tokenizeGo input.length input 0 []).reverse) = input := by
    simpa [joinOff_nil] using hj
  obtain ⟨j2, t2, n2⟩ := mergeTextGo_spec
    ((tokenizeGo input.length input 0 []).reverse) [] 0
    (by simp [TiledFrom]) (by simpa [toksLenOff_nil] using ht)
    (by simp [noAdjTexts])
  have hoffEq : tokenizeOff input =
      mergeTextGo [] (tokenizeGo input.length input 0 []).reverse := rfl
  refine ⟨?_, ?_, ?_⟩
  · rw [tokenize, joinRaws_map, hoffEq, j2, hj']
    simp [joinOff_nil]
  · rw [hoffEq]
    exact t2
  · rw [tokenize, hoffEq]
    exact n2

/-- C1: the pipeline is not total. On `[code]İ[/code]` the verbatim scanner
`tokenize_until_close` searches the close pattern in the Unicode-lowercased
input but slices the original input at the byte position found there; `İ`
lowercases to a longer byte sequence, the positions misalign, and the Rust
slicing panics (modelled by `Option.none`), so `parse` aborts instead of
returning a string. An ASCII payload goes through normally. -/
theorem c1_unicode_verbatim_panics :
    parseDoc defaultParserConfig (S "[code]İ[/code]") = Option.none ∧
    tokenizeUntilClose (S "İ[/code]") (S "code") = Option.none ∧
    parseRender (S "[code]x[/code]") =
      some (S "<pre class=\"bbcode-code\"><code>x</code></pre>") := by
  refine ⟨by decide, by decide, by decide⟩

/-- C3 (amended): `render_auto_url` consults no validator: its output begins
with an anchor for every URL payload; in particular an auto-detected URL
containing the event-handler substring `onclick=` fails `is_valid_url` yet
is still rendered as an `<a>` anchor. -/
theorem c3_auto_url_skips_validator :
    (∀ (cfg : RenderConfig) (url : Str),
      (renderAutoUrl cfg url).take 10 = S "<a class=\"") ∧
    isValidUrl (S "https://x.com/onclick=1") defaultRenderConfig.allowedSchemes
      = false ∧
    parseRender (S "go https://x.com/onclick=1") =
      some (S "go <a class=\"bbcode-url\" href=\"https://x.com/onclick=1\" rel=\"nofollow\">https://x.com/onclick=1</a>") := by
  refine ⟨?_, by decide, by decide⟩
  intro cfg url
  unfold renderAutoUrl
  dsimp only
  simp only [List.append_assoc]
  exact List.take_left' rfl

/-- C5 (amended): the color whitelist does contain `transparent`, so
`[color=transparent]` is accepted and styled, like `[color=red]`; a system
color such as `windowtext` is rejected and the tag renders as literal
text. -/
theorem c5_transparent_is_whitelisted :
    (S "transparent") ∈ VALID_COLORS ∧
    isValidColor (S "transparent") = true ∧
    parseRender (S "[color=transparent]x[/color]") =
      some (S "<span class=\"bbcode-color\" style=\"color: transparent;\">x</span>") ∧
    parseRender (S "[color=red]x[/color]") =
      some (S "<span class=\"bbcode-color\" style=\"color: red;\">x</span>") ∧
    isValidColor (S "windowtext") = false ∧
    parseRender (S "[color=windowtext]x[/color]") =
      some (S "[color=windowtext]x[/color]") := by
  refine ⟨by decide, by decide, by decide, by decide, by decide, by decide⟩

/-- C6 (amended): `render_email` checks only five event-handler substrings
(`onclick=`, `onerror=`, `onmouseover=`, `onload=`, `onfocus=`) besides the
`@`/`<`/`>`/quote checks: every address rejected by that five-substring
predicate renders as literal text, but an address containing another
handler, e.g. `onblur=`, is still emitted as a `mailto:` anchor. -/
theorem c6_email_checks_five_handlers :
    (∀ (cfg : RenderConfig) (t : TagNode) (ch inner : Str),
      emailAccepted (emailOf t inner) = false →
      renderEmail cfg t ch inner = renderAsText cfg t ch) ∧
    parseRender (S "[email=a@bonblur=c]x[/email]") =
      some (S "<a class=\"bbcode-email\" href=\"mailto:a@bonblur=c\">x</a>") ∧
    containsSub (asciiLower (S "a@bonblur=c")) (S "onblur=") = true ∧
    parseRender (S "[email=a@bonclick=c]x[/email]") =
      some (S "[email=a@bonclick=c]x[/email]") := by
  refine ⟨?_, by decide, by decide, by decide⟩
  intro cfg t ch inner h
  unfold emailOf at h
  unfold renderEmail
  dsimp only
  split
  · rfl
  next hc =>
    split
    · rfl
    next hh =>
      exfalso
      push_neg at hc
      obtain ⟨h1, h2, h3, h4, h5⟩ := hc
      have hacc : emailAccepted
          (match t.opt.asScalar with
           | some o => o
           | Option.none => inner) = true := by
        simp only [emailAccepted, decide_eq_true_eq]
        exact ⟨h1, h2, h3, h4, h5, hh⟩
      rw [hacc] at h
      exact absurd h (by simp)

/-- C7 (amended): a verbatim region is terminated only by the typed tag
name (case-insensitively), not by aliases: `[plain]x[/noparse]` does not
close the `plain` node (the node stays `closed := false` and `[/noparse]`
survives as literal text inside it), while `[code]x[/CODE]` closes
case-insensitively and `[noparse]x[/noparse]` closes normally. -/
theorem c7_verbatim_close_typed_name_only :
    parseDoc defaultParserConfig (S "[plain]x[/noparse]") =
      some [Node.tag (S "plain") (S "plain") TagOpt.none
        (NodeList.cons (Node.text (S "x"))
          (NodeList.cons (Node.text (S "[/noparse]")) NodeList.nil))
        false (S "[plain]") [] false] ∧
    parseRender (S "[plain]x[/noparse]") = some (S "x[/noparse]") ∧
    parseDoc defaultParserConfig (S "[code]x[/CODE]") =
      some [Node.tag (S "code") (S "code") TagOpt.none
        (NodeList.cons (Node.text (S "x")) NodeList.nil)
        true (S "[code]") (S "[/CODE]") false] ∧
    parseRender (S "[noparse]x[/noparse]") = some (S "x") := by
  refine ⟨by decide, by decide, by decide, by decide⟩

/-- C8: the trailing-punctuation trim computed by `parse_url` is discarded:
the closure in `parse_token` overwrites every token's slice with the full
consumed prefix, so the `Url` token keeps the trailing `.` and the rendered
anchor's href contains it. `parse_url` itself does trim (first conjunct),
but the token that reaches the renderer does not. -/
theorem c8_url_trim_overwritten :
    parseUrl (S "https://e.com. x") =
      some (Tok.url (S "https://e.com"), S " x") ∧
    tokenize (S "Visit https://e.com.") =
      [Tok.text (S "Visit "), Tok.url (S "https://e.com.")] ∧
    parseRender (S "Visit https://e.com.") =
      some (S "Visit <a class=\"bbcode-url\" href=\"https://e.com.\" rel=\"nofollow\">https://e.com.</a>") := by
  refine ⟨by decide, by decide, by decide⟩

theorem c6_email_checks_five_handlers_witness :
    emailAccepted (emailOf ⟨S "email", S "email", TagOpt.scalar (S "nope"),
      NodeList.nil, true, S "[email=nope]", S "[/email]", false⟩ []) = false ∧
    renderEmail defaultRenderConfig ⟨S "email", S "email",
      TagOpt.scalar (S "nope"), NodeList.nil, true, S "[email=nope]",
      S "[/email]", false⟩ [] [] =
    renderAsText defaultRenderConfig ⟨S "email", S "email",
      TagOpt.scalar (S "nope"), NodeList.nil, true, S "[email=nope]",
      S "[/email]", false⟩ [] :=
  ⟨by decide, c6_email_checks_five_handlers.1 defaultRenderConfig _ [] []
    (by decide)⟩

lemma NodeList.push_cons (m : Node) (l : NodeList) (n : Node) :
    (NodeList.cons m l).push n = NodeList.cons m (l.push n) := rfl

lemma NodeList.push_ne_nil (l : NodeList) (n : Node) :
    l.push n ≠ NodeList.nil := by
  cases l <;> intro h <;> exact absurd h (by simp [NodeList.push, NodeList.one,
    HAppend.hAppend, Append.append, NodeList.append])

lemma NodeList.getLast?_push (l : NodeList) (n : Node) :
    (l.push n).getLast? = some n := by
  match l with
  | .nil => rfl
  | .cons m l =>
    rw [NodeList.push_cons]
    rcases hp : l.push n with - | ⟨a, b⟩
    · exact absurd hp (NodeList.push_ne_nil l n)
    · have ih := NodeList.getLast?_push l n
      rw [hp] at ih
      exact ih

lemma chainN_one (t : TagNode) : chainN 1 t = [(t.name, t.closed)] := by
  rw [chainN]
  split <;> rfl

lemma foldInto_chain (ps : List TagNode) : ∀ (cur : TagNode) (k : Nat),
    chainN (ps.length + k) (foldInto cur ps)
      = ps.reverse.map (fun p => (p.name, p.closed)) ++ chainN k cur := by
  induction ps with
  | nil =>
    intro cur k
    simp [foldInto]
  | cons p ps ih =>
    intro cur k
    have h1 : foldInto cur (p :: ps) =
        foldInto { p with children := p.children.push (Node.ofTag cur) } ps := rfl
    have h2 : (p :: ps).length + k = ps.length + (k + 1) := by
      simp only [List.length_cons]
      omega
    rw [h1, h2, ih]
    have h3 : chainN (k + 1)
        { p with children := p.children.push (Node.ofTag cur) }
        = (p.name, p.closed) :: chainN k cur := by
      conv_lhs => rw [chainN]
      dsimp only
      rw [NodeList.getLast?_push]
      dsimp only [Node.ofTag]
    rw [h3]
    simp

lemma setLastRawClose_map (l : List TagNode) (raw : Str) :
    (setLastRawClose l raw).map (fun t => (t.name, t.closed))
      = l.map (fun t => (t.name, t.closed)) := by
  induction l with
  | nil => rfl
  | cons t ts ih =>
    cases ts with
    | nil => rfl
    | cons a b =>
      have h1 : setLastRawClose (t :: a :: b) raw
          = t :: setLastRawClose (a :: b) raw := rfl
      rw [h1, List.map_cons, List.map_cons, ih]

/-- C10: when a close tag matches, `apply_close` marks the whole split
segment closed and folds it bottom-up: descending through last children of
the folded node yields exactly the segment's tag names from the matched
entry down to the innermost, every one marked closed; concretely
`[b][i]x[/b]` renders as properly nested `<strong><em>x</em></strong>` and
a following unmatched `[/i]` stays literal text. -/
theorem c10_close_marks_and_folds :
    (∀ (seg : List TagNode) (raw : Str) (folded : TagNode),
      applyClose seg raw = some folded →
      chainN seg.length folded = seg.reverse.map (fun t => (t.name, true))) ∧
    parseRender (S "[b][i]x[/b]") = some (S "<strong><em>x</em></strong>") ∧
    parseRender (S "[b][i]x[/b][/i]") =
      some (S "<strong><em>x</em></strong>[/i]") := by
  refine ⟨?_, by decide, by decide⟩
  intro seg raw folded h
  unfold applyClose at h
  split at h
  next hnil => exact absurd h (by simp)
  next t0 ts heq =>
    simp only [Option.some.injEq] at h
    subst h
    have hlen : seg.length = ts.length + 1 := by
      have := congrArg List.length (setLastRawClose_map (markAllClosed seg) raw)
      rw [heq] at this
      simp only [List.length_map, List.length_cons] at this
      simp only [markAllClosed, List.length_map] at this
      omega
    have hmap : (t0 :: ts).map (fun t => (t.name, t.closed))
        = seg.map (fun t => (t.name, true)) := by
      rw [← heq, setLastRawClose_map, markAllClosed, List.map_map]
      rfl
    rw [hlen]
    have := foldInto_chain ts t0 1
    rw [chainN_one] at this
    rw [show ts.length + 1 = ts.length + 1 from rfl, this]
    have : ts.reverse.map (fun t => (t.name, t.closed)) ++ [(t0.name, t0.closed)]
        = ((t0 :: ts).map (fun t => (t.name, t.closed))).reverse := by
      rw [List.map_cons, List.reverse_cons, List.map_reverse]
    rw [this, hmap, List.map_reverse]

theorem c10_close_marks_and_folds_witness :
    chainN 2 ⟨S "b", S "b", TagOpt.none,
      NodeList.cons (Node.tag (S "i") (S "i") TagOpt.none
        (NodeList.cons (Node.text (S "x")) NodeList.nil)
        true (S "[i]") [] false) NodeList.nil,
      true, S "[b]", S "[/b]", false⟩ = [(S "b", true), (S "i", true)] :=
  c10_close_marks_and_folds.1
    [⟨S "i", S "i", TagOpt.none,
        NodeList.cons (Node.text (S "x")) NodeList.nil, false, S "[i]", [],
        false⟩,
     ⟨S "b", S "b", TagOpt.none, NodeList.nil, false, S "[b]", [], false⟩]
    (S "[/b]") _ (by decide)

lemma scanStr_nil (a : ScanAcc) : scanStr a [] = a := rfl

lemma scanStr_cons (a : ScanAcc) (c : Char) (s : Str) :
    scanStr a (c :: s) = scanStr (scanStep a c) s := rfl

lemma scanStr_append (a : ScanAcc) (s t : Str) :
    scanStr a (s ++ t) = scanStr (scanStr a s) t :=
  List.foldl_append _ _ _ _

lemma scanStep_shift (st : ScanSt) (cur val : Str) (d hs : List Str)
    (c : Char) :
    scanStep ⟨st, cur, val, d, hs⟩ c =
      ⟨(scanStep ⟨st, cur, val, [], []⟩ c).st,
       (scanStep ⟨st, cur, val, [], []⟩ c).cur,
       (scanStep ⟨st, cur, val, [], []⟩ c).val,
       d ++ (scanStep ⟨st, cur, val, [], []⟩ c).done,
       hs ++ (scanStep ⟨st, cur, val, [], []⟩ c).hrefs⟩ := by
  cases st <;> simp only [scanStep] <;> split <;> (try split) <;> simp

lemma scanStr_shift (s : Str) :
    ∀ (st : ScanSt) (cur val : Str) (d hs : List Str),
    scanStr ⟨st, cur, val, d, hs⟩ s =
      ⟨(scanStr ⟨st, cur, val, [], []⟩ s).st,
       (scanStr ⟨st, cur, val, [], []⟩ s).cur,
       (scanStr ⟨st, cur, val, [], []⟩ s).val,
       d ++ (scanStr ⟨st, cur, val, [], []⟩ s).done,
       hs ++ (scanStr ⟨st, cur, val, [], []⟩ s).hrefs⟩ := by
  induction s with
  | nil =>
    intro st cur val d hs
    simp [scanStr_nil]
  | cons c s ih =>
    intro st cur val d hs
    rw [scanStr_cons, scanStr_cons, scanStep_shift]
    rw [ih]
    conv_rhs =>
      rw [show scanStep ⟨st, cur, val, [], []⟩ c =
        ⟨(scanStep ⟨st, cur, val, [], []⟩ c).st,
         (scanStep ⟨st, cur, val, [], []⟩ c).cur,
         (scanStep ⟨st, cur, val, [], []⟩ c).val,
         (scanStep ⟨st, cur, val, [], []⟩ c).done,
         (scanStep ⟨st, cur, val, [], []⟩ c).hrefs⟩ from rfl]
      rw [ih]
    simp [List.append_assoc]

lemma scan_outside_pass (s : Str) :
    ∀ (cur val : Str) (d hs : List Str), '<' ∉ s →
    scanStr ⟨ScanSt.outside, cur, val, d, hs⟩ s
      = ⟨ScanSt.outside, cur, val, d, hs⟩ := by
  induction s with
  | nil => intro cur val d hs _; rfl
  | cons c s ih =>
    intro cur val d hs h
    rw [scanStr_cons]
    have hc : ¬ c = '<' := fun hq => h (hq ▸ List.mem_cons_self c s)
    have hstep : scanStep ⟨ScanSt.outside, cur, val, d, hs⟩ c
        = ⟨ScanSt.outside, cur, val, d, hs⟩ := by
      simp [scanStep, hc]
    rw [hstep]
    exact ih cur val d hs (fun hm => h (List.mem_cons_of_mem c hm))

lemma scan_inTag_pass (s : Str) :
    ∀ (cur : Str) (d hs : List Str), '"' ∉ s → '>' ∉ s →
    scanStr ⟨ScanSt.inTag, cur, [], d, hs⟩ s
      = ⟨ScanSt.inTag, cur ++ s, [], d, hs⟩ := by
  induction s with
  | nil => intro cur d hs _ _; simp [scanStr_nil]
  | cons c s ih =>
    intro cur d hs hq hg
    rw [scanStr_cons]
    have hcq : ¬ c = '"' := fun h => hq (h ▸ List.mem_cons_self c s)
    have hcg : ¬ c = '>' := fun h => hg (h ▸ List.mem_cons_self c s)
    have hstep : scanStep ⟨ScanSt.inTag, cur, [], d, hs⟩ c
        = ⟨ScanSt.inTag, cur ++ [c], [], d, hs⟩ := by
      simp [scanStep, hcq, hcg]
    rw [hstep, ih (cur ++ [c]) d hs (fun hm => hq (List.mem_cons_of_mem c hm))
      (fun hm => hg (List.mem_cons_of_mem c hm))]
    simp

lemma scan_inQuoteH_pass (s : Str) :
    ∀ (cur val : Str) (d hs : List Str), '"' ∉ s →
    scanStr ⟨ScanSt.inQuoteH, cur, val, d, hs⟩ s
      = ⟨ScanSt.inQuoteH, cur, val ++ s, d, hs⟩ := by
  induction s with
  | nil => intro cur val d hs _; simp [scanStr_nil]
  | cons c s ih =>
    intro cur val d hs hq
    rw [scanStr_cons]
    have hcq : ¬ c = '"' := fun h => hq (h ▸ List.mem_cons_self c s)
    have hstep : scanStep ⟨ScanSt.inQuoteH, cur, val, d, hs⟩ c
        = ⟨ScanSt.inQuoteH, cur, val ++ [c], d, hs⟩ := by
      simp [scanStep, hcq]
    rw [hstep, ih cur (val ++ [c]) d hs (fun hm => hq (List.mem_cons_of_mem c hm))]
    simp

lemma scan_inQuoteO_pass (s : Str) :
    ∀ (cur val : Str) (d hs : List Str), '"' ∉ s →
    scanStr ⟨ScanSt.inQuoteO, cur, val, d, hs⟩ s
      = ⟨ScanSt.inQuoteO, cur, val, d, hs⟩ := by
  induction s with
  | nil => intro cur val d hs _; rfl
  | cons c s ih =>
    intro cur val d hs hq
    rw [scanStr_cons]
    have hcq : ¬ c = '"' := fun h => hq (h ▸ List.mem_cons_self c s)
    have hstep : scanStep ⟨ScanSt.inQuoteO, cur, val, d, hs⟩ c
        = ⟨ScanSt.inQuoteO, cur, val, d, hs⟩ := by
      simp [scanStep, hcq]
    rw [hstep]
    exact ih cur val d hs (fun hm => hq (List.mem_cons_of_mem c hm))

lemma escapeChar_no (c : Char) :
    '<' ∉ escapeChar c ∧ '>' ∉ escapeChar c ∧ '"' ∉ escapeChar c := by
  unfold escapeChar
  split_ifs with h1 h2 h3 h4 h5
  · exact ⟨by decide, by decide, by decide⟩
  · exact ⟨by decide, by decide, by decide⟩
  · exact ⟨by decide, by decide, by decide⟩
  · exact ⟨by decide, by decide, by decide⟩
  · exact ⟨by decide, by decide, by decide⟩
  · refine ⟨?_, ?_, ?_⟩ <;> intro hm <;> rw [List.mem_singleton] at hm
    · exact h1 hm.symm
    · exact h2 hm.symm
    · exact h4 hm.symm

lemma escapeHtml_no (s : Str) :
    '<' ∉ escapeHtml s ∧ '>' ∉ escapeHtml s ∧ '"' ∉ escapeHtml s := by
  unfold escapeHtml
  split
  next h =>
    rw [List.any_eq_true] at h
    push_neg at h
    refine ⟨?_, ?_, ?_⟩ <;> intro hm <;>
      exact absurd (h _ hm) (by simp [isEscapable])
  · refine ⟨?_, ?_, ?_⟩ <;> intro hm <;> rw [List.mem_flatMap] at hm <;>
      obtain ⟨c, -, hc⟩ := hm
    · exact (escapeChar_no c).1 hc
    · exact (escapeChar_no c).2.1 hc
    · exact (escapeChar_no c).2.2 hc

lemma digitChar_isDigit {m : Nat} (h : m < 10) :
    (Nat.digitChar m).isDigit = true := by
  interval_cases m <;> rfl

lemma toDigitsCore_digits :
    ∀ (f n : Nat) (ds : List Char), (∀ c ∈ ds, c.isDigit = true) →
    ∀ c ∈ Nat.toDigitsCore 10 f n ds, c.isDigit = true := by
  intro f
  induction f with
  | zero =>
    intro n ds h c hc
    exact h c hc
  | succ f ih =>
    intro n ds h c hc
    rw [Nat.toDigitsCore] at hc
    split at hc
    · rcases List.mem_cons.mp hc with hc | hc
      · subst hc
        exact digitChar_isDigit (Nat.mod_lt _ (by omega))
      · exact h c hc
    · refine ih _ _ ?_ c hc
      intro x hx
      rcases List.mem_cons.mp hx with hx | hx
      · subst hx
        exact digitChar_isDigit (Nat.mod_lt _ (by omega))
      · exact h x hx

lemma natToStr_digits (n : Nat) : ∀ c ∈ natToStr n, c.isDigit = true := by
  intro c hc
  exact toDigitsCore_digits (n + 1) n [] (by simp) c hc

lemma natToStr_no_quote (n : Nat) : '"' ∉ natToStr n := by
  intro hm
  have := natToStr_digits n _ hm
  simp [Char.isDigit] at this

lemma PieceOk_mk (cfg : RenderConfig) (s : Str) (D H : List Str)
    (hscan : scanStr scanInit s = ⟨ScanSt.outside, [], [], D, H⟩)
    (hD : ∀ seg ∈ D, SegOk seg = true) (hH : ∀ v ∈ H, HrefSrc cfg v) :
    PieceOk cfg s := by
  unfold PieceOk
  rw [hscan]
  exact ⟨rfl, rfl, rfl, hD, hH⟩

lemma PieceOk_nil (cfg : RenderConfig) : PieceOk cfg [] := by
  unfold PieceOk
  exact ⟨rfl, rfl, rfl, by simp [scanStr_nil, scanInit], by simp [scanStr_nil, scanInit]⟩

lemma PieceOk_append {cfg : RenderConfig} {s t : Str}
    (h1 : PieceOk cfg s) (h2 : PieceOk cfg t) : PieceOk cfg (s ++ t) := by
  obtain ⟨a1, a2, a3, a4, a5⟩ := h1
  obtain ⟨b1, b2, b3, b4, b5⟩ := h2
  unfold PieceOk
  rw [scanStr_append]
  have hs : scanStr scanInit s =
      ⟨ScanSt.outside, [], [], (scanStr scanInit s).done,
        (scanStr scanInit s).hrefs⟩ := by
    conv_lhs => rw [show scanStr scanInit s = ⟨(scanStr scanInit s).st,
      (scanStr scanInit s).cur, (scanStr scanInit s).val,
      (scanStr scanInit s).done, (scanStr scanInit s).hrefs⟩ from rfl]
    rw [a1, a2, a3]
  rw [hs, scanStr_shift,
    show (⟨ScanSt.outside, [], [], [], []⟩ : ScanAcc) = scanInit from rfl]
  refine ⟨b1, b2, b3, ?_, ?_⟩
  · intro seg hseg
    rcases List.mem_append.mp hseg with h | h
    · exact a4 seg h
    · exact b4 seg h
  · intro v hv
    rcases List.mem_append.mp hv with h | h
    · exact a5 v h
    · exact b5 v h

lemma PieceOk_outside (cfg : RenderConfig) (s : Str) (h : '<' ∉ s) :
    PieceOk cfg s := by
  unfold PieceOk
  rw [show scanInit = (⟨ScanSt.outside, [], [], [], []⟩ : ScanAcc) from rfl,
    scan_outside_pass s [] [] [] [] h]
  exact ⟨rfl, rfl, rfl, by simp, by simp⟩

lemma PieceOk_escape (cfg : RenderConfig) (x : Str) :
    PieceOk cfg (escapeHtml x) :=
  PieceOk_outside _ _ (escapeHtml_no x).1

lemma PieceOk_renderText (cfg : RenderConfig) (x : Str)
    (hs : cfg.sanitize = true) : PieceOk cfg (renderText cfg x) := by
  unfold renderText
  rw [if_pos hs]
  exact PieceOk_escape cfg x

lemma chunkO (cur : Str) (d hs : List Str) (lit v : Str)
    (hlq : '"' ∉ lit) (hlg : '>' ∉ lit) (hvq : '"' ∉ v)
    (hno : ¬ ((S "href=").isSuffixOf (cur ++ lit) = true)) :
    scanStr ⟨ScanSt.inTag, cur, [], d, hs⟩ (lit ++ '"' :: v ++ ['"'])
      = ⟨ScanSt.inTag, cur ++ lit, [], d, hs⟩ := by
  rw [show lit ++ '"' :: v ++ ['"'] = lit ++ (['"'] ++ (v ++ ['"'])) from by simp,
    scanStr_append, scan_inTag_pass lit cur d hs hlq hlg, scanStr_append]
  have h1 : scanStr ⟨ScanSt.inTag, cur ++ lit, [], d, hs⟩ ['"']
      = ⟨ScanSt.inQuoteO, cur ++ lit, [], d, hs⟩ := by
    simp [scanStr, scanStep, hno]
  rw [h1, scanStr_append, scan_inQuoteO_pass v _ _ _ _ hvq]
  simp [scanStr, scanStep]

lemma chunkH (cur : Str) (d hs : List Str) (lit v : Str)
    (hlq : '"' ∉ lit) (hlg : '>' ∉ lit) (hvq : '"' ∉ v)
    (hyes : (S "href=").isSuffixOf (cur ++ lit) = true) :
    scanStr ⟨ScanSt.inTag, cur, [], d, hs⟩ (lit ++ '"' :: v ++ ['"'])
      = ⟨ScanSt.inTag, cur ++ lit, [], d, hs ++ [v]⟩ := by
  rw [show lit ++ '"' :: v ++ ['"'] = lit ++ (['"'] ++ (v ++ ['"'])) from by simp,
    scanStr_append, scan_inTag_pass lit cur d hs hlq hlg, scanStr_append]
  have h1 : scanStr ⟨ScanSt.inTag, cur ++ lit, [], d, hs⟩ ['"']
      = ⟨ScanSt.inQuoteH, cur ++ lit, [], d, hs⟩ := by
    simp [scanStr, scanStep, hyes]
  rw [h1, scanStr_append, scan_inQuoteH_pass v _ _ _ _ hvq]
  simp [scanStr, scanStep]

lemma scan_gt (cur : Str) (d hs : List Str) :
    scanStr ⟨ScanSt.inTag, cur, [], d, hs⟩ ['>']
      = ⟨ScanSt.outside, [], [], d ++ [cur], hs⟩ := by
  simp [scanStr, scanStep]

lemma scan_lt (cur val : Str) (d hs : List Str) :
    scanStr ⟨ScanSt.outside, cur, val, d, hs⟩ ['<']
      = ⟨ScanSt.inTag, [], [], d, hs⟩ := by
  simp [scanStr, scanStep]

lemma scan_qH_close (cur val : Str) (d hs : List Str) :
    scanStr ⟨ScanSt.inQuoteH, cur, val, d, hs⟩ ['"']
      = ⟨ScanSt.inTag, cur, [], d, hs ++ [val]⟩ := by
  simp [scanStr, scanStep]

lemma scan_qO_close (cur val : Str) (d hs : List Str) :
    scanStr ⟨ScanSt.inQuoteO, cur, val, d, hs⟩ ['"']
      = ⟨ScanSt.inTag, cur, [], d, hs⟩ := by
  simp [scanStr, scanStep]

lemma pieceOk_renderAsText (cfg : RenderConfig) (t : TagNode) (ch : Str)
    (hs : cfg.sanitize = true) (hch : PieceOk cfg ch) :
    PieceOk cfg (renderAsText cfg t ch) := by
  unfold renderAsText
  split
  · rw [List.append_assoc]
    exact PieceOk_append (PieceOk_renderText _ _ hs)
      (PieceOk_append hch (PieceOk_nil cfg))
  · rw [List.append_assoc]
    exact PieceOk_append (PieceOk_renderText _ _ hs)
      (PieceOk_append hch (PieceOk_renderText _ _ hs))

lemma pieceOk_simpleTag (cfg : RenderConfig) (tag ch : Str)
    (hq : '"' ∉ tag) (hg : '>' ∉ tag)
    (hs1 : SegOk tag = true) (hs2 : SegOk ('/' :: tag) = true)
    (hch : PieceOk cfg ch) : PieceOk cfg (renderSimpleTag tag ch) := by
  unfold renderSimpleTag
  have hsplit : S "<" ++ tag ++ S ">" ++ ch ++ S "</" ++ tag ++ S ">"
      = (S "<" ++ tag ++ S ">") ++ (ch ++ (S "</" ++ tag ++ S ">")) := by
    simp only [List.append_assoc]
  rw [hsplit]
  refine PieceOk_append ?_ (PieceOk_append hch ?_)
  · refine PieceOk_mk cfg _ [tag] [] ?_ ?_ (by simp)
    · simp only [scanStr_append]
      rw [show scanStr scanInit (S "<") = ⟨ScanSt.inTag, [], [], [], []⟩ from rfl,
        scan_inTag_pass tag [] [] [] hq hg]
      rw [show ([] : Str) ++ tag = tag from by simp]
      rw [show (S ">") = ['>'] from rfl, scan_gt]
      simp
    · intro seg hseg
      rw [List.mem_singleton] at hseg
      subst hseg
      exact hs1
  · refine PieceOk_mk cfg _ ['/' :: tag] [] ?_ ?_ (by simp)
    · simp only [scanStr_append]
      rw [show scanStr scanInit (S "</") = ⟨ScanSt.inTag, ['/'], [], [], []⟩
        from rfl, scan_inTag_pass tag ['/'] [] [] hq hg]
      rw [show (S ">") = ['>'] from rfl, scan_gt]
      simp
    · intro seg hseg
      rw [List.mem_singleton] at hseg
      subst hseg
      exact hs2

lemma pieceOk_renderColor (cfg : RenderConfig) (t : TagNode) (ch : Str)
    (hs : cfg.sanitize = true) (hcp : '"' ∉ cfg.classPre)
    (hch : PieceOk cfg ch) : PieceOk cfg (renderColor cfg t ch) := by
  unfold renderColor
  split
  next x hx =>
    split
    next hv =>
      have hsplit : S "<span class=\"" ++ cfg.classPre ++ S "-color\" style=\"color: " ++
          escapeHtml x ++ S ";\">" ++ ch ++ S "</span>"
          = (S "<span class=\"" ++ cfg.classPre ++ S "-color\" style=\"color: " ++
            escapeHtml x ++ S ";\">") ++ (ch ++ S "</span>") := by
        simp only [List.append_assoc]
      rw [hsplit]
      refine PieceOk_append ?_ (PieceOk_append hch ?_)
      · refine PieceOk_mk cfg _ [S "span class= style="] [] ?_ ?_ (by simp)
        · simp only [scanStr_append]
          rw [show scanStr scanInit (S "<span class=\"")
              = ⟨ScanSt.inQuoteO, S "span class=", [], [], []⟩ from rfl,
            scan_inQuoteO_pass _ _ _ _ _ hcp,
            show scanStr ⟨ScanSt.inQuoteO, S "span class=", [], [], []⟩
                (S "-color\" style=\"color: ")
              = ⟨ScanSt.inQuoteO, S "span class= style=", [], [], []⟩ from rfl,
            scan_inQuoteO_pass _ _ _ _ _ (escapeHtml_no x).2.2,
            show scanStr ⟨ScanSt.inQuoteO, S "span class= style=", [], [], []⟩
                (S ";\">")
              = ⟨ScanSt.outside, [], [], [S "span class= style="], []⟩ from rfl]
        · intro seg hseg
          rw [List.mem_singleton] at hseg
          subst hseg
          decide
      · exact PieceOk_mk cfg _ [S "/span"] [] rfl
          (by intro seg hseg; rw [List.mem_singleton] at hseg; subst hseg; decide)
          (by simp)
    next => exact pieceOk_renderAsText cfg t ch hs hch
  next => exact pieceOk_renderAsText cfg t ch hs hch

lemma pieceOk_renderFont (cfg : RenderConfig) (t : TagNode) (ch : Str)
    (hs : cfg.sanitize = true) (hcp : '"' ∉ cfg.classPre)
    (hch : PieceOk cfg ch) : PieceOk cfg (renderFont cfg t ch) := by
  unfold renderFont
  split
  next x hx =>
    split
    next hv =>
      have hsplit : S "<span class=\"" ++ cfg.classPre ++ S "-font\" style=\"font-family: " ++
          escapeHtml x ++ S ";\">" ++ ch ++ S "</span>"
          = (S "<span class=\"" ++ cfg.classPre ++ S "-font\" style=\"font-family: " ++
            escapeHtml x ++ S ";\">") ++ (ch ++ S "</span>") := by
        simp only [List.append_assoc]
      rw [hsplit]
      refine PieceOk_append ?_ (PieceOk_append hch ?_)
      · refine PieceOk_mk cfg _ [S "span class= style="] [] ?_ ?_ (by simp)
        · simp only [scanStr_append]
          rw [show scanStr scanInit (S "<span class=\"")
              = ⟨ScanSt.inQuoteO, S "span class=", [], [], []⟩ from rfl,
            scan_inQuoteO_pass _ _ _ _ _ hcp,
            show scanStr ⟨ScanSt.inQuoteO, S "span class=", [], [], []⟩
                (S "-font\" style=\"font-family: ")
              = ⟨ScanSt.inQuoteO, S "span class= style=", [], [], []⟩ from rfl,
            scan_inQuoteO_pass _ _ _ _ _ (escapeHtml_no x).2.2,
            show scanStr ⟨ScanSt.inQuoteO, S "span class= style=", [], [], []⟩
                (S ";\">")
              = ⟨ScanSt.outside, [], [], [S "span class= style="], []⟩ from rfl]
        · intro seg hseg
          rw [List.mem_singleton] at hseg
          subst hseg
          decide
      · exact PieceOk_mk cfg _ [S "/span"] [] rfl
          (by intro seg hseg; rw [List.mem_singleton] at hseg; subst hseg; decide)
          (by simp)
    next => exact pieceOk_renderAsText cfg t ch hs hch
  next => exact pieceOk_renderAsText cfg t ch hs hch

lemma parseUint_chars {s : Str} {m : Nat} {n : Nat}
    (h : parseUint s m = some n) : ∀ c ∈ s, c = '+' ∨ c.isDigit = true := by
  unfold parseUint at h
  intro c hc
  split at h
  next r =>
    dsimp only at h
    split at h
    · exact absurd h (by simp)
    · split at h
      next hall =>
        rcases List.mem_cons.mp hc with rfl | hm
        · exact Or.inl rfl
        · exact Or.inr (List.all_eq_true.mp hall c hm)
      next => exact absurd h (by simp)
  next hplus =>
    dsimp only at h
    split at h
    · exact absurd h (by simp)
    · split at h
      next hall => exact Or.inr (List.all_eq_true.mp hall c hc)
      next => exact absurd h (by simp)

lemma natToStr_append_no_quote (k : Nat) (t : Str) (ht : '"' ∉ t) :
    '"' ∉ natToStr k ++ t := by
  intro hm
  rcases List.mem_append.mp hm with h | h
  · exact natToStr_no_quote k h
  · exact ht h

lemma parseSize_no_quote {size r : Str} (h : parseSize size = some r) :
    '"' ∉ r := by
  unfold parseSize at h
  dsimp only at h
  split at h
  next hnum =>
    rw [Option.some.injEq] at h
    subst h
    split at hnum
    next k hk =>
      split at hnum
      · rw [Option.some.injEq] at hnum
        subst hnum
        exact natToStr_append_no_quote _ _ (by decide)
      · split at hnum
        · split at hnum
          · rw [Option.some.injEq] at hnum
            subst hnum
            exact natToStr_append_no_quote _ _ (by decide)
          · rw [Option.some.injEq] at hnum
            subst hnum
            exact natToStr_append_no_quote _ _ (by decide)
        · exact absurd hnum (by simp)
    next => exact absurd hnum (by simp)
  next =>
    split at h
    next hpx =>
      rw [Option.some.injEq] at h
      subst h
      split at hpx
      next hsfx =>
        split at hpx
        next k hk =>
          split at hpx
          next hrange =>
            rw [Option.some.injEq] at hpx
            subst hpx
            obtain ⟨pre, hpre⟩ := List.isSuffixOf_iff_suffix.mp hsfx
            intro hm
            rw [← hpre] at hm
            rcases List.mem_append.mp hm with hmem | hmem
            · have htake : size.take (size.length - (S "px").length) = pre := by
                rw [← hpre]
                simp [List.length_append]
              rw [show size.length - 2
                  = size.length - (S "px").length from rfl, htake] at hk
              rcases parseUint_chars hk _ hmem with h1 | h1
              · exact absurd h1 (by decide)
              · simp [Char.isDigit] at h1
            · exact absurd hmem (by decide)
          next => exact absurd hpx (by simp)
        next => exact absurd hpx (by simp)
      next => exact absurd hpx (by simp)
    next =>
      split at h
      next hsfx =>
        split at h
        next k hk =>
          split at h
          next hrange =>
            rw [Option.some.injEq] at h
            subst h
            obtain ⟨pre, hpre⟩ := List.isSuffixOf_iff_suffix.mp hsfx
            intro hm
            rw [← hpre] at hm
            rcases List.mem_append.mp hm with hmem | hmem
            · have htake : size.take (size.length - (S "%").length) = pre := by
                rw [← hpre]
                simp [List.length_append]
              rw [show size.length - 1
                  = size.length - (S "%").length from rfl, htake] at hk
              rcases parseUint_chars hk _ hmem with h1 | h1
              · exact absurd h1 (by decide)
              · simp [Char.isDigit] at h1
            · exact absurd hmem (by decide)
          next => exact absurd h (by simp)
        next => exact absurd h (by simp)
      next => exact absurd h (by simp)

lemma pieceOk_renderSize (cfg : RenderConfig) (t : TagNode) (ch : Str)
    (hs : cfg.sanitize = true) (hcp : '"' ∉ cfg.classPre)
    (hch : PieceOk cfg ch) : PieceOk cfg (renderSize cfg t ch) := by
  unfold renderSize
  split
  next x hx =>
    split
    next css hcss =>
      have hsplit : S "<span class=\"" ++ cfg.classPre ++
          S "-size\" style=\"font-size: " ++ css ++ S ";\">" ++ ch ++ S "</span>"
          = (S "<span class=\"" ++ cfg.classPre ++
            S "-size\" style=\"font-size: " ++ css ++ S ";\">") ++
            (ch ++ S "</span>") := by
        simp only [List.append_assoc]
      rw [hsplit]
      refine PieceOk_append ?_ (PieceOk_append hch ?_)
      · refine PieceOk_mk cfg _ [S "span class= style="] [] ?_ (by decide) (by simp)
        simp only [scanStr_append]
        rw [show scanStr scanInit (S "<span class=\"")
            = ⟨ScanSt.inQuoteO, S "span class=", [], [], []⟩ from rfl,
          scan_inQuoteO_pass _ _ _ _ _ hcp,
          show scanStr ⟨ScanSt.inQuoteO, S "span class=", [], [], []⟩
              (S "-size\" style=\"font-size: ")
            = ⟨ScanSt.inQuoteO, S "span class= style=", [], [], []⟩ from rfl,
          scan_inQuoteO_pass _ _ _ _ _ (parseSize_no_quote hcss),
          show scanStr ⟨ScanSt.inQuoteO, S "span class= style=", [], [], []⟩
              (S ";\">")
            = ⟨ScanSt.outside, [], [], [S "span class= style="], []⟩ from rfl]
      · exact PieceOk_mk cfg _ [S "/span"] [] rfl (by decide) (by simp)
    next => exact pieceOk_renderAsText cfg t ch hs hch
  next => exact pieceOk_renderAsText cfg t ch hs hch

lemma pieceOk_renderAlign (cfg : RenderConfig) (align ch : Str)
    (hal : '"' ∉ align) (hcp : '"' ∉ cfg.classPre)
    (hch : PieceOk cfg ch) : PieceOk cfg (renderAlign cfg align ch) := by
  unfold renderAlign
  have hsplit : S "<div class=\"" ++ cfg.classPre ++
      S "-align\" style=\"text-align: " ++ align ++ S ";\">" ++ ch ++ S "</div>"
      = (S "<div class=\"" ++ cfg.classPre ++
        S "-align\" style=\"text-align: " ++ align ++ S ";\">") ++
        (ch ++ S "</div>") := by
    simp only [List.append_assoc]
  rw [hsplit]
  refine PieceOk_append ?_ (PieceOk_append hch ?_)
  · refine PieceOk_mk cfg _ [S "div class= style="] [] ?_ (by decide) (by simp)
    simp only [scanStr_append]
    rw [show scanStr scanInit (S "<div class=\"")
        = ⟨ScanSt.inQuoteO, S "div class=", [], [], []⟩ from rfl,
      scan_inQuoteO_pass _ _ _ _ _ hcp,
      show scanStr ⟨ScanSt.inQuoteO, S "div class=", [], [], []⟩
          (S "-align\" style=\"text-align: ")
        = ⟨ScanSt.inQuoteO, S "div class= style=", [], [], []⟩ from rfl,
      scan_inQuoteO_pass _ _ _ _ _ hal,
      show scanStr ⟨ScanSt.inQuoteO, S "div class= style=", [], [], []⟩
          (S ";\">")
        = ⟨ScanSt.outside, [], [], [S "div class= style="], []⟩ from rfl]
  · exact PieceOk_mk cfg _ [S "/div"] [] rfl (by decide) (by simp)

lemma pieceOk_renderIndent (cfg : RenderConfig) (t : TagNode) (ch : Str)
    (hcp : '"' ∉ cfg.classPre) (hch : PieceOk cfg ch) :
    PieceOk cfg (renderIndent cfg t ch) := by
  unfold renderIndent
  dsimp only
  have hsplit : S "<div class=\"" ++ cfg.classPre ++
      S "-indent\" style=\"margin-left: " ++
      natToStr (min ((t.opt.asScalar.bind parseU8).getD 1) 5 * 20) ++
      S "px;\">" ++ ch ++ S "</div>"
      = (S "<div class=\"" ++ cfg.classPre ++
        S "-indent\" style=\"margin-left: " ++
        natToStr (min ((t.opt.asScalar.bind parseU8).getD 1) 5 * 20) ++
        S "px;\">") ++ (ch ++ S "</div>") := by
    simp only [List.append_assoc]
  rw [hsplit]
  refine PieceOk_append ?_ (PieceOk_append hch ?_)
  · refine PieceOk_mk cfg _ [S "div class= style="] [] ?_ (by decide) (by simp)
    simp only [scanStr_append]
    rw [show scanStr scanInit (S "<div class=\"")
        = ⟨ScanSt.inQuoteO, S "div class=", [], [], []⟩ from rfl,
      scan_inQuoteO_pass _ _ _ _ _ hcp,
      show scanStr ⟨ScanSt.inQuoteO, S "div class=", [], [], []⟩
          (S "-indent\" style=\"margin-left: ")
        = ⟨ScanSt.inQuoteO, S "div class= style=", [], [], []⟩ from rfl,
      scan_inQuoteO_pass _ _ _ _ _ (natToStr_no_quote _),
      show scanStr ⟨ScanSt.inQuoteO, S "div class= style=", [], [], []⟩
          (S "px;\">")
        = ⟨ScanSt.outside, [], [], [S "div class= style="], []⟩ from rfl]
  · exact PieceOk_mk cfg _ [S "/div"] [] rfl (by decide) (by simp)

lemma pieceOk_renderIcode (cfg : RenderConfig) (inner : Str)
    (hcp : '"' ∉ cfg.classPre) : PieceOk cfg (renderIcode cfg inner) := by
  unfold renderIcode
  have hsplit : S "<code class=\"" ++ cfg.classPre ++ S "-icode\">" ++
      escapeHtml inner ++ S "</code>"
      = (S "<code class=\"" ++ cfg.classPre ++ S "-icode\">") ++
        (escapeHtml inner ++ S "</code>") := by
    simp only [List.append_assoc]
  rw [hsplit]
  refine PieceOk_append ?_ (PieceOk_append (PieceOk_escape cfg inner) ?_)
  · refine PieceOk_mk cfg _ [S "code class="] [] ?_ (by decide) (by simp)
    simp only [scanStr_append]
    rw [show scanStr scanInit (S "<code class=\"")
        = ⟨ScanSt.inQuoteO, S "code class=", [], [], []⟩ from rfl,
      scan_inQuoteO_pass _ _ _ _ _ hcp,
      show scanStr ⟨ScanSt.inQuoteO, S "code class=", [], [], []⟩
          (S "-icode\">")
        = ⟨ScanSt.outside, [], [], [S "code class="], []⟩ from rfl]
  · exact PieceOk_mk cfg _ [S "/code"] [] rfl (by decide) (by simp)

lemma pieceOk_renderIspoiler (cfg : RenderConfig) (ch : Str)
    (hcp : '"' ∉ cfg.classPre) (hch : PieceOk cfg ch) :
    PieceOk cfg (renderIspoiler cfg ch) := by
  unfold renderIspoiler
  have hsplit : S "<span class=\"" ++ cfg.classPre ++
      S "-ispoiler\" onclick=\"this.classList.toggle(\x27revealed\x27)\">" ++
      ch ++ S "</span>"
      = (S "<span class=\"" ++ cfg.classPre ++
        S "-ispoiler\" onclick=\"this.classList.toggle(\x27revealed\x27)\">") ++
        (ch ++ S "</span>") := by
    simp only [List.append_assoc]
  rw [hsplit]
  refine PieceOk_append ?_ (PieceOk_append hch ?_)
  · refine PieceOk_mk cfg _ [S "span class= onclick="] [] ?_ (by decide) (by simp)
    simp only [scanStr_append]
    rw [show scanStr scanInit (S "<span class=\"")
        = ⟨ScanSt.inQuoteO, S "span class=", [], [], []⟩ from rfl,
      scan_inQuoteO_pass _ _ _ _ _ hcp,
      show scanStr ⟨ScanSt.inQuoteO, S "span class=", [], [], []⟩
          (S "-ispoiler\" onclick=\"this.classList.toggle(\x27revealed\x27)\">")
        = ⟨ScanSt.outside, [], [], [S "span class= onclick="], []⟩ from rfl]
  · exact PieceOk_mk cfg _ [S "/span"] [] rfl (by decide) (by simp)

lemma pieceOk_renderSpoiler (cfg : RenderConfig) (t : TagNode) (ch : Str)
    (hcp : '"' ∉ cfg.classPre) (hch : PieceOk cfg ch) :
    PieceOk cfg (renderSpoiler cfg t ch) := by
  unfold renderSpoiler
  have hopen : PieceOk cfg (S "<details class=\"" ++ cfg.classPre ++
      S "-spoiler\"><summary>") := by
    refine PieceOk_mk cfg _ [S "details class=", S "summary"] [] ?_ (by decide)
      (by simp)
    simp only [scanStr_append]
    rw [show scanStr scanInit (S "<details class=\"")
        = ⟨ScanSt.inQuoteO, S "details class=", [], [], []⟩ from rfl,
      scan_inQuoteO_pass _ _ _ _ _ hcp,
      show scanStr ⟨ScanSt.inQuoteO, S "details class=", [], [], []⟩
          (S "-spoiler\"><summary>")
        = ⟨ScanSt.outside, [], [],
            [S "details class=", S "summary"], []⟩ from rfl]
  have hmid : PieceOk cfg (S "</summary><div class=\"spoiler-content\">") :=
    PieceOk_mk cfg _ [S "/summary", S "div class="] [] rfl (by decide) (by simp)
  have hend : PieceOk cfg (S "</div></details>") :=
    PieceOk_mk cfg _ [S "/div", S "/details"] [] rfl (by decide) (by simp)
  split
  next title htitle =>
    have hsplit : S "<details class=\"" ++ cfg.classPre ++
        S "-spoiler\"><summary>" ++ escapeHtml title ++
        S "</summary><div class=\"spoiler-content\">" ++ ch ++
        S "</div></details>"
        = (S "<details class=\"" ++ cfg.classPre ++ S "-spoiler\"><summary>") ++
          (escapeHtml title ++
            (S "</summary><div class=\"spoiler-content\">" ++
              (ch ++ S "</div></details>"))) := by
      simp only [List.append_assoc]
    rw [hsplit]
    exact PieceOk_append hopen (PieceOk_append (PieceOk_escape cfg title)
      (PieceOk_append hmid (PieceOk_append hch hend)))
  next =>
    have hsplit : S "<details class=\"" ++ cfg.classPre ++
        S "-spoiler\"><summary>" ++ S "Spoiler" ++
        S "</summary><div class=\"spoiler-content\">" ++ ch ++
        S "</div></details>"
        = (S "<details class=\"" ++ cfg.classPre ++ S "-spoiler\"><summary>") ++
          (S "Spoiler" ++
            (S "</summary><div class=\"spoiler-content\">" ++
              (ch ++ S "</div></details>"))) := by
      simp only [List.append_assoc]
    rw [hsplit]
    exact PieceOk_append hopen (PieceOk_append (PieceOk_outside cfg _ (by decide))
      (PieceOk_append hmid (PieceOk_append hch hend)))

lemma pieceOk_renderListItem (cfg : RenderConfig) (ch : Str)
    (hch : PieceOk cfg ch) : PieceOk cfg (renderListItem ch) := by
  unfold renderListItem
  rw [List.append_assoc]
  exact PieceOk_append (PieceOk_mk cfg _ [S "li"] [] rfl (by decide) (by simp))
    (PieceOk_append hch
      (PieceOk_mk cfg _ [S "/li"] [] rfl (by decide) (by simp)))

lemma pieceOk_renderTableRow (cfg : RenderConfig) (ch : Str)
    (hch : PieceOk cfg ch) : PieceOk cfg (renderTableRow ch) := by
  unfold renderTableRow
  rw [List.append_assoc]
  exact PieceOk_append (PieceOk_mk cfg _ [S "tr"] [] rfl (by decide) (by simp))
    (PieceOk_append hch
      (PieceOk_mk cfg _ [S "/tr"] [] rfl (by decide) (by simp)))

lemma pieceOk_heading2 (cfg : RenderConfig) (ch : Str)
    (hcp : '"' ∉ cfg.classPre) (hch : PieceOk cfg ch) :
    PieceOk cfg (S "<h" ++ natToStr 2 ++ S " class=\"" ++ cfg.classPre ++
      S "-heading\">" ++ ch ++ S "</h" ++ natToStr 2 ++ S ">") := by
  have hsplit : S "<h" ++ natToStr 2 ++ S " class=\"" ++ cfg.classPre ++
      S "-heading\">" ++ ch ++ S "</h" ++ natToStr 2 ++ S ">"
      = (S "<h" ++ natToStr 2 ++ S " class=\"" ++ cfg.classPre ++
        S "-heading\">") ++ (ch ++ (S "</h" ++ natToStr 2 ++ S ">")) := by
    simp only [List.append_assoc]
  rw [hsplit]
  refine PieceOk_append ?_ (PieceOk_append hch ?_)
  · refine PieceOk_mk cfg _ [S "h2 class="] [] ?_ (by decide) (by simp)
    simp only [scanStr_append]
    rw [show scanStr scanInit (S "<h") = ⟨ScanSt.inTag, S "h", [], [], []⟩
        from rfl,
      show scanStr ⟨ScanSt.inTag, S "h", [], [], []⟩ (natToStr 2)
        = ⟨ScanSt.inTag, S "h2", [], [], []⟩ from rfl,
      show scanStr ⟨ScanSt.inTag, S "h2", [], [], []⟩ (S " class=\"")
        = ⟨ScanSt.inQuoteO, S "h2 class=", [], [], []⟩ from rfl,
      scan_inQuoteO_pass _ _ _ _ _ hcp,
      show scanStr ⟨ScanSt.inQuoteO, S "h2 class=", [], [], []⟩
          (S "-heading\">")
        = ⟨ScanSt.outside, [], [], [S "h2 class="], []⟩ from rfl]
  · refine PieceOk_mk cfg _ [S "/h2"] [] ?_ (by decide) (by simp)
    simp only [scanStr_append]
    rw [show scanStr scanInit (S "</h") = ⟨ScanSt.inTag, S "/h", [], [], []⟩
        from rfl,
      show scanStr ⟨ScanSt.inTag, S "/h", [], [], []⟩ (natToStr 2)
        = ⟨ScanSt.inTag, S "/h2", [], [], []⟩ from rfl,
      show scanStr ⟨ScanSt.inTag, S "/h2", [], [], []⟩ (S ">")
        = ⟨ScanSt.outside, [], [], [S "/h2"], []⟩ from rfl]

lemma pieceOk_heading3 (cfg : RenderConfig) (ch : Str)
    (hcp : '"' ∉ cfg.classPre) (hch : PieceOk cfg ch) :
    PieceOk cfg (S "<h" ++ natToStr 3 ++ S " class=\"" ++ cfg.classPre ++
      S "-heading\">" ++ ch ++ S "</h" ++ natToStr 3 ++ S ">") := by
  have hsplit : S "<h" ++ natToStr 3 ++ S " class=\"" ++ cfg.classPre ++
      S "-heading\">" ++ ch ++ S "</h" ++ natToStr 3 ++ S ">"
      = (S "<h" ++ natToStr 3 ++ S " class=\"" ++ cfg.classPre ++
        S "-heading\">") ++ (ch ++ (S "</h" ++ natToStr 3 ++ S ">")) := by
    simp only [List.append_assoc]
  rw [hsplit]
  refine PieceOk_append ?_ (PieceOk_append hch ?_)
  · refine PieceOk_mk cfg _ [S "h3 class="] [] ?_ (by decide) (by simp)
    simp only [scanStr_append]
    rw [show scanStr scanInit (S "<h") = ⟨ScanSt.inTag, S "h", [], [], []⟩
        from rfl,
      show scanStr ⟨ScanSt.inTag, S "h", [], [], []⟩ (natToStr 3)
        = ⟨ScanSt.inTag, S "h3", [], [], []⟩ from rfl,
      show scanStr ⟨ScanSt.inTag, S "h3", [], [], []⟩ (S " class=\"")
        = ⟨ScanSt.inQuoteO, S "h3 class=", [], [], []⟩ from rfl,
      scan_inQuoteO_pass _ _ _ _ _ hcp,
      show scanStr ⟨ScanSt.inQuoteO, S "h3 class=", [], [], []⟩
          (S "-heading\">")
        = ⟨ScanSt.outside, [], [], [S "h3 class="], []⟩ from rfl]
  · refine PieceOk_mk cfg _ [S "/h3"] [] ?_ (by decide) (by simp)
    simp only [scanStr_append]
    rw [show scanStr scanInit (S "</h") = ⟨ScanSt.inTag, S "/h", [], [], []⟩
        from rfl,
      show scanStr ⟨ScanSt.inTag, S "/h", [], [], []⟩ (natToStr 3)
        = ⟨ScanSt.inTag, S "/h3", [], [], []⟩ from rfl,
      show scanStr ⟨ScanSt.inTag, S "/h3", [], [], []⟩ (S ">")
        = ⟨ScanSt.outside, [], [], [S "/h3"], []⟩ from rfl]

lemma pieceOk_heading4 (cfg : RenderConfig) (ch : Str)
    (hcp : '"' ∉ cfg.classPre) (hch : PieceOk cfg ch) :
    PieceOk cfg (S "<h" ++ natToStr 4 ++ S " class=\"" ++ cfg.classPre ++
      S "-heading\">" ++ ch ++ S "</h" ++ natToStr 4 ++ S ">") := by
  have hsplit : S "<h" ++ natToStr 4 ++ S " class=\"" ++ cfg.classPre ++
      S "-heading\">" ++ ch ++ S "</h" ++ natToStr 4 ++ S ">"
      = (S "<h" ++ natToStr 4 ++ S " class=\"" ++ cfg.classPre ++
        S "-heading\">") ++ (ch ++ (S "</h" ++ natToStr 4 ++ S ">")) := by
    simp only [List.append_assoc]
  rw [hsplit]
  refine PieceOk_append ?_ (PieceOk_append hch ?_)
  · refine PieceOk_mk cfg _ [S "h4 class="] [] ?_ (by decide) (by simp)
    simp only [scanStr_append]
    rw [show scanStr scanInit (S "<h") = ⟨ScanSt.inTag, S "h", [], [], []⟩
        from rfl,
      show scanStr ⟨ScanSt.inTag, S "h", [], [], []⟩ (natToStr 4)
        = ⟨ScanSt.inTag, S "h4", [], [], []⟩ from rfl,
      show scanStr ⟨ScanSt.inTag, S "h4", [], [], []⟩ (S " class=\"")
        = ⟨ScanSt.inQuoteO, S "h4 class=", [], [], []⟩ from rfl,
      scan_inQuoteO_pass _ _ _ _ _ hcp,
      show scanStr ⟨ScanSt.inQuoteO, S "h4 class=", [], [], []⟩
          (S "-heading\">")
        = ⟨ScanSt.outside, [], [], [S "h4 class="], []⟩ from rfl]
  · refine PieceOk_mk cfg _ [S "/h4"] [] ?_ (by decide) (by simp)
    simp only [scanStr_append]
    rw [show scanStr scanInit (S "</h") = ⟨ScanSt.inTag, S "/h", [], [], []⟩
        from rfl,
      show scanStr ⟨ScanSt.inTag, S "/h", [], [], []⟩ (natToStr 4)
        = ⟨ScanSt.inTag, S "/h4", [], [], []⟩ from rfl,
      show scanStr ⟨ScanSt.inTag, S "/h4", [], [], []⟩ (S ">")
        = ⟨ScanSt.outside, [], [], [S "/h4"], []⟩ from rfl]

lemma pieceOk_heading5 (cfg : RenderConfig) (ch : Str)
    (hcp : '"' ∉ cfg.classPre) (hch : PieceOk cfg ch) :
    PieceOk cfg (S "<h" ++ natToStr 5 ++ S " class=\"" ++ cfg.classPre ++
      S "-heading\">" ++ ch ++ S "</h" ++ natToStr 5 ++ S ">") := by
  have hsplit : S "<h" ++ natToStr 5 ++ S " class=\"" ++ cfg.classPre ++
      S "-heading\">" ++ ch ++ S "</h" ++ natToStr 5 ++ S ">"
      = (S "<h" ++ natToStr 5 ++ S " class=\"" ++ cfg.classPre ++
        S "-heading\">") ++ (ch ++ (S "</h" ++ natToStr 5 ++ S ">")) := by
    simp only [List.append_assoc]
  rw [hsplit]
  refine PieceOk_append ?_ (PieceOk_append hch ?_)
  · refine PieceOk_mk cfg _ [S "h5 class="] [] ?_ (by decide) (by simp)
    simp only [scanStr_append]
    rw [show scanStr scanInit (S "<h") = ⟨ScanSt.inTag, S "h", [], [], []⟩
        from rfl,
      show scanStr ⟨ScanSt.inTag, S "h", [], [], []⟩ (natToStr 5)
        = ⟨ScanSt.inTag, S "h5", [], [], []⟩ from rfl,
      show scanStr ⟨ScanSt.inTag, S "h5", [], [], []⟩ (S " class=\"")
        = ⟨ScanSt.inQuoteO, S "h5 class=", [], [], []⟩ from rfl,
      scan_inQuoteO_pass _ _ _ _ _ hcp,
      show scanStr ⟨ScanSt.inQuoteO, S "h5 class=", [], [], []⟩
          (S "-heading\">")
        = ⟨ScanSt.outside, [], [], [S "h5 class="], []⟩ from rfl]
  · refine PieceOk_mk cfg _ [S "/h5"] [] ?_ (by decide) (by simp)
    simp only [scanStr_append]
    rw [show scanStr scanInit (S "</h") = ⟨ScanSt.inTag, S "/h", [], [], []⟩
        from rfl,
      show scanStr ⟨ScanSt.inTag, S "/h", [], [], []⟩ (natToStr 5)
        = ⟨ScanSt.inTag, S "/h5", [], [], []⟩ from rfl,
      show scanStr ⟨ScanSt.inTag, S "/h5", [], [], []⟩ (S ">")
        = ⟨ScanSt.outside, [], [], [S "/h5"], []⟩ from rfl]

lemma pieceOk_heading6 (cfg : RenderConfig) (ch : Str)
    (hcp : '"' ∉ cfg.classPre) (hch : PieceOk cfg ch) :
    PieceOk cfg (S "<h" ++ natToStr 6 ++ S " class=\"" ++ cfg.classPre ++
      S "-heading\">" ++ ch ++ S "</h" ++ natToStr 6 ++ S ">") := by
  have hsplit : S "<h" ++ natToStr 6 ++ S " class=\"" ++ cfg.classPre ++
      S "-heading\">" ++ ch ++ S "</h" ++ natToStr 6 ++ S ">"
      = (S "<h" ++ natToStr 6 ++ S " class=\"" ++ cfg.classPre ++
        S "-heading\">") ++ (ch ++ (S "</h" ++ natToStr 6 ++ S ">")) := by
    simp only [List.append_assoc]
  rw [hsplit]
  refine PieceOk_append ?_ (PieceOk_append hch ?_)
  · refine PieceOk_mk cfg _ [S "h6 class="] [] ?_ (by decide) (by simp)
    simp only [scanStr_append]
    rw [show scanStr scanInit (S "<h") = ⟨ScanSt.inTag, S "h", [], [], []⟩
        from rfl,
      show scanStr ⟨ScanSt.inTag, S "h", [], [], []⟩ (natToStr 6)
        = ⟨ScanSt.inTag, S "h6", [], [], []⟩ from rfl,
      show scanStr ⟨ScanSt.inTag, S "h6", [], [], []⟩ (S " class=\"")
        = ⟨ScanSt.inQuoteO, S "h6 class=", [], [], []⟩ from rfl,
      scan_inQuoteO_pass _ _ _ _ _ hcp,
      show scanStr ⟨ScanSt.inQuoteO, S "h6 class=", [], [], []⟩
          (S "-heading\">")
        = ⟨ScanSt.outside, [], [], [S "h6 class="], []⟩ from rfl]
  · refine PieceOk_mk cfg _ [S "/h6"] [] ?_ (by decide) (by simp)
    simp only [scanStr_append]
    rw [show scanStr scanInit (S "</h") = ⟨ScanSt.inTag, S "/h", [], [], []⟩
        from rfl,
      show scanStr ⟨ScanSt.inTag, S "/h", [], [], []⟩ (natToStr 6)
        = ⟨ScanSt.inTag, S "/h6", [], [], []⟩ from rfl,
      show scanStr ⟨ScanSt.inTag, S "/h6", [], [], []⟩ (S ">")
        = ⟨ScanSt.outside, [], [], [S "/h6"], []⟩ from rfl]

lemma pieceOk_renderHeading (cfg : RenderConfig) (t : TagNode) (ch : Str)
    (hcp : '"' ∉ cfg.classPre) (hch : PieceOk cfg ch) :
    PieceOk cfg (renderHeading cfg t ch) := by
  unfold renderHeading
  dsimp only
  have hb : min (min (max ((t.opt.asScalar.bind parseU8).getD 1) 1) 6 + 1) 6 = 2 ∨
      min (min (max ((t.opt.asScalar.bind parseU8).getD 1) 1) 6 + 1) 6 = 3 ∨
      min (min (max ((t.opt.asScalar.bind parseU8).getD 1) 1) 6 + 1) 6 = 4 ∨
      min (min (max ((t.opt.asScalar.bind parseU8).getD 1) 1) 6 + 1) 6 = 5 ∨
      min (min (max ((t.opt.asScalar.bind parseU8).getD 1) 1) 6 + 1) 6 = 6 := by
    omega
  rcases hb with hb | hb | hb | hb | hb <;> rw [hb]
  · exact pieceOk_heading2 cfg ch hcp hch
  · exact pieceOk_heading3 cfg ch hcp hch
  · exact pieceOk_heading4 cfg ch hcp hch
  · exact pieceOk_heading5 cfg ch hcp hch
  · exact pieceOk_heading6 cfg ch hcp hch

lemma scan_rel_step (d hs : List Str) :
    scanStr ⟨ScanSt.inTag, S "a class= href=", [], d, hs⟩ (S " rel=\"nofollow\"")
      = ⟨ScanSt.inTag, S "a class= href= rel=", [], d, hs⟩ := by
  rw [show S " rel=\"nofollow\"" = S " rel=" ++ '"' :: S "nofollow" ++ ['"']
      from rfl,
    chunkO _ _ _ _ _ (by decide) (by decide) (by decide) (by decide),
    show S "a class= href=" ++ S " rel=" = S "a class= href= rel=" from by decide]

lemma scan_tgt_stepA (d hs : List Str) :
    scanStr ⟨ScanSt.inTag, S "a class= href=", [], d, hs⟩
      (S " target=\"_blank\"")
      = ⟨ScanSt.inTag, S "a class= href= target=", [], d, hs⟩ := by
  rw [show S " target=\"_blank\"" = S " target=" ++ '"' :: S "_blank" ++ ['"']
      from rfl,
    chunkO _ _ _ _ _ (by decide) (by decide) (by decide) (by decide),
    show S "a class= href=" ++ S " target=" = S "a class= href= target="
      from by decide]

lemma scan_tgt_stepB (d hs : List Str) :
    scanStr ⟨ScanSt.inTag, S "a class= href= rel=", [], d, hs⟩
      (S " target=\"_blank\"")
      = ⟨ScanSt.inTag, S "a class= href= rel= target=", [], d, hs⟩ := by
  rw [show S " target=\"_blank\"" = S " target=" ++ '"' :: S "_blank" ++ ['"']
      from rfl,
    chunkO _ _ _ _ _ (by decide) (by decide) (by decide) (by decide),
    show S "a class= href= rel=" ++ S " target=" = S "a class= href= rel= target="
      from by decide]

lemma pieceOk_aopenCore (cfg : RenderConfig) (u : Str) (tail seg : Str)
    (hcp : '"' ∉ cfg.classPre) (hok : HrefSrc cfg (escapeHtml u))
    (htail : ∀ (d hs : List Str),
      scanStr ⟨ScanSt.inTag, S "a class= href=", [], d, hs⟩ tail
        = ⟨ScanSt.outside, [], [], d ++ [seg], hs⟩)
    (hseg : SegOk seg = true) :
    PieceOk cfg (S "<a class=\"" ++ (cfg.classPre ++ (S "-url\" href=\"" ++
      (escapeHtml u ++ (S "\"" ++ tail))))) := by
  refine PieceOk_mk cfg _ [seg] [escapeHtml u] ?_ ?_ ?_
  · simp only [scanStr_append]
    rw [show scanStr scanInit (S "<a class=\"")
        = ⟨ScanSt.inQuoteO, S "a class=", [], [], []⟩ from rfl,
      scan_inQuoteO_pass _ _ _ _ _ hcp,
      show scanStr ⟨ScanSt.inQuoteO, S "a class=", [], [], []⟩
          (S "-url\" href=\"")
        = ⟨ScanSt.inQuoteH, S "a class= href=", [], [], []⟩ from rfl,
      scan_inQuoteH_pass _ _ _ _ _ (escapeHtml_no u).2.2,
      show (S "\"") = ['"'] from rfl, scan_qH_close, htail]
    simp
  · intro s hsg
    rw [List.mem_singleton] at hsg
    subst hsg
    exact hseg
  · intro v hv
    rw [List.mem_singleton] at hv
    subst hv
    exact hok

lemma pieceOk_aopen (cfg : RenderConfig) (u : Str)
    (hcp : '"' ∉ cfg.classPre) (hok : HrefSrc cfg (escapeHtml u)) :
    PieceOk cfg (S "<a class=\"" ++ cfg.classPre ++ S "-url\" href=\"" ++
      escapeHtml u ++ S "\"" ++
      (if cfg.nofollowLinks = true then S " rel=\"nofollow\"" else []) ++
      (if cfg.openLinksInNewTab = true then S " target=\"_blank\"" else []) ++
      S ">") := by
  cases hnf : cfg.nofollowLinks <;> cases hnt : cfg.openLinksInNewTab <;>
    simp only [show ((false : Bool) = true) = False from by simp, if_false,
      show ((true : Bool) = true) = True from by simp, if_true,
      List.append_nil]
  · rw [show S "<a class=\"" ++ cfg.classPre ++ S "-url\" href=\"" ++
        escapeHtml u ++ S "\"" ++ S ">"
        = S "<a class=\"" ++ (cfg.classPre ++ (S "-url\" href=\"" ++
          (escapeHtml u ++ (S "\"" ++ S ">")))) from by
        simp only [List.append_assoc]]
    refine pieceOk_aopenCore cfg u _ (S "a class= href=") hcp hok ?_ (by decide)
    intro d hs
    rw [show (S ">") = ['>'] from rfl, scan_gt]
  · rw [show S "<a class=\"" ++ cfg.classPre ++ S "-url\" href=\"" ++
        escapeHtml u ++ S "\"" ++ S " target=\"_blank\"" ++ S ">"
        = S "<a class=\"" ++ (cfg.classPre ++ (S "-url\" href=\"" ++
          (escapeHtml u ++ (S "\"" ++ (S " target=\"_blank\"" ++ S ">")))))
        from by simp only [List.append_assoc]]
    refine pieceOk_aopenCore cfg u _ (S "a class= href= target=") hcp hok ?_
      (by decide)
    intro d hs
    rw [scanStr_append, scan_tgt_stepA, show (S ">") = ['>'] from rfl, scan_gt]
  · rw [show S "<a class=\"" ++ cfg.classPre ++ S "-url\" href=\"" ++
        escapeHtml u ++ S "\"" ++ S " rel=\"nofollow\"" ++ S ">"
        = S "<a class=\"" ++ (cfg.classPre ++ (S "-url\" href=\"" ++
          (escapeHtml u ++ (S "\"" ++ (S " rel=\"nofollow\"" ++ S ">")))))
        from by simp only [List.append_assoc]]
    refine pieceOk_aopenCore cfg u _ (S "a class= href= rel=") hcp hok ?_
      (by decide)
    intro d hs
    rw [scanStr_append, scan_rel_step, show (S ">") = ['>'] from rfl, scan_gt]
  · rw [show S "<a class=\"" ++ cfg.classPre ++ S "-url\" href=\"" ++
        escapeHtml u ++ S "\"" ++ S " rel=\"nofollow\"" ++
        S " target=\"_blank\"" ++ S ">"
        = S "<a class=\"" ++ (cfg.classPre ++ (S "-url\" href=\"" ++
          (escapeHtml u ++ (S "\"" ++ (S " rel=\"nofollow\"" ++
            (S " target=\"_blank\"" ++ S ">"))))))
        from by simp only [List.append_assoc]]
    refine pieceOk_aopenCore cfg u _ (S "a class= href= rel= target=") hcp hok
      ?_ (by decide)
    intro d hs
    simp only [scanStr_append]
    rw [scan_rel_step, scan_tgt_stepB, show (S ">") = ['>'] from rfl, scan_gt]

lemma pieceOk_renderUrl (cfg : RenderConfig) (t : TagNode) (ch inner : Str)
    (hs : cfg.sanitize = true) (hcp : '"' ∉ cfg.classPre)
    (hch : PieceOk cfg ch) : PieceOk cfg (renderUrl cfg t ch inner) := by
  unfold renderUrl
  dsimp only
  split
  next => exact pieceOk_renderAsText cfg t ch hs hch
  next hv =>
    rw [not_not] at hv
    rw [show S "<a class=\"" ++ cfg.classPre ++ S "-url\" href=\"" ++
        escapeHtml (match t.opt.asScalar with
          | some o => o
          | Option.none => inner) ++ S "\"" ++
        (if cfg.nofollowLinks = true then S " rel=\"nofollow\"" else []) ++
        (if cfg.openLinksInNewTab = true then S " target=\"_blank\"" else []) ++
        S ">" ++
        (match t.opt.asScalar with
          | some _ => ch
          | Option.none => renderText cfg (match t.opt.asScalar with
            | some o => o
            | Option.none => inner)) ++ S "</a>"
        = (S "<a class=\"" ++ cfg.classPre ++ S "-url\" href=\"" ++
          escapeHtml (match t.opt.asScalar with
            | some o => o
            | Option.none => inner) ++ S "\"" ++
          (if cfg.nofollowLinks = true then S " rel=\"nofollow\"" else []) ++
          (if cfg.openLinksInNewTab = true then S " target=\"_blank\"" else []) ++
          S ">") ++
          ((match t.opt.asScalar with
            | some _ => ch
            | Option.none => renderText cfg (match t.opt.asScalar with
              | some o => o
              | Option.none => inner)) ++ S "</a>")
        from by simp only [List.append_assoc]]
    refine PieceOk_append (pieceOk_aopen cfg _ hcp (Or.inl ⟨_, hv, rfl⟩))
      (PieceOk_append ?_
        (PieceOk_mk cfg _ [S "/a"] [] rfl (by decide) (by simp)))
    split
    · exact hch
    · exact PieceOk_renderText _ _ hs

lemma pieceOk_renderAutoUrl (cfg : RenderConfig) (u : Str)
    (hcp : '"' ∉ cfg.classPre)
    (hu : ((S "http://").isPrefixOf u ∨ (S "https://").isPrefixOf u) = true) :
    PieceOk cfg (renderAutoUrl cfg u) := by
  unfold renderAutoUrl
  dsimp only
  rw [show S "<a class=\"" ++ cfg.classPre ++ S "-url\" href=\"" ++
      escapeHtml u ++ S "\"" ++
      (if cfg.nofollowLinks = true then S " rel=\"nofollow\"" else []) ++
      (if cfg.openLinksInNewTab = true then S " target=\"_blank\"" else []) ++
      S ">" ++ escapeHtml u ++ S "</a>"
      = (S "<a class=\"" ++ cfg.classPre ++ S "-url\" href=\"" ++
        escapeHtml u ++ S "\"" ++
        (if cfg.nofollowLinks = true then S " rel=\"nofollow\"" else []) ++
        (if cfg.openLinksInNewTab = true then S " target=\"_blank\"" else []) ++
        S ">") ++ (escapeHtml u ++ S "</a>")
      from by simp only [List.append_assoc]]
  exact PieceOk_append
    (pieceOk_aopen cfg _ hcp (Or.inr (Or.inr (Or.inl ⟨u, hu, rfl⟩))))
    (PieceOk_append (PieceOk_escape cfg u)
      (PieceOk_mk cfg _ [S "/a"] [] rfl (by decide) (by simp)))

lemma pieceOk_renderEmail (cfg : RenderConfig) (t : TagNode) (ch inner : Str)
    (hs : cfg.sanitize = true) (hcp : '"' ∉ cfg.classPre)
    (hch : PieceOk cfg ch) : PieceOk cfg (renderEmail cfg t ch inner) := by
  unfold renderEmail
  dsimp only
  split
  next => exact pieceOk_renderAsText cfg t ch hs hch
  next =>
    split
    next => exact pieceOk_renderAsText cfg t ch hs hch
    next =>
      rw [show S "<a class=\"" ++ cfg.classPre ++ S "-email\" href=\"mailto:" ++
          escapeHtml (match t.opt.asScalar with
            | some o => o
            | Option.none => inner) ++ S "\">" ++
          (match t.opt.asScalar with
            | some _ => ch
            | Option.none => renderText cfg (match t.opt.asScalar with
              | some o => o
              | Option.none => inner)) ++ S "</a>"
          = (S "<a class=\"" ++ cfg.classPre ++ S "-email\" href=\"mailto:" ++
            escapeHtml (match t.opt.asScalar with
              | some o => o
              | Option.none => inner) ++ S "\">") ++
            ((match t.opt.asScalar with
              | some _ => ch
              | Option.none => renderText cfg (match t.opt.asScalar with
                | some o => o
                | Option.none => inner)) ++ S "</a>")
          from by simp only [List.append_assoc]]
      refine PieceOk_append ?_ (PieceOk_append ?_
        (PieceOk_mk cfg _ [S "/a"] [] rfl (by decide) (by simp)))
      · refine PieceOk_mk cfg _ [S "a class= href="]
          [S "mailto:" ++ escapeHtml (match t.opt.asScalar with
            | some o => o
            | Option.none => inner)] ?_ (by decide) ?_
        · simp only [scanStr_append]
          rw [show scanStr scanInit (S "<a class=\"")
              = ⟨ScanSt.inQuoteO, S "a class=", [], [], []⟩ from rfl,
            scan_inQuoteO_pass _ _ _ _ _ hcp,
            show scanStr ⟨ScanSt.inQuoteO, S "a class=", [], [], []⟩
                (S "-email\" href=\"mailto:")
              = ⟨ScanSt.inQuoteH, S "a class= href=", S "mailto:", [], []⟩
              from rfl,
            scan_inQuoteH_pass _ _ _ _ _ (escapeHtml_no _).2.2,
            show (S "\">") = ['"'] ++ ['>'] from rfl, scanStr_append,
            scan_qH_close, scan_gt]
          simp
        · intro v hv
          rw [List.mem_singleton] at hv
          subst hv
          exact Or.inr (Or.inl ⟨_, rfl⟩)
      · split
        · exact hch
        · exact PieceOk_renderText _ _ hs

lemma pieceOk_renderUser (cfg : RenderConfig) (t : TagNode) (inner : Str)
    (hcp : '"' ∉ cfg.classPre) : PieceOk cfg (renderUser cfg t inner) := by
  unfold renderUser
  split
  next id hid =>
    rw [show S "<a class=\"" ++ cfg.classPre ++ S "-user\" data-user-id=\"" ++
        escapeHtml id ++ S "\" href=\"#\">@" ++ escapeHtml inner ++ S "</a>"
        = (S "<a class=\"" ++ cfg.classPre ++ S "-user\" data-user-id=\"" ++
          escapeHtml id ++ S "\" href=\"#\">@") ++
          (escapeHtml inner ++ S "</a>")
        from by simp only [List.append_assoc]]
    refine PieceOk_append ?_ (PieceOk_append (PieceOk_escape cfg inner)
      (PieceOk_mk cfg _ [S "/a"] [] rfl (by decide) (by simp)))
    refine PieceOk_mk cfg _ [S "a class= data-user-id= href="] [S "#"] ?_
      (by decide) ?_
    · simp only [scanStr_append]
      rw [show scanStr scanInit (S "<a class=\"")
          = ⟨ScanSt.inQuoteO, S "a class=", [], [], []⟩ from rfl,
        scan_inQuoteO_pass _ _ _ _ _ hcp,
        show scanStr ⟨ScanSt.inQuoteO, S "a class=", [], [], []⟩
            (S "-user\" data-user-id=\"")
          = ⟨ScanSt.inQuoteO, S "a class= data-user-id=", [], [], []⟩ from rfl,
        scan_inQuoteO_pass _ _ _ _ _ (escapeHtml_no id).2.2,
        show scanStr ⟨ScanSt.inQuoteO, S "a class= data-user-id=", [], [], []⟩
            (S "\" href=\"#\">@")
          = ⟨ScanSt.outside, [], [], [S "a class= data-user-id= href="],
              [S "#"]⟩ from rfl]
    · intro v hv
      rw [List.mem_singleton] at hv
      subst hv
      exact Or.inr (Or.inr (Or.inr rfl))
  next =>
    rw [show S "<span class=\"" ++ cfg.classPre ++ S "-user\">@" ++
        escapeHtml inner ++ S "</span>"
        = (S "<span class=\"" ++ cfg.classPre ++ S "-user\">@") ++
          (escapeHtml inner ++ S "</span>")
        from by simp only [List.append_assoc]]
    refine PieceOk_append ?_ (PieceOk_append (PieceOk_escape cfg inner)
      (PieceOk_mk cfg _ [S "/span"] [] rfl (by decide) (by simp)))
    refine PieceOk_mk cfg _ [S "span class="] [] ?_ (by decide) (by simp)
    simp only [scanStr_append]
    rw [show scanStr scanInit (S "<span class=\"")
        = ⟨ScanSt.inQuoteO, S "span class=", [], [], []⟩ from rfl,
      scan_inQuoteO_pass _ _ _ _ _ hcp,
      show scanStr ⟨ScanSt.inQuoteO, S "span class=", [], [], []⟩
          (S "-user\">@")
        = ⟨ScanSt.outside, [], [], [S "span class="], []⟩ from rfl]

lemma pieceOk_renderQuote (cfg : RenderConfig) (t : TagNode) (ch : Str)
    (hcp : '"' ∉ cfg.classPre) (hch : PieceOk cfg ch) :
    PieceOk cfg (renderQuote cfg t ch) := by
  unfold renderQuote
  have hcontent : PieceOk cfg (S "<div class=\"" ++ cfg.classPre ++
      S "-quote-content\">") := by
    refine PieceOk_mk cfg _ [S "div class="] [] ?_ (by decide) (by simp)
    simp only [scanStr_append]
    rw [show scanStr scanInit (S "<div class=\"")
        = ⟨ScanSt.inQuoteO, S "div class=", [], [], []⟩ from rfl,
      scan_inQuoteO_pass _ _ _ _ _ hcp,
      show scanStr ⟨ScanSt.inQuoteO, S "div class=", [], [], []⟩
          (S "-quote-content\">")
        = ⟨ScanSt.outside, [], [], [S "div class="], []⟩ from rfl]
  have hend : PieceOk cfg (S "</div></blockquote>") :=
    PieceOk_mk cfg _ [S "/div", S "/blockquote"] [] rfl (by decide) (by simp)
  rcases ha : t.opt.asScalar with - | author <;> dsimp only
  · rw [show S "<blockquote class=\"" ++ cfg.classPre ++ S "-quote\"" ++ [] ++
        S ">" ++ [] ++ S "<div class=\"" ++ cfg.classPre ++
        S "-quote-content\">" ++ ch ++ S "</div></blockquote>"
        = (S "<blockquote class=\"" ++ cfg.classPre ++ S "-quote\"" ++ [] ++
          S ">" ++ []) ++
          ((S "<div class=\"" ++ cfg.classPre ++ S "-quote-content\">") ++
            (ch ++ S "</div></blockquote>"))
        from by simp only [List.append_assoc]]
    refine PieceOk_append ?_ (PieceOk_append hcontent (PieceOk_append hch hend))
    refine PieceOk_mk cfg _ [S "blockquote class="] [] ?_ (by decide) (by simp)
    simp only [scanStr_append, scanStr_nil]
    rw [show scanStr scanInit (S "<blockquote class=\"")
        = ⟨ScanSt.inQuoteO, S "blockquote class=", [], [], []⟩ from rfl,
      scan_inQuoteO_pass _ _ _ _ _ hcp,
      show scanStr ⟨ScanSt.inQuoteO, S "blockquote class=", [], [], []⟩
          (S "-quote\"")
        = ⟨ScanSt.inTag, S "blockquote class=", [], [], []⟩ from rfl,
      show (S ">") = ['>'] from rfl, scan_gt]
    simp
  · rw [show S "<blockquote class=\"" ++ cfg.classPre ++ S "-quote\"" ++
        (S " data-author=\"" ++ escapeHtml author ++ S "\"") ++
        S ">" ++
        (S "<div class=\"" ++ cfg.classPre ++ S "-quote-author\">" ++
          escapeHtml author ++ S " wrote:</div>") ++
        S "<div class=\"" ++ cfg.classPre ++
        S "-quote-content\">" ++ ch ++ S "</div></blockquote>"
        = (S "<blockquote class=\"" ++ cfg.classPre ++ S "-quote\"" ++
          (S " data-author=\"" ++ escapeHtml author ++ S "\"") ++ S ">") ++
          ((S "<div class=\"" ++ cfg.classPre ++ S "-quote-author\">") ++
            (escapeHtml author ++ ((S " wrote:</div>") ++
              ((S "<div class=\"" ++ cfg.classPre ++ S "-quote-content\">") ++
                (ch ++ S "</div></blockquote>")))))
        from by simp only [List.append_assoc]]
    refine PieceOk_append ?_ (PieceOk_append ?_
      (PieceOk_append (PieceOk_escape cfg author)
        (PieceOk_append
          (PieceOk_mk cfg _ [S "/div"] [] rfl (by decide) (by simp))
          (PieceOk_append hcontent (PieceOk_append hch hend)))))
    · refine PieceOk_mk cfg _ [S "blockquote class= data-author="] [] ?_
        (by decide) (by simp)
      simp only [scanStr_append]
      rw [show scanStr scanInit (S "<blockquote class=\"")
          = ⟨ScanSt.inQuoteO, S "blockquote class=", [], [], []⟩ from rfl,
        scan_inQuoteO_pass _ _ _ _ _ hcp,
        show scanStr ⟨ScanSt.inQuoteO, S "blockquote class=", [], [], []⟩
            (S "-quote\"")
          = ⟨ScanSt.inTag, S "blockquote class=", [], [], []⟩ from rfl,
        show scanStr ⟨ScanSt.inTag, S "blockquote class=", [], [], []⟩
            (S " data-author=\"")
          = ⟨ScanSt.inQuoteO, S "blockquote class= data-author=", [], [], []⟩
          from rfl,
        scan_inQuoteO_pass _ _ _ _ _ (escapeHtml_no author).2.2,
        show scanStr ⟨ScanSt.inQuoteO, S "blockquote class= data-author=",
            [], [], []⟩ (S "\"")
          = ⟨ScanSt.inTag, S "blockquote class= data-author=", [], [], []⟩
          from rfl,
        show (S ">") = ['>'] from rfl, scan_gt]
      simp
    · refine PieceOk_mk cfg _ [S "div class="] [] ?_ (by decide) (by simp)
      simp only [scanStr_append]
      rw [show scanStr scanInit (S "<div class=\"")
          = ⟨ScanSt.inQuoteO, S "div class=", [], [], []⟩ from rfl,
        scan_inQuoteO_pass _ _ _ _ _ hcp,
        show scanStr ⟨ScanSt.inQuoteO, S "div class=", [], [], []⟩
            (S "-quote-author\">")
          = ⟨ScanSt.outside, [], [], [S "div class="], []⟩ from rfl]

lemma pieceOk_renderCode (cfg : RenderConfig) (t : TagNode) (inner : Str)
    (hcp : '"' ∉ cfg.classPre) : PieceOk cfg (renderCode cfg t inner) := by
  unfold renderCode
  rcases ha : t.opt.asScalar with - | lang <;> dsimp only
  · rw [show S "<pre class=\"" ++ cfg.classPre ++ S "-code\"" ++ [] ++
        S "><code" ++ [] ++ S ">" ++ escapeHtml inner ++ S "</code></pre>"
        = (S "<pre class=\"" ++ cfg.classPre ++ S "-code\"" ++ [] ++
          S "><code" ++ [] ++ S ">") ++
          (escapeHtml inner ++ S "</code></pre>")
        from by simp only [List.append_assoc]]
    refine PieceOk_append ?_ (PieceOk_append (PieceOk_escape cfg inner)
      (PieceOk_mk cfg _ [S "/code", S "/pre"] [] rfl (by decide) (by simp)))
    refine PieceOk_mk cfg _ [S "pre class=", S "code"] [] ?_ (by decide)
      (by simp)
    simp only [scanStr_append, scanStr_nil]
    rw [show scanStr scanInit (S "<pre class=\"")
        = ⟨ScanSt.inQuoteO, S "pre class=", [], [], []⟩ from rfl,
      scan_inQuoteO_pass _ _ _ _ _ hcp,
      show scanStr ⟨ScanSt.inQuoteO, S "pre class=", [], [], []⟩ (S "-code\"")
        = ⟨ScanSt.inTag, S "pre class=", [], [], []⟩ from rfl,
      show scanStr ⟨ScanSt.inTag, S "pre class=", [], [], []⟩ (S "><code")
        = ⟨ScanSt.inTag, S "code", [], [S "pre class="], []⟩ from rfl,
      show (S ">") = ['>'] from rfl, scan_gt]
    simp
  · rw [show S "<pre class=\"" ++ cfg.classPre ++ S "-code\"" ++
        (S " data-language=\"" ++ escapeHtml lang ++ S "\"") ++
        S "><code" ++
        (S " class=\"language-" ++ escapeHtml lang ++ S "\"") ++
        S ">" ++ escapeHtml inner ++ S "</code></pre>"
        = (S "<pre class=\"" ++ cfg.classPre ++ S "-code\"" ++
          (S " data-language=\"" ++ escapeHtml lang ++ S "\"") ++
          S "><code" ++
          (S " class=\"language-" ++ escapeHtml lang ++ S "\"") ++
          S ">") ++ (escapeHtml inner ++ S "</code></pre>")
        from by simp only [List.append_assoc]]
    refine PieceOk_append ?_ (PieceOk_append (PieceOk_escape cfg inner)
      (PieceOk_mk cfg _ [S "/code", S "/pre"] [] rfl (by decide) (by simp)))
    refine PieceOk_mk cfg _ [S "pre class= data-language=", S "code class="]
      [] ?_ (by decide) (by simp)
    simp only [scanStr_append]
    rw [show scanStr scanInit (S "<pre class=\"")
        = ⟨ScanSt.inQuoteO, S "pre class=", [], [], []⟩ from rfl,
      scan_inQuoteO_pass _ _ _ _ _ hcp,
      show scanStr ⟨ScanSt.inQuoteO, S "pre class=", [], [], []⟩ (S "-code\"")
        = ⟨ScanSt.inTag, S "pre class=", [], [], []⟩ from rfl,
      show scanStr ⟨ScanSt.inTag, S "pre class=", [], [], []⟩
          (S " data-language=\"")
        = ⟨ScanSt.inQuoteO, S "pre class= data-language=", [], [], []⟩ from rfl,
      scan_inQuoteO_pass _ _ _ _ _ (escapeHtml_no lang).2.2,
      show scanStr ⟨ScanSt.inQuoteO, S "pre class= data-language=", [], [], []⟩
          (S "\"")
        = ⟨ScanSt.inTag, S "pre class= data-language=", [], [], []⟩ from rfl,
      show scanStr ⟨ScanSt.inTag, S "pre class= data-language=", [], [], []⟩
          (S "><code")
        = ⟨ScanSt.inTag, S "code", [], [S "pre class= data-language="], []⟩
        from rfl,
      show scanStr ⟨ScanSt.inTag, S "code", [],
          [S "pre class= data-language="], []⟩ (S " class=\"language-")
        = ⟨ScanSt.inQuoteO, S "code class=", [],
            [S "pre class= data-language="], []⟩ from rfl,
      scan_inQuoteO_pass _ _ _ _ _ (escapeHtml_no lang).2.2,
      show scanStr ⟨ScanSt.inQuoteO, S "code class=", [],
          [S "pre class= data-language="], []⟩ (S "\"")
        = ⟨ScanSt.inTag, S "code class=", [],
            [S "pre class= data-language="], []⟩ from rfl,
      show (S ">") = ['>'] from rfl, scan_gt]
    simp

lemma pieceOk_renderCodeWithLang (cfg : RenderConfig) (lang inner : Str)
    (hcp : '"' ∉ cfg.classPre) (hl : '"' ∉ lang) :
    PieceOk cfg (renderCodeWithLang cfg lang inner) := by
  unfold renderCodeWithLang
  rw [show S "<pre class=\"" ++ cfg.classPre ++ S "-code\" data-language=\"" ++
      lang ++ S "\"><code class=\"language-" ++ lang ++ S "\">" ++
      escapeHtml inner ++ S "</code></pre>"
      = (S "<pre class=\"" ++ cfg.classPre ++ S "-code\" data-language=\"" ++
        lang ++ S "\"><code class=\"language-" ++ lang ++ S "\">") ++
        (escapeHtml inner ++ S "</code></pre>")
      from by simp only [List.append_assoc]]
  refine PieceOk_append ?_ (PieceOk_append (PieceOk_escape cfg inner)
    (PieceOk_mk cfg _ [S "/code", S "/pre"] [] rfl (by decide) (by simp)))
  refine PieceOk_mk cfg _ [S "pre class= data-language=", S "code class="]
    [] ?_ (by decide) (by simp)
  simp only [scanStr_append]
  rw [show scanStr scanInit (S "<pre class=\"")
      = ⟨ScanSt.inQuoteO, S "pre class=", [], [], []⟩ from rfl,
    scan_inQuoteO_pass _ _ _ _ _ hcp,
    show scanStr ⟨ScanSt.inQuoteO, S "pre class=", [], [], []⟩
        (S "-code\" data-language=\"")
      = ⟨ScanSt.inQuoteO, S "pre class= data-language=", [], [], []⟩ from rfl,
    scan_inQuoteO_pass _ _ _ _ _ hl,
    show scanStr ⟨ScanSt.inQuoteO, S "pre class= data-language=", [], [], []⟩
        (S "\"><code class=\"language-")
      = ⟨ScanSt.inQuoteO, S "code class=", [],
          [S "pre class= data-language="], []⟩ from rfl,
    scan_inQuoteO_pass _ _ _ _ _ hl,
    show scanStr ⟨ScanSt.inQuoteO, S "code class=", [],
        [S "pre class= data-language="], []⟩ (S "\">")
      = ⟨ScanSt.outside, [], [],
          [S "pre class= data-language=", S "code class="], []⟩ from rfl]

lemma pieceOk_renderTable (cfg : RenderConfig) (t : TagNode) (ch : Str)
    (hcp : '"' ∉ cfg.classPre) (hch : PieceOk cfg ch) :
    PieceOk cfg (renderTable cfg t ch) := by
  unfold renderTable
  have hend : PieceOk cfg (S "</table>") :=
    PieceOk_mk cfg _ [S "/table"] [] rfl (by decide) (by simp)
  have hplain : PieceOk cfg (S "<table class=\"" ++ cfg.classPre ++
      S "-table\"" ++ [] ++ S ">" ++ ch ++ S "</table>") := by
    rw [show S "<table class=\"" ++ cfg.classPre ++ S "-table\"" ++ [] ++
        S ">" ++ ch ++ S "</table>"
        = (S "<table class=\"" ++ cfg.classPre ++ S "-table\"" ++ [] ++
          S ">") ++ (ch ++ S "</table>")
        from by simp only [List.append_assoc]]
    refine PieceOk_append ?_ (PieceOk_append hch hend)
    refine PieceOk_mk cfg _ [S "table class="] [] ?_ (by decide) (by simp)
    simp only [scanStr_append, scanStr_nil]
    rw [show scanStr scanInit (S "<table class=\"")
        = ⟨ScanSt.inQuoteO, S "table class=", [], [], []⟩ from rfl,
      scan_inQuoteO_pass _ _ _ _ _ hcp,
      show scanStr ⟨ScanSt.inQuoteO, S "table class=", [], [], []⟩
          (S "-table\"")
        = ⟨ScanSt.inTag, S "table class=", [], [], []⟩ from rfl,
      show (S ">") = ['>'] from rfl, scan_gt]
    simp
  rcases hm : t.opt.asMap with - | m <;> dsimp only
  · exact hplain
  · rcases hw : mapGet m (S "width") with - | w <;> dsimp only
    · exact hplain
    · rw [show S "<table class=\"" ++ cfg.classPre ++ S "-table\"" ++
          (S " style=\"width: " ++ escapeHtml w ++ S ";\"") ++
          S ">" ++ ch ++ S "</table>"
          = (S "<table class=\"" ++ cfg.classPre ++ S "-table\"" ++
            (S " style=\"width: " ++ escapeHtml w ++ S ";\"") ++
            S ">") ++ (ch ++ S "</table>")
          from by simp only [List.append_assoc]]
      refine PieceOk_append ?_ (PieceOk_append hch hend)
      refine PieceOk_mk cfg _ [S "table class= style="] [] ?_ (by decide)
        (by simp)
      simp only [scanStr_append]
      rw [show scanStr scanInit (S "<table class=\"")
          = ⟨ScanSt.inQuoteO, S "table class=", [], [], []⟩ from rfl,
        scan_inQuoteO_pass _ _ _ _ _ hcp,
        show scanStr ⟨ScanSt.inQuoteO, S "table class=", [], [], []⟩
            (S "-table\"")
          = ⟨ScanSt.inTag, S "table class=", [], [], []⟩ from rfl,
        show scanStr ⟨ScanSt.inTag, S "table class=", [], [], []⟩
            (S " style=\"width: ")
          = ⟨ScanSt.inQuoteO, S "table class= style=", [], [], []⟩ from rfl,
        scan_inQuoteO_pass _ _ _ _ _ (escapeHtml_no w).2.2,
        show scanStr ⟨ScanSt.inQuoteO, S "table class= style=", [], [], []⟩
            (S ";\"")
          = ⟨ScanSt.inTag, S "table class= style=", [], [], []⟩ from rfl,
        show (S ">") = ['>'] from rfl, scan_gt]
      simp

lemma pieceOk_renderTableHeader (cfg : RenderConfig) (t : TagNode) (ch : Str)
    (hch : PieceOk cfg ch) : PieceOk cfg (renderTableHeader t ch) := by
  unfold renderTableHeader
  have hend : PieceOk cfg (S "</th>") :=
    PieceOk_mk cfg _ [S "/th"] [] rfl (by decide) (by simp)
  have hplain : PieceOk cfg (S "<th" ++ [] ++ S ">" ++ ch ++ S "</th>") := by
    rw [show S "<th" ++ [] ++ S ">" ++ ch ++ S "</th>"
        = (S "<th" ++ [] ++ S ">") ++ (ch ++ S "</th>")
        from by simp only [List.append_assoc]]
    refine PieceOk_append ?_ (PieceOk_append hch hend)
    refine PieceOk_mk cfg _ [S "th"] [] ?_ (by decide) (by simp)
    simp only [scanStr_append, scanStr_nil]
    rw [show scanStr scanInit (S "<th")
        = ⟨ScanSt.inTag, S "th", [], [], []⟩ from rfl,
      show (S ">") = ['>'] from rfl, scan_gt]
    simp
  unfold cellWidthStyle
  rcases hm : t.opt.asMap with - | m <;> dsimp only
  · exact hplain
  · rcases hw : mapGet m (S "width") with - | w <;> dsimp only
    · exact hplain
    · rw [show S "<th" ++ (S " style=\"width: " ++ escapeHtml w ++
          S ";\"") ++ S ">" ++ ch ++ S "</th>"
          = (S "<th" ++ (S " style=\"width: " ++ escapeHtml w ++
            S ";\"") ++ S ">") ++ (ch ++ S "</th>")
          from by simp only [List.append_assoc]]
      refine PieceOk_append ?_ (PieceOk_append hch hend)
      refine PieceOk_mk cfg _ [S "th style="] [] ?_ (by decide) (by simp)
      simp only [scanStr_append]
      rw [show scanStr scanInit (S "<th")
          = ⟨ScanSt.inTag, S "th", [], [], []⟩ from rfl,
        show scanStr ⟨ScanSt.inTag, S "th", [], [], []⟩
            (S " style=\"width: ")
          = ⟨ScanSt.inQuoteO, S "th style=", [], [], []⟩ from rfl,
        scan_inQuoteO_pass _ _ _ _ _ (escapeHtml_no w).2.2,
        show scanStr ⟨ScanSt.inQuoteO, S "th style=", [], [], []⟩
            (S ";\"")
          = ⟨ScanSt.inTag, S "th style=", [], [], []⟩ from rfl,
        show (S ">") = ['>'] from rfl, scan_gt]
      simp

lemma pieceOk_renderTableCell (cfg : RenderConfig) (t : TagNode) (ch : Str)
    (hch : PieceOk cfg ch) : PieceOk cfg (renderTableCell t ch) := by
  unfold renderTableCell
  have hend : PieceOk cfg (S "</td>") :=
    PieceOk_mk cfg _ [S "/td"] [] rfl (by decide) (by simp)
  have hplain : PieceOk cfg (S "<td" ++ [] ++ S ">" ++ ch ++ S "</td>") := by
    rw [show S "<td" ++ [] ++ S ">" ++ ch ++ S "</td>"
        = (S "<td" ++ [] ++ S ">") ++ (ch ++ S "</td>")
        from by simp only [List.append_assoc]]
    refine PieceOk_append ?_ (PieceOk_append hch hend)
    refine PieceOk_mk cfg _ [S "td"] [] ?_ (by decide) (by simp)
    simp only [scanStr_append, scanStr_nil]
    rw [show scanStr scanInit (S "<td")
        = ⟨ScanSt.inTag, S "td", [], [], []⟩ from rfl,
      show (S ">") = ['>'] from rfl, scan_gt]
    simp
  unfold cellWidthStyle
  rcases hm : t.opt.asMap with - | m <;> dsimp only
  · exact hplain
  · rcases hw : mapGet m (S "width") with - | w <;> dsimp only
    · exact hplain
    · rw [show S "<td" ++ (S " style=\"width: " ++ escapeHtml w ++
          S ";\"") ++ S ">" ++ ch ++ S "</td>"
          = (S "<td" ++ (S " style=\"width: " ++ escapeHtml w ++
            S ";\"") ++ S ">") ++ (ch ++ S "</td>")
          from by simp only [List.append_assoc]]
      refine PieceOk_append ?_ (PieceOk_append hch hend)
      refine PieceOk_mk cfg _ [S "td style="] [] ?_ (by decide) (by simp)
      simp only [scanStr_append]
      rw [show scanStr scanInit (S "<td")
          = ⟨ScanSt.inTag, S "td", [], [], []⟩ from rfl,
        show scanStr ⟨ScanSt.inTag, S "td", [], [], []⟩
            (S " style=\"width: ")
          = ⟨ScanSt.inQuoteO, S "td style=", [], [], []⟩ from rfl,
        scan_inQuoteO_pass _ _ _ _ _ (escapeHtml_no w).2.2,
        show scanStr ⟨ScanSt.inQuoteO, S "td style=", [], [], []⟩
            (S ";\"")
          = ⟨ScanSt.inTag, S "td style=", [], [], []⟩ from rfl,
        show (S ">") = ['>'] from rfl, scan_gt]
      simp

lemma pieceOk_imgCore (cfg : RenderConfig) (u : Str) (attrs seg : Str)
    (hcp : '"' ∉ cfg.classPre)
    (hattrs : scanStr ⟨ScanSt.inTag, S "img class= src=", [], [], []⟩
        (attrs ++ S " />") = ⟨ScanSt.outside, [], [], [seg], []⟩)
    (hseg : SegOk seg = true) :
    PieceOk cfg (S "<img class=\"" ++ cfg.classPre ++ S "-img\" src=\"" ++
      escapeHtml u ++ S "\"" ++ attrs ++ S " />") := by
  rw [show S "<img class=\"" ++ cfg.classPre ++ S "-img\" src=\"" ++
      escapeHtml u ++ S "\"" ++ attrs ++ S " />"
      = (S "<img class=\"" ++ (cfg.classPre ++ (S "-img\" src=\"" ++
        (escapeHtml u ++ S "\"")))) ++ (attrs ++ S " />")
      from by simp only [List.append_assoc]]
  refine PieceOk_mk cfg _ [seg] [] ?_ ?_ (by simp)
  · rw [scanStr_append]
    have hhead : scanStr scanInit (S "<img class=\"" ++ (cfg.classPre ++
        (S "-img\" src=\"" ++ (escapeHtml u ++ S "\""))))
        = ⟨ScanSt.inTag, S "img class= src=", [], [], []⟩ := by
      simp only [scanStr_append]
      rw [show scanStr scanInit (S "<img class=\"")
          = ⟨ScanSt.inQuoteO, S "img class=", [], [], []⟩ from rfl,
        scan_inQuoteO_pass _ _ _ _ _ hcp,
        show scanStr ⟨ScanSt.inQuoteO, S "img class=", [], [], []⟩
            (S "-img\" src=\"")
          = ⟨ScanSt.inQuoteO, S "img class= src=", [], [], []⟩ from rfl,
        scan_inQuoteO_pass _ _ _ _ _ (escapeHtml_no u).2.2,
        show scanStr ⟨ScanSt.inQuoteO, S "img class= src=", [], [], []⟩
            (S "\"")
          = ⟨ScanSt.inTag, S "img class= src=", [], [], []⟩ from rfl]
    rw [hhead, hattrs]
  · intro s hsg
    rw [List.mem_singleton] at hsg
    subst hsg
    exact hseg

lemma pieceOk_renderImg (cfg : RenderConfig) (t : TagNode) (ch inner : Str)
    (hs : cfg.sanitize = true) (hcp : '"' ∉ cfg.classPre)
    (hch : PieceOk cfg ch) : PieceOk cfg (renderImg cfg t ch inner) := by
  unfold renderImg
  dsimp only
  split
  next => exact pieceOk_renderAsText cfg t ch hs hch
  next =>
    rcases ha : t.opt.asScalar with - | o <;> dsimp only
    · rcases hm : t.opt.asMap with - | m <;> dsimp only
      · exact pieceOk_imgCore cfg inner [] (S "img class= src= /") hcp
          (by rw [List.nil_append]
              exact rfl)
          (by decide)
      · rcases hw : mapGet m (S "width") with - | w <;>
          rcases hh : mapGet m (S "height") with - | hgt <;>
          rcases hal : mapGet m (S "alt") with - | al <;> dsimp only
        · exact pieceOk_imgCore cfg inner ([] ++ [] ++ [])
            (S "img class= src= /") hcp
            (by simp only [List.nil_append]
                exact rfl)
            (by decide)
        · exact pieceOk_imgCore cfg inner ([] ++ [] ++
            (S " alt=\"" ++ escapeHtml al ++ S "\""))
            (S "img class= src=" ++ S " alt=" ++ S " /") hcp
            (by simp only [List.nil_append]
                rw [show (S " alt=\"" ++ escapeHtml al ++ S "\"") ++ S " />"
                    = (S " alt=" ++ '"' :: escapeHtml al ++ ['"']) ++ S " />"
                    from by simp only [List.append_assoc]; rfl,
                  scanStr_append,
                  chunkO _ _ _ _ _ (by decide) (by decide)
                    (escapeHtml_no al).2.2 (by decide)]
                exact rfl)
            (by decide)
        · exact pieceOk_imgCore cfg inner ([] ++
            (S " height=\"" ++ escapeHtml hgt ++ S "\"") ++ [])
            (S "img class= src=" ++ S " height=" ++ S " /") hcp
            (by simp only [List.nil_append, List.append_nil]
                rw [show (S " height=\"" ++ escapeHtml hgt ++ S "\"") ++ S " />"
                    = (S " height=" ++ '"' :: escapeHtml hgt ++ ['"']) ++ S " />"
                    from by simp only [List.append_assoc]; rfl,
                  scanStr_append,
                  chunkO _ _ _ _ _ (by decide) (by decide)
                    (escapeHtml_no hgt).2.2 (by decide)]
                exact rfl)
            (by decide)
        · exact pieceOk_imgCore cfg inner ([] ++
            (S " height=\"" ++ escapeHtml hgt ++ S "\"") ++
            (S " alt=\"" ++ escapeHtml al ++ S "\""))
            (S "img class= src=" ++ S " height=" ++ S " alt=" ++ S " /") hcp
            (by simp only [List.nil_append]
                rw [show ((S " height=\"" ++ escapeHtml hgt ++ S "\"") ++
                    (S " alt=\"" ++ escapeHtml al ++ S "\"")) ++ S " />"
                    = (S " height=" ++ '"' :: escapeHtml hgt ++ ['"']) ++
                      ((S " alt=" ++ '"' :: escapeHtml al ++ ['"']) ++ S " />")
                    from by simp only [List.append_assoc]; rfl,
                  scanStr_append, scanStr_append,
                  chunkO _ _ _ _ _ (by decide) (by decide)
                    (escapeHtml_no hgt).2.2 (by decide),
                  chunkO _ _ _ _ _ (by decide) (by decide)
                    (escapeHtml_no al).2.2 (by decide)]
                exact rfl)
            (by decide)
        · exact pieceOk_imgCore cfg inner
            ((S " width=\"" ++ escapeHtml w ++ S "\"") ++ [] ++ [])
            (S "img class= src=" ++ S " width=" ++ S " /") hcp
            (by simp only [List.append_nil]
                rw [show (S " width=\"" ++ escapeHtml w ++ S "\"") ++ S " />"
                    = (S " width=" ++ '"' :: escapeHtml w ++ ['"']) ++ S " />"
                    from by simp only [List.append_assoc]; rfl,
                  scanStr_append,
                  chunkO _ _ _ _ _ (by decide) (by decide)
                    (escapeHtml_no w).2.2 (by decide)]
                exact rfl)
            (by decide)
        · exact pieceOk_imgCore cfg inner
            ((S " width=\"" ++ escapeHtml w ++ S "\"") ++ [] ++
              (S " alt=\"" ++ escapeHtml al ++ S "\""))
            (S "img class= src=" ++ S " width=" ++ S " alt=" ++ S " /") hcp
            (by simp only [List.append_nil]
                rw [show ((S " width=\"" ++ escapeHtml w ++ S "\"") ++
                    (S " alt=\"" ++ escapeHtml al ++ S "\"")) ++ S " />"
                    = (S " width=" ++ '"' :: escapeHtml w ++ ['"']) ++
                      ((S " alt=" ++ '"' :: escapeHtml al ++ ['"']) ++ S " />")
                    from by simp only [List.append_assoc]; rfl,
                  scanStr_append, scanStr_append,
                  chunkO _ _ _ _ _ (by decide) (by decide)
                    (escapeHtml_no w).2.2 (by decide),
                  chunkO _ _ _ _ _ (by decide) (by decide)
                    (escapeHtml_no al).2.2 (by decide)]
                exact rfl)
            (by decide)
        · exact pieceOk_imgCore cfg inner
            ((S " width=\"" ++ escapeHtml w ++ S "\"") ++
              (S " height=\"" ++ escapeHtml hgt ++ S "\"") ++ [])
            (S "img class= src=" ++ S " width=" ++ S " height=" ++ S " /") hcp
            (by simp only [List.append_nil]
                rw [show ((S " width=\"" ++ escapeHtml w ++ S "\"") ++
                    (S " height=\"" ++ escapeHtml hgt ++ S "\"")) ++ S " />"
                    = (S " width=" ++ '"' :: escapeHtml w ++ ['"']) ++
                      ((S " height=" ++ '"' :: escapeHtml hgt ++ ['"']) ++
                        S " />")
                    from by simp only [List.append_assoc]; rfl,
                  scanStr_append, scanStr_append,
                  chunkO _ _ _ _ _ (by decide) (by decide)
                    (escapeHtml_no w).2.2 (by decide),
                  chunkO _ _ _ _ _ (by decide) (by decide)
                    (escapeHtml_no hgt).2.2 (by decide)]
                exact rfl)
            (by decide)
        · exact pieceOk_imgCore cfg inner
            ((S " width=\"" ++ escapeHtml w ++ S "\"") ++
              (S " height=\"" ++ escapeHtml hgt ++ S "\"") ++
              (S " alt=\"" ++ escapeHtml al ++ S "\""))
            (S "img class= src=" ++ S " width=" ++ S " height=" ++ S " alt=" ++
              S " /") hcp
            (by rw [show ((S " width=\"" ++ escapeHtml w ++ S "\"") ++
                    (S " height=\"" ++ escapeHtml hgt ++ S "\"") ++
                    (S " alt=\"" ++ escapeHtml al ++ S "\"")) ++ S " />"
                    = (S " width=" ++ '"' :: escapeHtml w ++ ['"']) ++
                      ((S " height=" ++ '"' :: escapeHtml hgt ++ ['"']) ++
                        ((S " alt=" ++ '"' :: escapeHtml al ++ ['"']) ++
                          S " />"))
                    from by simp only [List.append_assoc]; rfl,
                  scanStr_append, scanStr_append, scanStr_append,
                  chunkO _ _ _ _ _ (by decide) (by decide)
                    (escapeHtml_no w).2.2 (by decide),
                  chunkO _ _ _ _ _ (by decide) (by decide)
                    (escapeHtml_no hgt).2.2 (by decide),
                  chunkO _ _ _ _ _ (by decide) (by decide)
                    (escapeHtml_no al).2.2 (by decide)]
                exact rfl)
            (by decide)
    · rcases hd : parseDimensions o with - | wh <;> dsimp only
      · exact pieceOk_imgCore cfg inner [] (S "img class= src= /") hcp
          (by rw [List.nil_append]
              exact rfl)
          (by decide)
      · exact pieceOk_imgCore cfg inner
          (S " width=\"" ++ natToStr wh.1 ++ S "\" height=\"" ++
            natToStr wh.2 ++ S "\"")
          (S "img class= src=" ++ S " width=" ++ S " height=" ++ S " /") hcp
          (by rw [show (S " width=\"" ++ natToStr wh.1 ++ S "\" height=\"" ++
                  natToStr wh.2 ++ S "\"") ++ S " />"
                  = (S " width=" ++ '"' :: natToStr wh.1 ++ ['"']) ++
                    ((S " height=" ++ '"' :: natToStr wh.2 ++ ['"']) ++
                      S " />")
                  from by simp only [List.append_assoc]; rfl,
                scanStr_append, scanStr_append,
                chunkO _ _ _ _ _ (by decide) (by decide)
                  (natToStr_no_quote _) (by decide),
                chunkO _ _ _ _ _ (by decide) (by decide)
                  (natToStr_no_quote _) (by decide)]
              exact rfl)
          (by decide)

lemma pieceOk_listOl (cfg : RenderConfig) (ch : Str) (typeattr seg : Str)
    (hcp : '"' ∉ cfg.classPre) (hch : PieceOk cfg ch)
    (hattr : scanStr ⟨ScanSt.inTag, S "ol class=", [], [], []⟩
        (typeattr ++ S ">") = ⟨ScanSt.outside, [], [], [seg], []⟩)
    (hseg : SegOk seg = true) :
    PieceOk cfg (S "<" ++ S "ol" ++ S " class=\"" ++ cfg.classPre ++
      S "-list\"" ++ typeattr ++ S ">" ++ ch ++ S "</" ++ S "ol" ++ S ">") := by
  rw [show S "<" ++ S "ol" ++ S " class=\"" ++ cfg.classPre ++
      S "-list\"" ++ typeattr ++ S ">" ++ ch ++ S "</" ++ S "ol" ++ S ">"
      = ((S "<" ++ (S "ol" ++ (S " class=\"" ++ (cfg.classPre ++
        S "-list\"")))) ++ (typeattr ++ S ">")) ++
        (ch ++ (S "</" ++ S "ol" ++ S ">"))
      from by simp only [List.append_assoc]]
  refine PieceOk_append ?_ (PieceOk_append hch
    (PieceOk_mk cfg _ [S "/ol"] [] rfl (by decide) (by simp)))
  refine PieceOk_mk cfg _ [seg] [] ?_ ?_ (by simp)
  · rw [scanStr_append]
    have hhead : scanStr scanInit (S "<" ++ (S "ol" ++ (S " class=\"" ++
        (cfg.classPre ++ S "-list\""))))
        = ⟨ScanSt.inTag, S "ol class=", [], [], []⟩ := by
      simp only [scanStr_append]
      rw [show scanStr scanInit (S "<") = ⟨ScanSt.inTag, [], [], [], []⟩
          from rfl,
        show scanStr ⟨ScanSt.inTag, [], [], [], []⟩ (S "ol")
          = ⟨ScanSt.inTag, S "ol", [], [], []⟩ from rfl,
        show scanStr ⟨ScanSt.inTag, S "ol", [], [], []⟩ (S " class=\"")
          = ⟨ScanSt.inQuoteO, S "ol class=", [], [], []⟩ from rfl,
        scan_inQuoteO_pass _ _ _ _ _ hcp,
        show scanStr ⟨ScanSt.inQuoteO, S "ol class=", [], [], []⟩
            (S "-list\"")
          = ⟨ScanSt.inTag, S "ol class=", [], [], []⟩ from rfl]
    rw [hhead, hattr]
  · intro s hsg
    rw [List.mem_singleton] at hsg
    subst hsg
    exact hseg


lemma pieceOk_listUl (cfg : RenderConfig) (ch : Str) (typeattr seg : Str)
    (hcp : '"' ∉ cfg.classPre) (hch : PieceOk cfg ch)
    (hattr : scanStr ⟨ScanSt.inTag, S "ul class=", [], [], []⟩
        (typeattr ++ S ">") = ⟨ScanSt.outside, [], [], [seg], []⟩)
    (hseg : SegOk seg = true) :
    PieceOk cfg (S "<" ++ S "ul" ++ S " class=\"" ++ cfg.classPre ++
      S "-list\"" ++ typeattr ++ S ">" ++ ch ++ S "</" ++ S "ul" ++ S ">") := by
  rw [show S "<" ++ S "ul" ++ S " class=\"" ++ cfg.classPre ++
      S "-list\"" ++ typeattr ++ S ">" ++ ch ++ S "</" ++ S "ul" ++ S ">"
      = ((S "<" ++ (S "ul" ++ (S " class=\"" ++ (cfg.classPre ++
        S "-list\"")))) ++ (typeattr ++ S ">")) ++
        (ch ++ (S "</" ++ S "ul" ++ S ">"))
      from by simp only [List.append_assoc]]
  refine PieceOk_append ?_ (PieceOk_append hch
    (PieceOk_mk cfg _ [S "/ul"] [] rfl (by decide) (by simp)))
  refine PieceOk_mk cfg _ [seg] [] ?_ ?_ (by simp)
  · rw [scanStr_append]
    have hhead : scanStr scanInit (S "<" ++ (S "ul" ++ (S " class=\"" ++
        (cfg.classPre ++ S "-list\""))))
        = ⟨ScanSt.inTag, S "ul class=", [], [], []⟩ := by
      simp only [scanStr_append]
      rw [show scanStr scanInit (S "<") = ⟨ScanSt.inTag, [], [], [], []⟩
          from rfl,
        show scanStr ⟨ScanSt.inTag, [], [], [], []⟩ (S "ul")
          = ⟨ScanSt.inTag, S "ul", [], [], []⟩ from rfl,
        show scanStr ⟨ScanSt.inTag, S "ul", [], [], []⟩ (S " class=\"")
          = ⟨ScanSt.inQuoteO, S "ul class=", [], [], []⟩ from rfl,
        scan_inQuoteO_pass _ _ _ _ _ hcp,
        show scanStr ⟨ScanSt.inQuoteO, S "ul class=", [], [], []⟩
            (S "-list\"")
          = ⟨ScanSt.inTag, S "ul class=", [], [], []⟩ from rfl]
    rw [hhead, hattr]
  · intro s hsg
    rw [List.mem_singleton] at hsg
    subst hsg
    exact hseg


lemma pieceOk_renderList (cfg : RenderConfig) (t : TagNode) (ch : Str)
    (hcp : '"' ∉ cfg.classPre) (hch : PieceOk cfg ch) :
    PieceOk cfg (renderList cfg t ch) := by
  unfold renderList
  dsimp only
  rcases ha : t.opt.asScalar with - | lt <;> dsimp only
  · rw [if_neg (by decide : ¬ ((false : Bool) = true))]
    exact pieceOk_listUl cfg ch [] (S "ul class=") hcp hch rfl (by decide)
  by_cases h1 : lt = S "1"
  · subst h1
    rw [if_pos (by decide : decide (S "1" = S "1" ∨ S "1" = S "a" ∨ S "1" = S "A" ∨ S "1" = S "i" ∨ S "1" = S "I") = true)]
    rw [if_pos (by decide : S "1" = S "1")]
    exact pieceOk_listOl cfg ch (S " type=\"1\"") (S "ol class= type=") hcp hch rfl (by decide)
  by_cases h2 : lt = S "a"
  · subst h2
    rw [if_pos (by decide : decide (S "a" = S "1" ∨ S "a" = S "a" ∨ S "a" = S "A" ∨ S "a" = S "i" ∨ S "a" = S "I") = true)]
    rw [if_neg (by decide : ¬ (S "a" = S "1")),
      if_pos (by decide : S "a" = S "a")]
    exact pieceOk_listOl cfg ch (S " type=\"a\"") (S "ol class= type=") hcp hch rfl (by decide)
  by_cases h3 : lt = S "A"
  · subst h3
    rw [if_pos (by decide : decide (S "A" = S "1" ∨ S "A" = S "a" ∨ S "A" = S "A" ∨ S "A" = S "i" ∨ S "A" = S "I") = true)]
    rw [if_neg (by decide : ¬ (S "A" = S "1")),
      if_neg (by decide : ¬ (S "A" = S "a")),
      if_pos (by decide : S "A" = S "A")]
    exact pieceOk_listOl cfg ch (S " type=\"A\"") (S "ol class= type=") hcp hch rfl (by decide)
  by_cases h4 : lt = S "i"
  · subst h4
    rw [if_pos (by decide : decide (S "i" = S "1" ∨ S "i" = S "a" ∨ S "i" = S "A" ∨ S "i" = S "i" ∨ S "i" = S "I") = true)]
    rw [if_neg (by decide : ¬ (S "i" = S "1")),
      if_neg (by decide : ¬ (S "i" = S "a")),
      if_neg (by decide : ¬ (S "i" = S "A")),
      if_pos (by decide : S "i" = S "i")]
    exact pieceOk_listOl cfg ch (S " type=\"i\"") (S "ol class= type=") hcp hch rfl (by decide)
  by_cases h5 : lt = S "I"
  · subst h5
    rw [if_pos (by decide : decide (S "I" = S "1" ∨ S "I" = S "a" ∨ S "I" = S "A" ∨ S "I" = S "i" ∨ S "I" = S "I") = true)]
    rw [if_neg (by decide : ¬ (S "I" = S "1")),
      if_neg (by decide : ¬ (S "I" = S "a")),
      if_neg (by decide : ¬ (S "I" = S "A")),
      if_neg (by decide : ¬ (S "I" = S "i")),
      if_pos (by decide : S "I" = S "I")]
    exact pieceOk_listOl cfg ch (S " type=\"I\"") (S "ol class= type=") hcp hch rfl (by decide)
  by_cases h6 : lt = S "disc"
  · subst h6
    rw [if_neg (by decide : ¬ (decide (S "disc" = S "1" ∨ S "disc" = S "a" ∨ S "disc" = S "A" ∨ S "disc" = S "i" ∨ S "disc" = S "I") = true))]
    rw [if_neg (by decide : ¬ (S "disc" = S "1")),
      if_neg (by decide : ¬ (S "disc" = S "a")),
      if_neg (by decide : ¬ (S "disc" = S "A")),
      if_neg (by decide : ¬ (S "disc" = S "i")),
      if_neg (by decide : ¬ (S "disc" = S "I")),
      if_pos (by decide : S "disc" = S "disc")]
    exact pieceOk_listUl cfg ch (S " style=\"list-style-type: disc;\"") (S "ul class= style=") hcp hch rfl (by decide)
  by_cases h7 : lt = S "circle"
  · subst h7
    rw [if_neg (by decide : ¬ (decide (S "circle" = S "1" ∨ S "circle" = S "a" ∨ S "circle" = S "A" ∨ S "circle" = S "i" ∨ S "circle" = S "I") = true))]
    rw [if_neg (by decide : ¬ (S "circle" = S "1")),
      if_neg (by decide : ¬ (S "circle" = S "a")),
      if_neg (by decide : ¬ (S "circle" = S "A")),
      if_neg (by decide : ¬ (S "circle" = S "i")),
      if_neg (by decide : ¬ (S "circle" = S "I")),
      if_neg (by decide : ¬ (S "circle" = S "disc")),
      if_pos (by decide : S "circle" = S "circle")]
    exact pieceOk_listUl cfg ch (S " style=\"list-style-type: circle;\"") (S "ul class= style=") hcp hch rfl (by decide)
  by_cases h8 : lt = S "square"
  · subst h8
    rw [if_neg (by decide : ¬ (decide (S "square" = S "1" ∨ S "square" = S "a" ∨ S "square" = S "A" ∨ S "square" = S "i" ∨ S "square" = S "I") = true))]
    rw [if_neg (by decide : ¬ (S "square" = S "1")),
      if_neg (by decide : ¬ (S "square" = S "a")),
      if_neg (by decide : ¬ (S "square" = S "A")),
      if_neg (by decide : ¬ (S "square" = S "i")),
      if_neg (by decide : ¬ (S "square" = S "I")),
      if_neg (by decide : ¬ (S "square" = S "disc")),
      if_neg (by decide : ¬ (S "square" = S "circle")),
      if_pos (by decide : S "square" = S "square")]
    exact pieceOk_listUl cfg ch (S " style=\"list-style-type: square;\"") (S "ul class= style=") hcp hch rfl (by decide)
  · rw [if_neg (by simp [h1, h2, h3, h4, h5] : ¬ (decide (lt = S "1" ∨ lt = S "a" ∨ lt = S "A" ∨ lt = S "i" ∨ lt = S "I") = true))]
    rw [if_neg h1, if_neg h2, if_neg h3, if_neg h4, if_neg h5, if_neg h6, if_neg h7, if_neg h8]
    exact pieceOk_listUl cfg ch [] (S "ul class=") hcp hch rfl (by decide)
lemma pieceOk_renderTagDispatch (cfg : RenderConfig) (t : TagNode)
    (ch inner : Str) (hs : cfg.sanitize = true) (hcp : '"' ∉ cfg.classPre)
    (hch : PieceOk cfg ch) : PieceOk cfg (renderTagDispatch cfg t ch inner) := by
  unfold renderTagDispatch
  by_cases h0 : t.broken = true
  · rw [if_pos h0]
    exact pieceOk_renderAsText cfg t ch hs hch
  · rw [if_neg h0]
    dsimp only
    by_cases h1 : t.name = S "b" ∨ t.name = S "bold"
    · rw [if_pos h1]
      exact pieceOk_simpleTag cfg (S "strong") ch (by decide) (by decide) (by decide) (by decide) hch
    rw [if_neg h1]
    by_cases h2 : t.name = S "i" ∨ t.name = S "italic"
    · rw [if_pos h2]
      exact pieceOk_simpleTag cfg (S "em") ch (by decide) (by decide) (by decide) (by decide) hch
    rw [if_neg h2]
    by_cases h3 : t.name = S "u" ∨ t.name = S "underline"
    · rw [if_pos h3]
      exact pieceOk_simpleTag cfg (S "u") ch (by decide) (by decide) (by decide) (by decide) hch
    rw [if_neg h3]
    by_cases h4 : t.name = S "s" ∨ t.name = S "strike" ∨ t.name = S "strikethrough"
    · rw [if_pos h4]
      exact pieceOk_simpleTag cfg (S "s") ch (by decide) (by decide) (by decide) (by decide) hch
    rw [if_neg h4]
    by_cases h5 : t.name = S "sub"
    · rw [if_pos h5]
      exact pieceOk_simpleTag cfg (S "sub") ch (by decide) (by decide) (by decide) (by decide) hch
    rw [if_neg h5]
    by_cases h6 : t.name = S "sup"
    · rw [if_pos h6]
      exact pieceOk_simpleTag cfg (S "sup") ch (by decide) (by decide) (by decide) (by decide) hch
    rw [if_neg h6]
    by_cases h7 : t.name = S "color" ∨ t.name = S "colour"
    · rw [if_pos h7]
      exact pieceOk_renderColor cfg t ch hs hcp hch
    rw [if_neg h7]
    by_cases h8 : t.name = S "font"
    · rw [if_pos h8]
      exact pieceOk_renderFont cfg t ch hs hcp hch
    rw [if_neg h8]
    by_cases h9 : t.name = S "size"
    · rw [if_pos h9]
      exact pieceOk_renderSize cfg t ch hs hcp hch
    rw [if_neg h9]
    by_cases h10 : t.name = S "url" ∨ t.name = S "link"
    · rw [if_pos h10]
      exact pieceOk_renderUrl cfg t ch inner hs hcp hch
    rw [if_neg h10]
    by_cases h11 : t.name = S "email" ∨ t.name = S "mail"
    · rw [if_pos h11]
      exact pieceOk_renderEmail cfg t ch inner hs hcp hch
    rw [if_neg h11]
    by_cases h12 : t.name = S "img" ∨ t.name = S "image"
    · rw [if_pos h12]
      exact pieceOk_renderImg cfg t ch inner hs hcp hch
    rw [if_neg h12]
    by_cases h13 : t.name = S "quote"
    · rw [if_pos h13]
      exact pieceOk_renderQuote cfg t ch hcp hch
    rw [if_neg h13]
    by_cases h14 : t.name = S "code"
    · rw [if_pos h14]
      exact pieceOk_renderCode cfg t inner hcp
    rw [if_neg h14]
    by_cases h15 : t.name = S "icode" ∨ t.name = S "c" ∨ t.name = S "inline"
    · rw [if_pos h15]
      exact pieceOk_renderIcode cfg inner hcp
    rw [if_neg h15]
    by_cases h16 : t.name = S "php"
    · rw [if_pos h16]
      exact pieceOk_renderCodeWithLang cfg (S "php") inner hcp (by decide)
    rw [if_neg h16]
    by_cases h17 : t.name = S "html"
    · rw [if_pos h17]
      exact pieceOk_renderCodeWithLang cfg (S "html") inner hcp (by decide)
    rw [if_neg h17]
    by_cases h18 : t.name = S "plain" ∨ t.name = S "noparse" ∨ t.name = S "nobbc"
    · rw [if_pos h18]
      exact PieceOk_escape cfg inner
    rw [if_neg h18]
    by_cases h19 : t.name = S "list"
    · rw [if_pos h19]
      exact pieceOk_renderList cfg t ch hcp hch
    rw [if_neg h19]
    by_cases h20 : t.name = S "*" ∨ t.name = S "li"
    · rw [if_pos h20]
      exact pieceOk_renderListItem cfg ch hch
    rw [if_neg h20]
    by_cases h21 : t.name = S "left"
    · rw [if_pos h21]
      exact pieceOk_renderAlign cfg (S "left") ch (by decide) hcp hch
    rw [if_neg h21]
    by_cases h22 : t.name = S "center"
    · rw [if_pos h22]
      exact pieceOk_renderAlign cfg (S "center") ch (by decide) hcp hch
    rw [if_neg h22]
    by_cases h23 : t.name = S "right"
    · rw [if_pos h23]
      exact pieceOk_renderAlign cfg (S "right") ch (by decide) hcp hch
    rw [if_neg h23]
    by_cases h24 : t.name = S "justify"
    · rw [if_pos h24]
      exact pieceOk_renderAlign cfg (S "justify") ch (by decide) hcp hch
    rw [if_neg h24]
    by_cases h25 : t.name = S "indent"
    · rw [if_pos h25]
      exact pieceOk_renderIndent cfg t ch hcp hch
    rw [if_neg h25]
    by_cases h26 : t.name = S "heading" ∨ t.name = S "h"
    · rw [if_pos h26]
      exact pieceOk_renderHeading cfg t ch hcp hch
    rw [if_neg h26]
    by_cases h27 : t.name = S "hr"
    · rw [if_pos h27]
      exact PieceOk_mk cfg _ [S "hr /"] [] rfl (by decide) (by simp)
    rw [if_neg h27]
    by_cases h28 : t.name = S "br"
    · rw [if_pos h28]
      exact PieceOk_mk cfg _ [S "br /"] [] rfl (by decide) (by simp)
    rw [if_neg h28]
    by_cases h29 : t.name = S "spoiler"
    · rw [if_pos h29]
      exact pieceOk_renderSpoiler cfg t ch hcp hch
    rw [if_neg h29]
    by_cases h30 : t.name = S "ispoiler"
    · rw [if_pos h30]
      exact pieceOk_renderIspoiler cfg ch hcp hch
    rw [if_neg h30]
    by_cases h31 : t.name = S "user" ∨ t.name = S "member"
    · rw [if_pos h31]
      exact pieceOk_renderUser cfg t inner hcp
    rw [if_neg h31]
    by_cases h32 : t.name = S "table"
    · rw [if_pos h32]
      exact pieceOk_renderTable cfg t ch hcp hch
    rw [if_neg h32]
    by_cases h33 : t.name = S "tr"
    · rw [if_pos h33]
      exact pieceOk_renderTableRow cfg ch hch
    rw [if_neg h33]
    by_cases h34 : t.name = S "th"
    · rw [if_pos h34]
      exact pieceOk_renderTableHeader cfg t ch hch
    rw [if_neg h34]
    by_cases h35 : t.name = S "td"
    · rw [if_pos h35]
      exact pieceOk_renderTableCell cfg t ch hch
    rw [if_neg h35]
    exact pieceOk_renderAsText cfg t ch hs hch
mutual

lemma renderNode_ok (cfg : RenderConfig) (hs : cfg.sanitize = true)
    (hcp : '"' ∉ cfg.classPre) :
    ∀ (n : Node), autoOkNode n = true → PieceOk cfg (renderNode cfg n)
  | .text s, _ => by
    rw [show renderNode cfg (.text s) = renderText cfg s from rfl]
    exact PieceOk_renderText cfg s hs
  | .linebreak, _ => by
    rw [show renderNode cfg .linebreak
      = if cfg.convertLinebreaks = true then S "<br />" else ['\n'] from rfl]
    split
    · exact PieceOk_mk cfg _ [S "br /"] [] rfl (by decide) (by simp)
    · exact PieceOk_outside cfg _ (by decide)
  | .autoUrl u, h => by
    rw [show renderNode cfg (.autoUrl u) = renderAutoUrl cfg u from rfl]
    refine pieceOk_renderAutoUrl cfg u hcp ?_
    simpa [autoOkNode] using h
  | .tag n rn o chl cl ro rc br, h => by
    rw [show renderNode cfg (.tag n rn o chl cl ro rc br)
      = renderTagDispatch cfg ⟨n, rn, o, chl, cl, ro, rc, br⟩
          (renderChildren cfg chl) (innerTextOf chl) from rfl]
    refine pieceOk_renderTagDispatch cfg _ _ _ hs hcp ?_
    exact renderChildren_ok cfg hs hcp chl (by simpa [autoOkNode] using h)

lemma renderChildren_ok (cfg : RenderConfig) (hs : cfg.sanitize = true)
    (hcp : '"' ∉ cfg.classPre) :
    ∀ (l : NodeList), autoOkChildren l = true → PieceOk cfg (renderChildren cfg l)
  | .nil, _ => by
    rw [show renderChildren cfg .nil = [] from rfl]
    exact PieceOk_nil cfg
  | .cons x xs, h => by
    rw [show renderChildren cfg (.cons x xs)
      = renderNode cfg x ++ renderChildren cfg xs from rfl]
    have h1 : autoOkNode x = true ∧ autoOkChildren xs = true := by
      simpa [autoOkChildren, Bool.and_eq_true] using h
    exact PieceOk_append (renderNode_ok cfg hs hcp x h1.1)
      (renderChildren_ok cfg hs hcp xs h1.2)

end

lemma renderNodes_ok (cfg : RenderConfig) (hs : cfg.sanitize = true)
    (hcp : '"' ∉ cfg.classPre) :
    ∀ (doc : List Node), autoOkDoc doc = true →
    PieceOk cfg (renderNodes cfg doc) := by
  intro doc
  induction doc with
  | nil =>
    intro _
    rw [show renderNodes cfg [] = [] from rfl]
    exact PieceOk_nil cfg
  | cons x xs ih =>
    intro h
    rw [show renderNodes cfg (x :: xs)
      = renderNode cfg x ++ renderNodes cfg xs from rfl]
    have h1 : autoOkNode x = true ∧ autoOkDoc xs = true := by
      simpa [autoOkDoc, Bool.and_eq_true] using h
    exact PieceOk_append (renderNode_ok cfg hs hcp x h1.1) (ih h1.2)

lemma parseCloseTag_shape {s : Str} {t : Tok} {r : Str}
    (h : parseCloseTag s = some (t, r)) : ∃ a n, t = Tok.closeTag a n := by
  unfold parseCloseTag at h
  split at h
  next r0 =>
    dsimp only at h
    split at h
    · exact absurd h (by simp)
    · split at h
      next s2 heq =>
        simp only [Option.some.injEq, Prod.mk.injEq] at h
        exact ⟨_, _, h.1.symm⟩
      next => exact absurd h (by simp)
  next => exact absurd h (by simp)

lemma parseOpenTag_shape {s : Str} {t : Tok} {r : Str}
    (h : parseOpenTag s = some (t, r)) : ∃ a n g, t = Tok.openTag a n g := by
  unfold parseOpenTag at h
  split at h
  next r0 =>
    split at h
    · exact absurd h (by simp)
    · dsimp only at h
      split at h
      · exact absurd h (by simp)
      · split at h
        · exact absurd h (by simp)
        next arg s4 heq =>
          split at h
          next s5 tl =>
            simp only [Option.some.injEq, Prod.mk.injEq] at h
            exact ⟨_, _, _, h.1.symm⟩
          next => exact absurd h (by simp)
  next => exact absurd h (by simp)

lemma parseLinebreak_shape {s : Str} {t : Tok} {r : Str}
    (h : parseLinebreak s = some (t, r)) : ∃ a, t = Tok.linebreak a := by
  unfold parseLinebreak at h
  split at h <;>
    first
    | (simp only [Option.some.injEq, Prod.mk.injEq] at h
       exact ⟨_, h.1.symm⟩)
    | exact absurd h (by simp)

lemma parseText_shape {s : Str} {t : Tok} {r : Str}
    (h : parseText s = some (t, r)) : ∃ a, t = Tok.text a := by
  unfold parseText at h
  dsimp only at h
  split at h
  · exact absurd h (by simp)
  · simp only [Option.some.injEq, Prod.mk.injEq] at h
    exact ⟨_, h.1.symm⟩

lemma parseUrl_takeOk {s : Str} {t : Tok} {rest : Str}
    (h : parseUrl s = some (t, rest)) :
    urlPrefixOk (overrideRaw t (s.take (s.length - rest.length))) = true := by
  unfold parseUrl at h
  dsimp only at h
  split at h
  · exact absurd h (by simp)
  next hpre =>
    rw [not_not] at hpre
    simp only [Option.some.injEq, Prod.mk.injEq] at h
    obtain ⟨rfl, rfl⟩ := h
    simp only [overrideRaw, urlPrefixOk, decide_eq_true_eq]
    rw [List.length_drop]
    rcases hpre with hp | hp
    · left
      rw [List.isPrefixOf_iff_prefix] at hp ⊢
      have h7 : 7 ≤ s.length := by
        have := hp.length_le
        simpa using this
      have hTL : 7 ≤ (if (S "https://").isPrefixOf s = true then 8 else 7) +
          findIdxOrLen urlStop
            (s.drop (if (S "https://").isPrefixOf s = true then 8 else 7)) := by
        split <;> omega
      rw [List.prefix_take_iff]
      refine ⟨hp, ?_⟩
      simp only [show (S "http://").length = 7 from rfl]
      omega
    · right
      rw [List.isPrefixOf_iff_prefix] at hp ⊢
      have h8 : 8 ≤ s.length := by
        have := hp.length_le
        simpa using this
      have hTL : 8 ≤ (if (S "https://").isPrefixOf s = true then 8 else 7) +
          findIdxOrLen urlStop
            (s.drop (if (S "https://").isPrefixOf s = true then 8 else 7)) := by
        rw [if_pos (List.isPrefixOf_iff_prefix.mpr hp)]
        omega
      rw [List.prefix_take_iff]
      refine ⟨hp, ?_⟩
      simp only [show (S "https://").length = 8 from rfl]
      omega

lemma parseToken_urlOk {s : Str} {t : Tok} {rest : Str}
    (h : parseToken s = some (t, rest)) : urlPrefixOk t = true := by
  unfold parseToken at h
  dsimp only at h
  rw [Option.map_eq_some'] at h
  obtain ⟨⟨t0, rest0⟩, hm, ht⟩ := h
  simp only [Prod.mk.injEq] at ht
  obtain ⟨rfl, rfl⟩ := ht
  rcases h1 : parseCloseTag s with - | x
  · rw [h1] at hm
    rcases h2 : parseOpenTag s with - | x
    · rw [h2] at hm
      rcases h3 : parseUrl s with - | x
      · rw [h3] at hm
        rcases h4 : parseLinebreak s with - | x
        · rw [h4] at hm
          obtain ⟨a, ha⟩ := parseText_shape hm
          subst ha
          rfl
        · rw [h4] at hm
          rw [Option.some.injEq] at hm
          subst hm
          obtain ⟨a, ha⟩ := parseLinebreak_shape h4
          subst ha
          rfl
      · rw [h3] at hm
        rw [Option.some.injEq] at hm
        subst hm
        exact parseUrl_takeOk h3
    · rw [h2] at hm
      rw [Option.some.injEq] at hm
      subst hm
      obtain ⟨a, n, g, ha⟩ := parseOpenTag_shape h2
      subst ha
      rfl
  · rw [h1] at hm
    rw [Option.some.injEq] at hm
    subst hm
    obtain ⟨a, n, ha⟩ := parseCloseTag_shape h1
    subst ha
    rfl

lemma tokenizeGo_urlPrefix (fuel : Nat) :
    ∀ (remaining : Str) (off : Nat) (acc : List (Tok × Nat)),
    (∀ p ∈ acc, urlPrefixOk p.1 = true) →
    ∀ p ∈ tokenizeGo fuel remaining off acc, urlPrefixOk p.1 = true := by
  induction fuel with
  | zero =>
    intro remaining off acc hacc p hp
    have h0 : tokenizeGo 0 remaining off acc = acc := by
      cases remaining <;> rfl
    rw [h0] at hp
    exact hacc p hp
  | succ fuel ih =>
    intro remaining off acc hacc
    rcases remaining with - | ⟨c, r⟩
    · intro p hp
      exact hacc p hp
    · rw [tokenizeGo_succ_cons]
      rcases hp : parseToken (c :: r) with - | x
      · dsimp only
        have hnew : ∀ p ∈ ((Tok.text [c], off) :: acc), urlPrefixOk p.1 = true := by
          intro p hp2
          rcases List.mem_cons.mp hp2 with rfl | hp2
          · rfl
          · exact hacc _ hp2
        rcases acc with - | ⟨⟨pt, prevOff⟩, accRest⟩
        · dsimp only
          exact ih r (off + 1) _ hnew
        · cases pt with
          | text prev =>
            dsimp only
            by_cases hc : prevOff + prev.length = off
            · rw [if_pos hc]
              refine ih r (off + 1) _ ?_
              intro p hp2
              rcases List.mem_cons.mp hp2 with rfl | hp2
              · rfl
              · exact hacc _ (List.mem_cons_of_mem _ hp2)
            · rw [if_neg hc]
              exact ih r (off + 1) _ hnew
          | linebreak s =>
            dsimp only
            exact ih r (off + 1) _ hnew
          | openTag ra nm ar =>
            dsimp only
            exact ih r (off + 1) _ hnew
          | closeTag ra nm =>
            dsimp only
            exact ih r (off + 1) _ hnew
          | url s =>
            dsimp only
            exact ih r (off + 1) _ hnew
      · obtain ⟨t, rest⟩ := x
        dsimp only
        have hok : urlPrefixOk t = true := parseToken_urlOk hp
        have hnew : ∀ p ∈ ((t, off) :: acc), urlPrefixOk p.1 = true := by
          intro p hp2
          rcases List.mem_cons.mp hp2 with rfl | hp2
          · exact hok
          · exact hacc _ hp2
        cases t with
        | text s =>
          cases s with
          | nil =>
            dsimp only
            exact ih rest _ _ hacc
          | cons a as =>
            dsimp only
            exact ih rest _ _ hnew
        | linebreak s =>
          dsimp only
          exact ih rest _ _ hnew
        | openTag ra nm ar =>
          dsimp only
          exact ih rest _ _ hnew
        | closeTag ra nm =>
          dsimp only
          exact ih rest _ _ hnew
        | url s =>
          dsimp only
          exact ih rest _ _ hnew

lemma mergeTextGo_urlPrefix :
    ∀ (rest acc : List (Tok × Nat)),
    (∀ p ∈ acc, urlPrefixOk p.1 = true) →
    (∀ p ∈ rest, urlPrefixOk p.1 = true) →
    ∀ p ∈ mergeTextGo acc rest, urlPrefixOk p.1 = true := by
  intro rest
  induction rest with
  | nil =>
    intro acc hacc _ p hp
    have h0 : mergeTextGo acc [] = acc.reverse := rfl
    rw [h0, List.mem_reverse] at hp
    exact hacc p hp
  | cons q rest ih =>
    obtain ⟨tok, newOff⟩ := q
    intro acc hacc hrest
    rw [mergeTextGo_cons]
    have hrest2 : ∀ p ∈ rest, urlPrefixOk p.1 = true := by
      intro p hp2
      exact hrest _ (List.mem_cons_of_mem _ hp2)
    have hpush : ∀ p ∈ ((tok, newOff) :: acc), urlPrefixOk p.1 = true := by
      intro p hp2
      rcases List.mem_cons.mp hp2 with rfl | hp2
      · exact hrest _ (List.mem_cons_self _ _)
      · exact hacc _ hp2
    cases tok with
    | text newText =>
      rcases acc with - | ⟨⟨pt, exOff⟩, accRest⟩
      · dsimp only
        exact ih _ hpush hrest2
      · cases pt with
        | text existing =>
          dsimp only
          by_cases hc : exOff + existing.length = newOff
          · rw [if_pos hc]
            refine ih _ ?_ hrest2
            intro p hp2
            rcases List.mem_cons.mp hp2 with rfl | hp2
            · rfl
            · exact hacc _ (List.mem_cons_of_mem _ hp2)
          · rw [if_neg hc]
            exact ih _ hpush hrest2
        | linebreak s =>
          dsimp only
          exact ih _ hpush hrest2
        | openTag ra nm ar =>
          dsimp only
          exact ih _ hpush hrest2
        | closeTag ra nm =>
          dsimp only
          exact ih _ hpush hrest2
        | url s =>
          dsimp only
          exact ih _ hpush hrest2
    | linebreak s =>
      dsimp only
      exact ih _ hpush hrest2
    | openTag ra nm ar =>
      dsimp only
      exact ih _ hpush hrest2
    | closeTag ra nm =>
      dsimp only
      exact ih _ hpush hrest2
    | url s =>
      dsimp only
      exact ih _ hpush hrest2

lemma tokenize_urlPrefix (input : Str) :
    ∀ t ∈ tokenize input, urlPrefixOk t = true := by
  intro t ht
  obtain ⟨p, hp, rfl⟩ := List.mem_map.mp ht
  refine mergeTextGo_urlPrefix _ [] (by intro q hq; cases hq) ?_ p hp
  intro q hq
  rw [List.mem_reverse] at hq
  exact tokenizeGo_urlPrefix input.length input 0 []
    (by intro q2 hq2; cases hq2) q hq

lemma autoOkChildren_append : ∀ (l m : NodeList),
    autoOkChildren (l ++ m) = (autoOkChildren l && autoOkChildren m)
  | .nil, m => by
    show autoOkChildren m = (true && autoOkChildren m)
    rw [Bool.true_and]
  | .cons n t, m => by
    show (autoOkNode n && autoOkChildren (t ++ m))
      = ((autoOkNode n && autoOkChildren t) && autoOkChildren m)
    rw [autoOkChildren_append t m, Bool.and_assoc]

lemma autoOkChildren_push {l : NodeList} {n : Node}
    (hl : autoOkChildren l = true) (hn : autoOkNode n = true) :
    autoOkChildren (l.push n) = true := by
  rw [NodeList.push, autoOkChildren_append, hl]
  show (true && (autoOkNode n && true)) = true
  rw [hn]
  rfl

lemma autoOk_ofTag (t : TagNode) :
    autoOkNode (Node.ofTag t) = autoOkChildren t.children := rfl

lemma pushTo_autoOk (n : Node) {stack : List TagNode} {doc : List Node}
    (hst : autoOkStack stack = true) (hd : autoOkDoc doc = true)
    (hn : autoOkNode n = true) :
    autoOkStack (pushTo stack doc n).1 = true ∧
    autoOkDoc (pushTo stack doc n).2 = true := by
  cases stack with
  | nil =>
    refine ⟨rfl, ?_⟩
    simp only [pushTo, autoOkDoc, List.all_append, List.all_cons, List.all_nil,
      Bool.and_eq_true, Bool.and_true]
    exact ⟨hd, hn⟩
  | cons t rest =>
    simp only [pushTo, autoOkStack, List.all_cons, Bool.and_eq_true] at hst ⊢
    exact ⟨⟨autoOkChildren_push hst.1 hn, hst.2⟩, hd⟩

lemma drainGo_autoOk : ∀ (rest : List TagNode) (t : TagNode) (doc : List Node),
    autoOkChildren t.children = true → autoOkStack rest = true →
    autoOkDoc doc = true → autoOkDoc (drainGo t rest doc) = true := by
  intro rest
  induction rest with
  | nil =>
    intro t doc ht _ hd
    simp only [drainGo, autoOkDoc, List.all_append, List.all_cons, List.all_nil,
      Bool.and_eq_true, Bool.and_true]
    exact ⟨hd, by rw [autoOk_ofTag]; exact ht⟩
  | cons p ps ih =>
    intro t doc ht hrest hd
    simp only [drainGo]
    simp only [autoOkStack, List.all_cons, Bool.and_eq_true] at hrest
    refine ih _ doc ?_ hrest.2 hd
    show autoOkChildren (p.children.push (Node.ofTag t)) = true
    exact autoOkChildren_push hrest.1 (by rw [autoOk_ofTag]; exact ht)

lemma drainStack_autoOk {stack : List TagNode} {doc : List Node}
    (hst : autoOkStack stack = true) (hd : autoOkDoc doc = true) :
    autoOkDoc (drainStack stack doc) = true := by
  cases stack with
  | nil => exact hd
  | cons t rest =>
    simp only [autoOkStack, List.all_cons, Bool.and_eq_true] at hst
    exact drainGo_autoOk rest t doc hst.1 hst.2 hd

lemma markAllClosed_autoOk {seg : List TagNode}
    (h : autoOkStack seg = true) : autoOkStack (markAllClosed seg) = true := by
  simp only [autoOkStack, markAllClosed, List.all_map]
  exact h

lemma setLastRawClose_autoOk : ∀ (l : List TagNode) (raw : Str),
    autoOkStack l = true → autoOkStack (setLastRawClose l raw) = true
  | [], _, h => h
  | [t], raw, h => by
    simp only [autoOkStack, setLastRawClose, List.all_cons, List.all_nil] at h ⊢
    exact h
  | t :: t2 :: ts, raw, h => by
    simp only [autoOkStack, List.all_cons, Bool.and_eq_true] at h
    have h2 := setLastRawClose_autoOk (t2 :: ts) raw
      (by simp only [autoOkStack, List.all_cons, Bool.and_eq_true]; exact h.2)
    simp only [autoOkStack, setLastRawClose, List.all_cons, Bool.and_eq_true]
    refine ⟨h.1, ?_⟩
    simpa [autoOkStack] using h2

lemma foldInto_autoOk : ∀ (ps : List TagNode) (cur : TagNode),
    autoOkChildren cur.children = true → autoOkStack ps = true →
    autoOkChildren (foldInto cur ps).children = true
  | [], cur, hc, _ => hc
  | p :: ps, cur, hc, hp => by
    simp only [autoOkStack, List.all_cons, Bool.and_eq_true] at hp
    refine foldInto_autoOk ps _ ?_ hp.2
    show autoOkChildren (p.children.push (Node.ofTag cur)) = true
    exact autoOkChildren_push hp.1 (by rw [autoOk_ofTag]; exact hc)

lemma applyClose_autoOk {seg : List TagNode} {raw : Str} {folded : TagNode}
    (hseg : autoOkStack seg = true)
    (h : applyClose seg raw = some folded) :
    autoOkChildren folded.children = true := by
  unfold applyClose at h
  have hall : autoOkStack (setLastRawClose (markAllClosed seg) raw) = true :=
    setLastRawClose_autoOk _ _ (markAllClosed_autoOk hseg)
  rcases hm : setLastRawClose (markAllClosed seg) raw with - | ⟨t0, ts⟩
  · rw [hm] at h
    exact absurd h (by simp)
  · rw [hm] at h hall
    rw [Option.some.injEq] at h
    subst h
    simp only [autoOkStack, List.all_cons, Bool.and_eq_true] at hall
    exact foldInto_autoOk ts t0 hall.1 hall.2

lemma parseSingleGo_autoOk (lowerName : Str) :
    ∀ (toks : List Tok) (nesting consumed : Nat) (children : NodeList),
    (∀ t ∈ toks, urlPrefixOk t = true) →
    autoOkChildren children = true →
    autoOkChildren (parseSingleGo lowerName toks nesting consumed children).1
      = true := by
  intro toks
  induction toks with
  | nil =>
    intro n c ch _ hch
    exact hch
  | cons t ts ih =>
    intro n c ch htoks hch
    have hts : ∀ x ∈ ts, urlPrefixOk x = true :=
      fun x hx => htoks x (List.mem_cons_of_mem _ hx)
    cases t with
    | openTag ra nm ar =>
      simp only [parseSingleGo]
      split
      · exact ih _ _ _ hts hch
      · exact ih _ _ _ hts hch
    | closeTag ra nm =>
      simp only [parseSingleGo]
      split
      · split
        · exact hch
        · exact ih _ _ _ hts hch
      · exact ih _ _ _ hts hch
    | text txt =>
      simp only [parseSingleGo]
      exact ih _ _ _ hts (autoOkChildren_push hch rfl)
    | linebreak s =>
      simp only [parseSingleGo]
      exact ih _ _ _ hts (autoOkChildren_push hch rfl)
    | url u =>
      simp only [parseSingleGo]
      exact ih _ _ _ hts
        (autoOkChildren_push hch (htoks _ (List.mem_cons_self _ _)))

lemma parseSingleTag_autoOk {toks : List Tok} {node : Node} {consumed : Nat}
    (htoks : ∀ t ∈ toks, urlPrefixOk t = true)
    (h : parseSingleTag toks = some (node, consumed)) :
    autoOkNode node = true := by
  unfold parseSingleTag at h
  rcases toks with - | ⟨t, rest⟩
  · exact absurd h (by simp)
  · cases t with
    | openTag raw name arg =>
      dsimp only at h
      rcases hr : resolveTag (asciiLower name) with - | res
      · rw [hr] at h
        exact absurd h (by simp)
      · rw [hr] at h
        rw [Option.some.injEq, Prod.mk.injEq] at h
        obtain ⟨h1, -⟩ := h
        subst h1
        show autoOkChildren (parseSingleGo (asciiLower name) rest 1 1 .nil).1 = true
        exact parseSingleGo_autoOk _ rest 1 1 .nil
          (fun x hx => htoks x (List.mem_cons_of_mem _ hx)) rfl
    | text s => exact absurd h (by simp)
    | linebreak s => exact absurd h (by simp)
    | closeTag ra nm => exact absurd h (by simp)
    | url u => exact absurd h (by simp)

lemma listItemGo_autoOk :
    ∀ (fuel : Nat) (toks : List Tok) (pos : Nat) (children : NodeList),
    (∀ t ∈ toks, urlPrefixOk t = true) →
    autoOkChildren children = true →
    autoOkChildren (listItemGo fuel toks pos children).1 = true ∧
    (∀ t ∈ (listItemGo fuel toks pos children).2.1, urlPrefixOk t = true) := by
  intro fuel
  induction fuel with
  | zero =>
    intro toks pos ch ht hch
    exact ⟨hch, ht⟩
  | succ fuel ih =>
    intro toks pos ch ht hch
    rcases toks with - | ⟨t, ts⟩
    · exact ⟨hch, by intro x hx; cases hx⟩
    · have hts : ∀ x ∈ ts, urlPrefixOk x = true :=
        fun x hx => ht x (List.mem_cons_of_mem _ hx)
      cases t with
      | openTag ra nm ar =>
        simp only [listItemGo]
        by_cases hc : eqIgnoreAsciiCase nm (S "*") = true
        · rw [if_pos hc]
          exact ⟨hch, ht⟩
        · rw [if_neg hc]
          rcases hp : parseSingleTag (Tok.openTag ra nm ar :: ts)
            with - | ⟨node, consumed⟩
          · exact ih ts _ _ hts hch
          · refine ih _ _ _ ?_ (autoOkChildren_push hch (parseSingleTag_autoOk ht hp))
            intro x hx
            exact ht x (List.mem_of_mem_drop hx)
      | closeTag ra nm =>
        simp only [listItemGo]
        by_cases hc : eqIgnoreAsciiCase nm (S "list") = true
        · rw [if_pos hc]
          exact ⟨hch, ht⟩
        · rw [if_neg hc]
          rcases hp : parseSingleTag (Tok.closeTag ra nm :: ts)
            with - | ⟨node, consumed⟩
          · exact ih ts _ _ hts hch
          · refine ih _ _ _ ?_ (autoOkChildren_push hch (parseSingleTag_autoOk ht hp))
            intro x hx
            exact ht x (List.mem_of_mem_drop hx)
      | text txt =>
        simp only [listItemGo]
        exact ih ts _ _ hts (autoOkChildren_push hch rfl)
      | linebreak s =>
        simp only [listItemGo]
        exact ih ts _ _ hts (autoOkChildren_push hch rfl)
      | url u =>
        simp only [listItemGo]
        exact ih ts _ _ hts
          (autoOkChildren_push hch (ht _ (List.mem_cons_self _ _)))

lemma skipToksGo_mem : ∀ (toks : List Tok) (pos target : Nat) (t : Tok),
    t ∈ (skipToksGo toks pos target).1 → t ∈ toks
  | [], _, _, _, h => h
  | x :: ts, pos, target, t, h => by
    simp only [skipToksGo] at h
    split at h
    · exact h
    · exact List.mem_cons_of_mem _ (skipToksGo_mem ts _ _ _ h)

lemma parseTokensGo_succ_cons (cfg : ParserConfig) (input : Str)
    (depth fuel : Nat) (tok : Tok) (rest : List Tok) (pos : Nat)
    (stack : List TagNode) (doc : List Node) :
    parseTokensGo cfg input depth (fuel + 1) (tok :: rest) pos stack doc =
        let nextPos := pos + byteLen tok.raw
        let asText : Option (List Node) :=
          let sd := pushTo stack doc (Node.text tok.raw)
          parseTokensGo cfg input depth fuel rest nextPos sd.1 sd.2
        match tok with
        | .text s =>
          let sd := pushTo stack doc (Node.text s)
          parseTokensGo cfg input depth fuel rest nextPos sd.1 sd.2
        | .linebreak _ =>
          let sd := pushTo stack doc Node.linebreak
          parseTokensGo cfg input depth fuel rest nextPos sd.1 sd.2
        | .url u =>
          let sd := pushTo stack doc (Node.autoUrl u)
          parseTokensGo cfg input depth fuel rest nextPos sd.1 sd.2
        | .closeTag raw name =>
          let lowerName := asciiLower name
          match stack.findIdx? (fun t => eqIgnoreAsciiCase t.name lowerName) with
          | some k =>
            let seg := stack.take (k + 1)
            let stackRest := stack.drop (k + 1)
            match applyClose seg raw with
            | some folded =>
              let sd := pushTo stackRest doc (Node.ofTag folded)
              parseTokensGo cfg input depth fuel rest nextPos sd.1 sd.2
            | Option.none =>
              parseTokensGo cfg input depth fuel rest nextPos stackRest doc
          | Option.none =>
            let sd := pushTo stack doc (Node.text raw)
            parseTokensGo cfg input depth fuel rest nextPos sd.1 sd.2
        | .openTag raw name arg =>
          let lowerName := asciiLower name
          match resolveTag lowerName with
          | Option.none =>
            -- Both the `allow_unknown_tags` branch and its else emit the raw text.
            asText
          | some resolved =>
            if cfg.maxDepth ≤ depth + stack.length then asText
            else if ¬ checkAncestors stack resolved then asText
            else if ¬ hasRequiredParent resolved (stack.map TagNode.name) then asText
            else
              let opt := parseOption arg
              if resolved.optionRequired ∧ opt.isNone then asText
              else
                let tagNameForClose := lowerName
                let tagNode : TagNode :=
                  { name := lowerName
                    rawName := name
                    opt := opt
                    children := .nil
                    closed := false
                    rawOpen := raw
                    rawClose := []
                    broken := false }
                if resolved.tagType = TagType.selfClosing then
                  if resolved.name = S "*" then
                    let r := listItemGo (rest.length + 1) rest nextPos .nil
                    let node := Node.ofTag { tagNode with children := r.1, closed := true }
                    let sd := pushTo stack doc node
                    parseTokensGo cfg input depth fuel r.2.1 r.2.2 sd.1 sd.2
                  else
                    let sd := pushTo stack doc (Node.ofTag { tagNode with closed := true })
                    parseTokensGo cfg input depth fuel rest nextPos sd.1 sd.2
                else if resolved.tagType = TagType.verbatim then
                  match dropBytes input nextPos with
                  | Option.none => Option.none
                  | some remainingStr =>
                    match tokenizeUntilClose remainingStr tagNameForClose with
                    | Option.none => Option.none
                    | some (content, closeTag, _restStr) =>
                      if ¬ closeTag.isEmpty then
                        let node :=
                          { tagNode with
                            children := NodeList.one (Node.text content)
                            rawClose := closeTag
                            closed := true }
                        let closeEnd := nextPos + byteLen content + byteLen closeTag
                        let sk := skipToksGo rest nextPos closeEnd
                        let sd := pushTo stack doc (Node.ofTag node)
                        parseTokensGo cfg input depth fuel sk.1 sk.2 sd.1 sd.2
                      else
                        parseTokensGo cfg input depth fuel rest nextPos
                          (tagNode :: stack) doc
                else
                  parseTokensGo cfg input depth fuel rest nextPos (tagNode :: stack) doc := rfl

lemma parseTokensGo_autoOk (cfg : ParserConfig) (input : Str) (depth : Nat) :
    ∀ (fuel : Nat) (toks : List Tok) (pos : Nat) (stack : List TagNode)
      (doc : List Node) (out : List Node),
    (∀ t ∈ toks, urlPrefixOk t = true) →
    autoOkStack stack = true → autoOkDoc doc = true →
    parseTokensGo cfg input depth fuel toks pos stack doc = some out →
    autoOkDoc out = true := by
  intro fuel
  induction fuel with
  | zero =>
    intro toks pos stack doc out _ hst hd h
    have h0 : parseTokensGo cfg input depth 0 toks pos stack doc
        = some (drainStack stack doc) := by
      cases toks <;> rfl
    rw [h0, Option.some.injEq] at h
    subst h
    exact drainStack_autoOk hst hd
  | succ fuel ih =>
    intro toks pos stack doc out htoks hst hd h
    rcases toks with - | ⟨tok, rest⟩
    · rw [show parseTokensGo cfg input depth (fuel + 1) [] pos stack doc
        = some (drainStack stack doc) from rfl, Option.some.injEq] at h
      subst h
      exact drainStack_autoOk hst hd
    · rw [parseTokensGo_succ_cons] at h
      have hrest : ∀ t ∈ rest, urlPrefixOk t = true :=
        fun x hx => htoks x (List.mem_cons_of_mem _ hx)
      cases tok with
      | text s =>
        dsimp only at h
        obtain ⟨h1, h2⟩ := pushTo_autoOk (Node.text s) hst hd rfl
        exact ih rest _ _ _ out hrest h1 h2 h
      | linebreak s =>
        dsimp only at h
        obtain ⟨h1, h2⟩ := pushTo_autoOk Node.linebreak hst hd rfl
        exact ih rest _ _ _ out hrest h1 h2 h
      | url u =>
        dsimp only at h
        obtain ⟨h1, h2⟩ := pushTo_autoOk (Node.autoUrl u) hst hd
          (htoks _ (List.mem_cons_self _ _))
        exact ih rest _ _ _ out hrest h1 h2 h
      | closeTag raw name =>
        dsimp only at h
        rcases hf : stack.findIdx?
            (fun t => eqIgnoreAsciiCase t.name (asciiLower name)) with - | k
        · rw [hf] at h
          dsimp only at h
          obtain ⟨h1, h2⟩ := pushTo_autoOk (Node.text raw) hst hd rfl
          exact ih rest _ _ _ out hrest h1 h2 h
        · rw [hf] at h
          dsimp only at h
          have hsegtake : autoOkStack (stack.take (k + 1)) = true := by
            simp only [autoOkStack, List.all_eq_true] at hst ⊢
            exact fun t htk => hst t (List.mem_of_mem_take htk)
          have hsegdrop : autoOkStack (stack.drop (k + 1)) = true := by
            simp only [autoOkStack, List.all_eq_true] at hst ⊢
            exact fun t htk => hst t (List.mem_of_mem_drop htk)
          rcases hac : applyClose (stack.take (k + 1)) raw with - | folded
          · rw [hac] at h
            dsimp only at h
            exact ih rest _ _ _ out hrest hsegdrop hd h
          · rw [hac] at h
            dsimp only at h
            have hfold := applyClose_autoOk hsegtake hac
            obtain ⟨h1, h2⟩ := pushTo_autoOk (Node.ofTag folded) hsegdrop hd
              (by rw [autoOk_ofTag]; exact hfold)
            exact ih rest _ _ _ out hrest h1 h2 h
      | openTag raw name arg =>
        dsimp only [Tok.raw] at h
        have hAsText : parseTokensGo cfg input depth fuel rest
            (pos + byteLen raw) (pushTo stack doc (Node.text raw)).1
            (pushTo stack doc (Node.text raw)).2 = some out →
            autoOkDoc out = true := by
          intro h2
          obtain ⟨ha, hb⟩ := pushTo_autoOk (Node.text raw) hst hd rfl
          exact ih rest _ _ _ out hrest ha hb h2
        rcases hr : resolveTag (asciiLower name) with - | res
        · rw [hr] at h
          try dsimp only at h
          exact hAsText h
        · rw [hr] at h
          try dsimp only at h
          by_cases hdep : cfg.maxDepth ≤ depth + stack.length
          · rw [if_pos hdep] at h
            exact hAsText h
          · rw [if_neg hdep] at h
            by_cases hanc : ¬ checkAncestors stack res = true
            · rw [if_pos hanc] at h
              exact hAsText h
            · rw [if_neg hanc] at h
              by_cases hreq : ¬ hasRequiredParent res (stack.map TagNode.name) = true
              · rw [if_pos hreq] at h
                exact hAsText h
              · rw [if_neg hreq] at h
                by_cases hopt : res.optionRequired = true ∧ (parseOption arg).isNone = true
                · rw [if_pos hopt] at h
                  exact hAsText h
                · rw [if_neg hopt] at h
                  by_cases hsc : res.tagType = TagType.selfClosing
                  · rw [if_pos hsc] at h
                    by_cases hstar : res.name = S "*"
                    · rw [if_pos hstar] at h
                      try dsimp only at h
                      have hli := listItemGo_autoOk (rest.length + 1) rest
                        (pos + byteLen raw) .nil hrest rfl
                      obtain ⟨h1, h2⟩ := pushTo_autoOk (Node.ofTag
                        { name := asciiLower name, rawName := name,
                          opt := parseOption arg,
                          children := (listItemGo (rest.length + 1) rest
                            (pos + byteLen raw) NodeList.nil).1,
                          closed := true, rawOpen := raw, rawClose := [],
                          broken := false }) hst hd
                        (by rw [autoOk_ofTag]; exact hli.1)
                      exact ih _ _ _ _ out hli.2 h1 h2 h
                    · rw [if_neg hstar] at h
                      try dsimp only at h
                      obtain ⟨h1, h2⟩ := pushTo_autoOk (Node.ofTag
                        { name := asciiLower name, rawName := name,
                          opt := parseOption arg, children := NodeList.nil,
                          closed := true, rawOpen := raw, rawClose := [],
                          broken := false }) hst hd rfl
                      exact ih rest _ _ _ out hrest h1 h2 h
                  · rw [if_neg hsc] at h
                    by_cases hvb : res.tagType = TagType.verbatim
                    · rw [if_pos hvb] at h
                      rcases hdb : dropBytes input (pos + byteLen raw) with - | remainingStr
                      · rw [hdb] at h
                        exact absurd h (by simp)
                      · rw [hdb] at h
                        try dsimp only at h
                        rcases htc : tokenizeUntilClose remainingStr (asciiLower name)
                          with - | ⟨content, closeRaw, restStr⟩
                        · rw [htc] at h
                          exact absurd h (by simp)
                        · rw [htc] at h
                          try dsimp only at h
                          by_cases hce : ¬ closeRaw.isEmpty = true
                          · rw [if_pos hce] at h
                            try dsimp only at h
                            obtain ⟨h1, h2⟩ := pushTo_autoOk (Node.ofTag
                              { name := asciiLower name, rawName := name,
                                opt := parseOption arg,
                                children := NodeList.one (Node.text content),
                                closed := true, rawOpen := raw,
                                rawClose := closeRaw, broken := false })
                              hst hd rfl
                            refine ih _ _ _ _ out ?_ h1 h2 h
                            exact fun x hx => hrest x (skipToksGo_mem _ _ _ _ hx)
                          · rw [if_neg hce] at h
                            refine ih rest _ _ _ out hrest ?_ hd h
                            simp only [autoOkStack, List.all_cons, Bool.and_eq_true]
                            exact ⟨rfl, hst⟩
                    · rw [if_neg hvb] at h
                      refine ih rest _ _ _ out hrest ?_ hd h
                      simp only [autoOkStack, List.all_cons, Bool.and_eq_true]
                      exact ⟨rfl, hst⟩

lemma parseDoc_autoOk {cfg : ParserConfig} {input : Str} {doc : List Node}
    (h : parseDoc cfg input = some doc) : autoOkDoc doc = true := by
  unfold parseDoc at h
  exact parseTokensGo_autoOk cfg input 0 ((tokenize input).length + 1)
    (tokenize input) 0 [] [] doc (tokenize_urlPrefix input) rfl rfl h

set_option maxRecDepth 10000 in
/-- C2 (corrected): the claim's "no `on*=` attribute at the attribute
level" fails on the renderer's own inline-spoiler toggle — `[ispoiler]`
emits a hardcoded `onclick=` attribute via `render_ispoiler` (second and
third conjuncts); `render_spoiler` is not involved, its `[spoiler]` output
carries no `on*=` word. The amended property holds: for every parsed
document and every sanitizing render configuration whose class prefix
carries no quote, the only `on*=` word at attribute level in the rendered
output is that literal `onclick=` toggle (first conjunct). -/
theorem c2_attr_event_handlers_only_onclick :
    (∀ (pcfg : ParserConfig) (cfg : RenderConfig) (input : Str)
       (doc : List Node),
      parseDoc pcfg input = some doc → cfg.sanitize = true →
      '"' ∉ cfg.classPre →
      ∀ w ∈ attrOnWords (renderDoc cfg doc), w = S "onclick=") ∧
    parseDoc defaultParserConfig (S "[ispoiler]x[/ispoiler]")
      = some [Node.tag (S "ispoiler") (S "ispoiler") TagOpt.none
          (NodeList.one (Node.text (S "x"))) true (S "[ispoiler]")
          (S "[/ispoiler]") false] ∧
    S "onclick=" ∈ attrOnWords (renderDoc defaultRenderConfig
      [Node.tag (S "ispoiler") (S "ispoiler") TagOpt.none
        (NodeList.one (Node.text (S "x"))) true (S "[ispoiler]")
        (S "[/ispoiler]") false]) := by
  refine ⟨?_, by decide, by decide⟩
  intro pcfg cfg input doc hparse hs hcp w hw
  have hok := renderNodes_ok cfg hs hcp doc (parseDoc_autoOk hparse)
  obtain ⟨-, -, -, hsegs, -⟩ := hok
  rw [attrOnWords, List.mem_flatMap] at hw
  obtain ⟨seg, hseg, hwm⟩ := hw
  have hso := hsegs seg hseg
  rw [SegOk, List.all_eq_true] at hso
  exact of_decide_eq_true (hso w hwm)

set_option maxRecDepth 10000 in
theorem c2_attr_event_handlers_only_onclick_witness :
    S "onclick=" = S "onclick=" :=
  c2_attr_event_handlers_only_onclick.1 defaultParserConfig
    defaultRenderConfig (S "[ispoiler]x[/ispoiler]")
    [Node.tag (S "ispoiler") (S "ispoiler") TagOpt.none
      (NodeList.one (Node.text (S "x"))) true (S "[ispoiler]")
      (S "[/ispoiler]") false]
    (by decide) rfl (by decide) (S "onclick=") (by decide)

set_option maxRecDepth 10000 in
/-- C4 (corrected): the scheme allow-list is consulted only by
`is_valid_url` for `[url]` values; `render_email` emits `mailto:`
unconditionally and auto-detected URLs bypass the validator, so an href
scheme outside `allowed_schemes` is reachable — with `mailto` removed from
the allow-list, `[email]a@b.com[/email]` still renders an anchor whose
href has scheme `mailto` (later conjuncts). The amended property (first
conjunct): for every parsed document and every sanitizing configuration
whose class prefix carries no quote, every href value in the output is the
escaping of a URL accepted by `is_valid_url` against the configured
schemes, `mailto:` plus an escaped address, the escaping of an
`http(s)://`-prefixed auto-detected URL, or the literal `#`. -/
theorem c4_href_scheme_origins :
    (∀ (pcfg : ParserConfig) (cfg : RenderConfig) (input : Str)
       (doc : List Node),
      parseDoc pcfg input = some doc → cfg.sanitize = true →
      '"' ∉ cfg.classPre →
      ∀ v ∈ hrefValues (renderDoc cfg doc), HrefSrc cfg v) ∧
    parseDoc defaultParserConfig (S "[email]a@b.com[/email]")
      = some [Node.tag (S "email") (S "email") TagOpt.none
          (NodeList.one (Node.text (S "a@b.com"))) true (S "[email]")
          (S "[/email]") false] ∧
    hrefValues (renderDoc
      { defaultRenderConfig with allowedSchemes := [S "http", S "https"] }
      [Node.tag (S "email") (S "email") TagOpt.none
        (NodeList.one (Node.text (S "a@b.com"))) true (S "[email]")
        (S "[/email]") false]) = [S "mailto:a@b.com"] ∧
    schemeOf (S "mailto:a@b.com") = some (S "mailto") ∧
    S "mailto" ∉
      ({ defaultRenderConfig with
          allowedSchemes := [S "http", S "https"] } : RenderConfig).allowedSchemes := by
  refine ⟨?_, by decide, by decide, by decide, by decide⟩
  intro pcfg cfg input doc hparse hs hcp v hv
  have hok := renderNodes_ok cfg hs hcp doc (parseDoc_autoOk hparse)
  obtain ⟨-, -, -, -, hhr⟩ := hok
  exact hhr v hv

set_option maxRecDepth 10000 in
theorem c4_href_scheme_origins_witness :
    HrefSrc { defaultRenderConfig with allowedSchemes := [S "http", S "https"] }
      (S "mailto:a@b.com") :=
  c4_href_scheme_origins.1 defaultParserConfig
    { defaultRenderConfig with allowedSchemes := [S "http", S "https"] }
    (S "[email]a@b.com[/email]")
    [Node.tag (S "email") (S "email") TagOpt.none
      (NodeList.one (Node.text (S "a@b.com"))) true (S "[email]")
      (S "[/email]") false]
    (by decide) rfl (by decide) (S "mailto:a@b.com") (by decide)

set_option maxRecDepth 10000 in
/-- Counterexample to C2 as frozen: the default render of
`[ispoiler]x[/ispoiler]` succeeds and carries the `on*=` word `onclick=`
at attribute level. -/
theorem c2_onclick_attr_emitted :
    (parseRender (S "[ispoiler]x[/ispoiler]")).isSome = true ∧
    S "onclick=" ∈ attrOnWords
      ((parseRender (S "[ispoiler]x[/ispoiler]")).getD []) := by
  refine ⟨by decide, by decide⟩

/-- Counterexample to C3 as frozen: this auto-detected URL fails
`is_valid_url` (it contains `onclick=`), yet `render_auto_url` still opens
an `<a>` anchor for it. -/
theorem c3_rejected_auto_url_still_anchor :
    isValidUrl (S "https://x.com/onclick=1") defaultRenderConfig.allowedSchemes
      = false ∧
    (renderAutoUrl defaultRenderConfig (S "https://x.com/onclick=1")).take 10
      = S "<a class=\"" := by
  refine ⟨by decide, by decide⟩

set_option maxRecDepth 10000 in
/-- Counterexample to C4 as frozen: with `mailto` removed from the
allow-list, `[email]a@b.com[/email]` still renders an anchor whose href
scheme is `mailto`. -/
theorem c4_mailto_scheme_not_allowlisted :
    hrefValues (renderDoc
      { defaultRenderConfig with allowedSchemes := [S "http", S "https"] }
      ((parseDoc defaultParserConfig (S "[email]a@b.com[/email]")).getD []))
      = [S "mailto:a@b.com"] ∧
    schemeOf (S "mailto:a@b.com") = some (S "mailto") ∧
    S "mailto" ∉ [S "http", S "https"] := by
  refine ⟨by decide, by decide, by decide⟩

set_option maxRecDepth 10000 in
/-- Counterexample to C5 as frozen: `transparent` is accepted by the color
validator and `[color=transparent]` is styled, not rejected. -/
theorem c5_transparent_accepted :
    isValidColor (S "transparent") = true ∧
    parseRender (S "[color=transparent]x[/color]") =
      some (S "<span class=\"bbcode-color\" style=\"color: transparent;\">x</span>") := by
  refine ⟨by decide, by decide⟩

set_option maxRecDepth 10000 in
/-- Counterexample to C6 as frozen: an address containing the handler
substring `onblur=` is still emitted as a `mailto:` anchor. -/
theorem c6_onblur_email_rendered :
    parseRender (S "[email=a@bonblur=c]x[/email]") =
      some (S "<a class=\"bbcode-email\" href=\"mailto:a@bonblur=c\">x</a>") := by
  decide

set_option maxRecDepth 10000 in
/-- Counterexample to C7 as frozen: the aliased close tag `[/noparse]` does
not terminate a `[plain]` verbatim region (it survives as literal text and
the tag never closes), while the typed name does close it. -/
theorem c7_alias_close_ignored :
    parseRender (S "[plain]x[/noparse]") = some (S "x[/noparse]") ∧
    parseRender (S "[noparse]x[/noparse]") = some (S "x") := by
  refine ⟨by decide, by decide⟩

end BB
